import Mathlib

/-! # Undo logging over the xv6 buffer cache

A shallow embedding of `bio.c` (buffer cache) and `log.c` (undo log) together with
theorems about crash recovery, eviction and log bookkeeping.

Modelling conventions.
* The recency list `head.next ... head.prev` is the list `Bcache.order` of slot indices
  into `bcache.buf`; the sentinel `bcache.head` is kept as a buffer of its own because
  `bget_old` and `bget_new` can return a pointer to it.
* A payload is the sequence of 32-bit words of one block; the log header overlays
  word `0` (`n`) and words `1 ..` (`block[]`).
* `uint refcnt` wraps modulo `2^32`; block numbers, `start`, `size` and `n` are taken
  non-negative and below `2^31`, so that the `int`/`uint` conversions are the identity.
* A fatal `panic` ends the run and keeps the state reached (the disk is what a reboot sees).
-/

namespace UndoLog

/-! ## Parameters (`param.h`) -/

def MAXOPBLOCKS : Nat := 10

def LOGSIZE : Nat := MAXOPBLOCKS * 3

def NBUF : Nat := MAXOPBLOCKS * 3

/-- Modelled from the spec: `fs.h` is not among the sources; the block size `BSIZE` is the
xv6 value of 512 bytes (the header `{ n, block[LOGSIZE] }` must be smaller). -/
def BSIZE : Nat := 512

/-! ## Data model -/

/-- Payload of one block, as a map from word index to 32-bit word. -/
abbrev Data := Nat → Nat

/-- The block device(s): device number, block number, payload. -/
abbrev Disk := Nat → Nat → Data

/-- Modelled from the spec: `buf.h` is not among the sources. A buffer has a device, a block
number, the flag set VALID, DIRTY, OLD (one boolean per bit of `flags`), a reference count
and a payload. -/
structure Buf where
  dev : Nat
  blockno : Nat
  valid : Bool
  dirty : Bool
  old : Bool
  refcnt : Nat
  data : Data

/-- A `struct buf *`: one of the `bcache.buf` slots or the list sentinel `&bcache.head`. -/
inductive BufPtr where
  | slot (i : Nat)
  | head
deriving DecidableEq, Repr

/-- The global `bcache`: the slot array, the sentinel and the recency list
(`order` runs from `head.next`, most recently used, to `head.prev`). -/
structure Bcache where
  buf : Nat → Buf
  head : Buf
  order : List Nat

/-- The global `log` with its in-memory header `lh`. -/
structure Log where
  start : Nat
  size : Nat
  dev : Nat
  n : Nat
  block : Nat → Nat

/-- Whole machine state: cache, log and disk. -/
structure State where
  bcache : Bcache
  log : Log
  disk : Disk

/-- The fatal aborts of `bio.c` and `log.c`. -/
inductive Panic where
  | bget_no_buffers
  | too_big_a_transaction
  | initlog_too_big_logheader
  | commit_type_1
  | commit_type_2
  | commit_type_3
  | commit_type_4
  | install_trans_type_5
deriving DecidableEq, Repr

/-- Outcome of a call: it returns a value in a new state, or it panics in the state reached. -/
inductive Res (α : Type) where
  | ok (a : α) (s : State)
  | panic (p : Panic) (s : State)

/-- Sequencing of calls; a panic stops the run. -/
def Res.bind {α β : Type} (r : Res α) (f : α → State → Res β) : Res β :=
  match r with
  | .ok a s => f a s
  | .panic p s => .panic p s

/-- The state in which a run ended, returned or panicked. -/
def Res.state {α : Type} : Res α → State
  | .ok _ s => s
  | .panic _ s => s

/-- True when the call returned. -/
def Res.isOk {α : Type} : Res α → Bool
  | .ok _ _ => true
  | .panic _ _ => false

/-- The value a run returned, if it returned. -/
def Res.result {α : Type} : Res α → Option α
  | .ok a _ => some a
  | .panic _ _ => none

/-- The panic a run ended with, if any. -/
def Res.panicOf {α : Type} : Res α → Option Panic
  | .ok _ _ => none
  | .panic p _ => some p

/-- Modelled from the spec: `logflag.h` is not among the sources. The fault-injection
switches `PANIC_1 .. PANIC_4` and the value of `LOG_FLAG`. -/
structure FaultFlags where
  PANIC_1 : Bool
  PANIC_2 : Bool
  PANIC_3 : Bool
  PANIC_4 : Bool
  LOG_FLAG : Nat

/-- No fault is injected. -/
def noFault : FaultFlags :=
  { PANIC_1 := false, PANIC_2 := false, PANIC_3 := false, PANIC_4 := false, LOG_FLAG := 0 }

/-- Modelled from the spec: the superblock (`fs.h`, read by `readsb` of `fs.c`) is not among
the sources; only the log-region start and block count are consumed. -/
structure Superblock where
  logstart : Nat
  nlog : Nat

/-! ## Buffer cache (`bio.c`) -/

/-- Dereference a buffer pointer. -/
def getBuf (c : Bcache) : BufPtr → Buf
  | .slot i => c.buf i
  | .head => c.head

/-- Store through a buffer pointer. -/
def setBuf (c : Bcache) (p : BufPtr) (b : Buf) : Bcache :=
  match p with
  | .slot i => { c with buf := fun j => if j = i then b else c.buf j }
  | .head => { c with head := b }

/-- Store through a buffer pointer, in a machine state. -/
def State.setBuf (s : State) (p : BufPtr) (b : Buf) : State :=
  { s with bcache := UndoLog.setBuf s.bcache p b }

/-- Dereference a buffer pointer, in a machine state. -/
def State.getBuf (s : State) (p : BufPtr) : Buf :=
  UndoLog.getBuf s.bcache p

/-- Replace the disk. -/
def State.setDisk (s : State) (d : Disk) : State := { s with disk := d }

/-- Replace the in-memory log. -/
def State.setLog (s : State) (lg : Log) : State := { s with log := lg }

/-- `refcnt++` on a `uint`. -/
def refInc (r : Nat) : Nat := (r + 1) % 4294967296

/-- `refcnt--` on a `uint` (0 wraps to `2^32 - 1`). -/
def refDec (r : Nat) : Nat := (r + 4294967295) % 4294967296

/-- Apply a change to the buffer a pointer designates. -/
def State.modBuf (s : State) (p : BufPtr) (f : Buf → Buf) : State :=
  s.setBuf p (f (s.getBuf p))

/-- Store into `b->refcnt`. -/
def Buf.setRefcnt (b : Buf) (r : Nat) : Buf := { b with refcnt := r }

/-- Set or clear VALID in `b->flags`. -/
def Buf.setValid (b : Buf) (v : Bool) : Buf := { b with valid := v }

/-- Set or clear DIRTY in `b->flags`. -/
def Buf.setDirty (b : Buf) (v : Bool) : Buf := { b with dirty := v }

/-- Set or clear OLD in `b->flags`. -/
def Buf.setOld (b : Buf) (v : Bool) : Buf := { b with old := v }

/-- Overwrite `b->data`. -/
def Buf.setData (b : Buf) (d : Data) : Buf := { b with data := d }

/-- Overwrite the whole of `b->flags` with the flags of `src`. -/
def Buf.copyFlags (b src : Buf) : Buf :=
  { b with valid := src.valid, dirty := src.dirty, old := src.old }

/-- A zeroed `struct buf` (static storage at boot). -/
def zeroBuf : Buf :=
  { dev := 0, blockno := 0, valid := false, dirty := false, old := false, refcnt := 0,
    data := fun _ => 0 }

/-- The zeroed `bcache` before `binit`. -/
def zeroBcache : Bcache :=
  { buf := fun _ => zeroBuf, head := zeroBuf, order := [] }

/-- The zeroed `log` before `initlog`. -/
def zeroLog : Log :=
  { start := 0, size := 0, dev := 0, n := 0, block := fun _ => 0 }

/-- `binit`: link every slot in at `head.next`, so slot `NBUF-1` ends up most recently used
and slot `0` least recently used. -/
def binit (c : Bcache) : Bcache :=
  { c with order := (List.range NBUF).foldl (fun o b => b :: o) [] }

/-- Lookup test of `bget`: same device and block number. -/
def matches_ (c : Bcache) (dev blockno : Nat) (i : Nat) : Bool :=
  (c.buf i).dev == dev && (c.buf i).blockno == blockno

/-- Lookup test of `bget_old`: same device and block number, OLD set. -/
def matchesOld (c : Bcache) (dev blockno : Nat) (i : Nat) : Bool :=
  matches_ c dev blockno i && (c.buf i).old

/-- Lookup test of `bget_new`: same device and block number, OLD unset. -/
def matchesNew (c : Bcache) (dev blockno : Nat) (i : Nat) : Bool :=
  matches_ c dev blockno i && !(c.buf i).old

/-- Recycle test of `bget` and `bget_again`: reference count zero and DIRTY unset. -/
def recyclable (c : Bcache) (i : Nat) : Bool :=
  (c.buf i).refcnt == 0 && !(c.buf i).dirty

/-- The recycled buffer: device and block reassigned, flags cleared, reference count one. -/
def recycle (b : Buf) (dev blockno : Nat) : Buf :=
  { b with dev := dev, blockno := blockno, valid := false, dirty := false, old := false,
           refcnt := 1 }

/-- `bget_again`: the recycle scan from `head.prev`. -/
def bget_again (s : State) (dev blockno : Nat) : Res BufPtr :=
  match s.bcache.order.reverse.find? (recyclable s.bcache) with
  | some i => .ok (.slot i) (s.setBuf (.slot i) (recycle (s.bcache.buf i) dev blockno))
  | none => .panic .bget_no_buffers s

/-- `bget`: lookup scan from `head.next`, then the recycle scan from `head.prev`. -/
def bget (s : State) (dev blockno : Nat) : Res BufPtr :=
  match s.bcache.order.find? (matches_ s.bcache dev blockno) with
  | some i =>
    .ok (.slot i)
      (s.setBuf (.slot i) ((s.bcache.buf i).setRefcnt (refInc (s.bcache.buf i).refcnt)))
  | none =>
    match s.bcache.order.reverse.find? (recyclable s.bcache) with
    | some i => .ok (.slot i) (s.setBuf (.slot i) (recycle (s.bcache.buf i) dev blockno))
    | none => .panic .bget_no_buffers s

/-- `bget_old`: first buffer from `head.next` with the device, block number and OLD set;
the loop variable, `&bcache.head`, when the scan finds none. -/
def bget_old (s : State) (dev blockno : Nat) : BufPtr :=
  match s.bcache.order.find? (matchesOld s.bcache dev blockno) with
  | some i => .slot i
  | none => .head

/-- `bget_new`: first buffer from `head.next` with the device, block number and OLD unset;
the loop variable, `&bcache.head`, when the scan finds none. -/
def bget_new (s : State) (dev blockno : Nat) : BufPtr :=
  match s.bcache.order.find? (matchesNew s.bcache dev blockno) with
  | some i => .slot i
  | none => .head

/-- The disk after a write of payload `d` to block `blockno` of device `dev`. -/
def writeDisk (disk : Disk) (dev blockno : Nat) (d : Data) : Disk :=
  fun d' k => if d' = dev ∧ k = blockno then d else disk d' k

/-- Modelled from the spec: `ide.c` is not among the sources. The synchronous device
primitive: a write of the payload when DIRTY is set, a read into the payload when DIRTY is
unset and VALID is unset; afterwards VALID is set and DIRTY is clear. -/
def iderw (s : State) (p : BufPtr) : State :=
  if (s.getBuf p).dirty then
    (s.modBuf p (fun b => (b.setValid true).setDirty false)).setDisk
      (writeDisk s.disk (s.getBuf p).dev (s.getBuf p).blockno (s.getBuf p).data)
  else if (s.getBuf p).valid then s
  else s.modBuf p (fun b => (b.setValid true).setData (s.disk b.dev b.blockno))

/-- `bread`. -/
def bread (s : State) (dev blockno : Nat) : Res BufPtr :=
  (bget s dev blockno).bind fun b s1 =>
    if (s1.getBuf b).valid then .ok b s1 else .ok b (iderw s1 b)

/-- `bwrite`. -/
def bwrite (s : State) (p : BufPtr) : State :=
  iderw (s.modBuf p (fun b => b.setDirty true)) p

/-- The part of `bread_wr` after the two buffers are obtained: the second receives the
payload and then the flags of the first, both are read when the first is not VALID, and
the second is tagged OLD. -/
def bread_wr_fill (s : State) (bnew bold : BufPtr) : State :=
  let s3 := s.modBuf bold (fun b => b.setData (s.getBuf bnew).data)
  let s4 := s3.modBuf bold (fun b => b.copyFlags (s3.getBuf bnew))
  if (s4.getBuf bnew).valid then s4.modBuf bold (fun b => b.setOld true)
  else (iderw (iderw s4 bnew) bold).modBuf bold (fun b => b.setOld true)

/-- `bread_wr`: a working copy from `bget`, a second slot from `bget_again`, filled and
tagged by `bread_wr_fill`; the working copy is returned. -/
def bread_wr (s : State) (dev blockno : Nat) : Res BufPtr :=
  (bget s dev blockno).bind fun bnew s1 =>
  (bget_again s1 dev blockno).bind fun bold s2 =>
    .ok bnew (bread_wr_fill s2 bnew bold)

/-- `bread_wr_old`. -/
def bread_wr_old (s : State) (dev blockno : Nat) : BufPtr :=
  bget_old s dev blockno

/-- `bread_wr_new`. -/
def bread_wr_new (s : State) (dev blockno : Nat) : BufPtr :=
  bget_new s dev blockno

/-- The relinking of `brelse`: the buffer moves to `head.next`. (Relinking the sentinel
unlinks it from its own ring: both scans then see an empty list.) -/
def relink (c : Bcache) : BufPtr → Bcache
  | .slot i => { c with order := i :: c.order.erase i }
  | .head => { c with order := [] }

/-- The relinking of `brelse`, in a machine state. -/
def State.relink (s : State) (p : BufPtr) : State :=
  { s with bcache := UndoLog.relink s.bcache p }

/-- `brelse`: decrement the reference count; at zero move the buffer to `head.next`. -/
def brelse (s : State) (p : BufPtr) : State :=
  if refDec (s.getBuf p).refcnt = 0 then
    (s.modBuf p (fun b => b.setRefcnt (refDec b.refcnt))).relink p
  else s.modBuf p (fun b => b.setRefcnt (refDec b.refcnt))

/-- The caller overwrites the payload of a buffer it holds. -/
def setData (s : State) (p : BufPtr) (d : Data) : State :=
  s.modBuf p (fun b => b.setData d)

/-! ## Log (`log.c`) -/

/-- Header view of a payload: the count `n`. -/
def hdr_n (d : Data) : Nat := d 0

/-- Header view of a payload: `block[i]`. -/
def hdr_block (d : Data) (i : Nat) : Nat := d (i + 1)

/-- The `for` loop of `read_head`: copy `block[0..n)` from the header payload. -/
def read_head_loop (d : Data) (block : Nat → Nat) : Nat → Nat → Nat
  | 0 => block
  | i + 1 => fun j => if j = i then hdr_block d i else read_head_loop d block i j

/-- The in-memory header after `read_head` has copied `n` and `block[0..n)` from the
payload `d`. -/
def Log.load (lg : Log) (d : Data) : Log :=
  { lg with n := hdr_n d, block := read_head_loop d lg.block (hdr_n d) }

/-- `read_head`. -/
def read_head (s : State) : Res Unit :=
  (bread s s.log.dev s.log.start).bind fun buf s1 =>
    .ok () (brelse (s1.setLog (s1.log.load (s1.getBuf buf).data)) buf)

/-- The stores of the `for` loop of `write_head` into the header payload:
`hb->block[0..n)`. -/
def write_head_loop (block : Nat → Nat) (d : Data) : Nat → Data
  | 0 => d
  | i + 1 => fun j => if j = i + 1 then block i else write_head_loop block d i j

/-- The header payload after `write_head` has stored `hb->n` and `hb->block[0..n)`. -/
def write_head_data (lg : Log) (d : Data) : Data :=
  write_head_loop lg.block (fun j => if j = 0 then lg.n else d j) lg.n

/-- `write_head`. -/
def write_head (s : State) : Res Unit :=
  (bread s s.log.dev s.log.start).bind fun buf s1 =>
    .ok () (brelse (bwrite (setData s1 buf (write_head_data s1.log (s1.getBuf buf).data)) buf) buf)

/-- The `for` loop of `install_trans`, from index `tail` for `fuel` more entries. -/
def install_trans_loop (f : FaultFlags) : Nat → Nat → State → Res Unit
  | 0, _, s => .ok () s
  | fuel + 1, tail, s =>
    if f.LOG_FLAG = 5 ∧ tail = s.log.n / 2 then .panic .install_trans_type_5 s
    else
      install_trans_loop f fuel (tail + 1)
        (bwrite s (bread_wr_new s s.log.dev (s.log.block tail)))

/-- `install_trans`. -/
def install_trans (f : FaultFlags) (s : State) : Res Unit :=
  install_trans_loop f s.log.n 0 s

/-- The body of the `for` loop of `install_trans_old` at index `tail`. -/
def install_old_step (s : State) (tail : Nat) : Res Unit :=
  (bread s s.log.dev (s.log.start + tail + 1)).bind fun lbuf s1 =>
  (bread s1 s1.log.dev (s1.log.block tail)).bind fun dbuf s2 =>
    .ok () (brelse (brelse (bwrite (setData s2 dbuf (s2.getBuf lbuf).data) dbuf) lbuf) dbuf)

/-- The `for` loop of `install_trans_old`, from index `tail` for `fuel` more entries. -/
def install_trans_old_loop : Nat → Nat → State → Res Unit
  | 0, _, s => .ok () s
  | fuel + 1, tail, s =>
    (install_old_step s tail).bind fun _ s1 => install_trans_old_loop fuel (tail + 1) s1

/-- `install_trans_old`. -/
def install_trans_old (s : State) : Res Unit :=
  install_trans_old_loop s.log.n 0 s

/-- `recover_from_log`. -/
def recover_from_log (s : State) : Res Unit :=
  (read_head s).bind fun _ s1 => install_trans_old s1

/-- `initlog`; the superblock that `readsb` fills in is a parameter. -/
def initlog (s : State) (dev : Nat) (sb : Superblock) : Res Unit :=
  if 4 * (LOGSIZE + 1) ≥ BSIZE then .panic .initlog_too_big_logheader s
  else
    recover_from_log
      (s.setLog { s.log with start := sb.logstart, size := sb.nlog, dev := dev })

/-- `commit`. -/
def commit (f : FaultFlags) (s : State) : Res Unit :=
  if s.log.n > 0 then
    if f.PANIC_1 then .panic .commit_type_1 s
    else
      (write_head s).bind fun _ s1 =>
        if f.PANIC_2 then .panic .commit_type_2 s1
        else
          (install_trans f s1).bind fun _ s2 =>
            if f.PANIC_3 then .panic .commit_type_3 s2
            else
              (write_head (s2.setLog { s2.log with n := 0 })).bind fun _ s3 =>
                if f.PANIC_4 then .panic .commit_type_4 s3
                else .ok () s3
  else .ok () s

/-- `end_op`. -/
def end_op (f : FaultFlags) (s : State) : Res Unit :=
  commit f s

/-- The absorption search of `log_write`: least `i < n` with `block[i] = blockno`,
else `n`. -/
def absorb_index (block : Nat → Nat) (blockno : Nat) : Nat → Nat → Nat
  | 0, i => i
  | fuel + 1, i => if block i = blockno then i else absorb_index block blockno fuel (i + 1)

/-- The header update of `log_write`: `block[i] = blockno`, and `n++` when `i == n`. -/
def Log.record (lg : Log) (i blockno : Nat) : Log :=
  { lg with block := fun j => if j = i then blockno else lg.block j,
            n := if i = lg.n then lg.n + 1 else lg.n }

/-- The second half of `log_write`, once entry `i` is recorded: copy the OLD-tagged
pre-image to log data block `start + i + 1`, write it, release both buffers and set DIRTY
on the caller's buffer. -/
def log_write_copy (s : State) (i : Nat) (b : BufPtr) : Res Unit :=
  (bread s s.log.dev (s.log.start + i + 1)).bind fun tobuf s1 =>
    let frm := bread_wr_old s1 s1.log.dev (s1.log.block i)
    let s3 := bwrite (setData s1 tobuf (s1.getBuf frm).data) tobuf
    let s4 := s3.modBuf frm (fun x => x.setDirty false)
    .ok () ((brelse (brelse s4 frm) tobuf).modBuf b (fun x => x.setDirty true))

/-- `log_write`. -/
def log_write (s : State) (b : BufPtr) : Res Unit :=
  if s.log.n ≥ LOGSIZE ∨ (s.log.n : Int) ≥ (s.log.size : Int) - 1 then
    .panic .too_big_a_transaction s
  else
    let i := absorb_index s.log.block (s.getBuf b).blockno s.log.n 0
    log_write_copy (s.setLog (s.log.record i (s.getBuf b).blockno)) i b

/-! ## Boot and transactions -/

/-- Boot: zeroed memory, `binit`, then `initlog` (which runs recovery) on the given disk. -/
def boot (disk : Disk) (dev : Nat) (sb : Superblock) : Res Unit :=
  initlog { bcache := binit zeroBcache, log := zeroLog, disk := disk } dev sb

/-- One update of a transaction: `bread_wr`, overwrite the payload, `log_write`, `brelse`. -/
def txn_write (s : State) (blockno : Nat) (payload : Data) : Res Unit :=
  (bread_wr s s.log.dev blockno).bind fun b s1 =>
  (log_write (setData s1 b payload) b).bind fun _ s2 =>
    .ok () (brelse s2 b)

/-- The updates of a transaction, in order. -/
def txn_body (s : State) : List (Nat × Data) → Res Unit
  | [] => .ok () s
  | (blockno, payload) :: rest =>
    (txn_write s blockno payload).bind fun _ s1 => txn_body s1 rest

/-- A whole transaction: its updates, then `end_op`. -/
def txn (f : FaultFlags) (s : State) (ws : List (Nat × Data)) : Res Unit :=
  (txn_body s ws).bind fun _ s1 => end_op f s1

/-! ## Predicates used in the statements -/

/-- Every buffer that has DIRTY set also has VALID set. -/
def Jinv (s : State) : Prop :=
  ∀ p : BufPtr, (s.getBuf p).dirty = true → (s.getBuf p).valid = true

/-- Block `k` of device `d` lies in the log region `start .. start + size - 1` of the log
device. -/
def inLogRegion (lg : Log) (d k : Nat) : Prop :=
  d = lg.dev ∧ lg.start ≤ k ∧ k < lg.start + lg.size

/-- Block `k` of device `d` is a log data block: in the log region, after the header. -/
def inLogData (lg : Log) (d k : Nat) : Prop :=
  d = lg.dev ∧ lg.start + 1 ≤ k ∧ k < lg.start + lg.size

/-- The log region is where it was: `start`, `size` and `dev` are unchanged. -/
def LogConst (s s' : State) : Prop :=
  s'.log.start = s.log.start ∧ s'.log.size = s.log.size ∧ s'.log.dev = s.log.dev

/-- Between `s` and `s'` DIRTY still implies VALID, the log region is where it was, and the
disk changed at most in log data blocks. -/
def BodyFrame (s s' : State) : Prop :=
  Jinv s' ∧ LogConst s s' ∧ ∀ d k, ¬ inLogData s.log d k → s'.disk d k = s.disk d k

/-- The buffer `bread` leaves for a block it had to load or found clean: VALID only,
reference count 1, payload `d`. -/
def loaded (dev blockno : Nat) (d : Data) : Buf :=
  { dev := dev, blockno := blockno, valid := true, dirty := false, old := false, refcnt := 1,
    data := d }

/-- Cache invariant during recovery, `held` being the slots currently acquired: every
buffer on the list is neither DIRTY nor OLD, has reference count 1 when held and 0
otherwise, and when VALID it holds the disk content of its block and is the first buffer on
the list for its device and block. -/
structure RInvH (s : State) (held : List Nat) : Prop where
  nodup : s.bcache.order.Nodup
  heldnd : held.Nodup
  heldsub : ∀ i ∈ held, i ∈ s.bcache.order ∧ (s.bcache.buf i).valid = true
  ref : ∀ i ∈ s.bcache.order, (s.bcache.buf i).refcnt = if i ∈ held then 1 else 0
  nodirty : ∀ i ∈ s.bcache.order, (s.bcache.buf i).dirty = false
  noold : ∀ i ∈ s.bcache.order, (s.bcache.buf i).old = false
  coh : ∀ i ∈ s.bcache.order, (s.bcache.buf i).valid = true →
    (s.bcache.buf i).data = s.disk (s.bcache.buf i).dev (s.bcache.buf i).blockno
  first : ∀ i ∈ s.bcache.order, (s.bcache.buf i).valid = true →
    s.bcache.order.find? (matches_ s.bcache (s.bcache.buf i).dev (s.bcache.buf i).blockno) =
      some i

/-- The disk after the loop of `install_trans_old` has run entries `tail .. tail + fuel - 1`
of the in-memory header `lg`: each home block receives what its log data block holds at
that moment. -/
def undo_disk (lg : Log) : Nat → Nat → Disk → Disk
  | 0, _, disk => disk
  | fuel + 1, tail, disk =>
    undo_disk lg fuel (tail + 1)
      (writeDisk disk lg.dev (lg.block tail) (disk lg.dev (lg.start + tail + 1)))

/-- The in-memory entries `block[k], block[k+1], ...` are the block numbers `bs`. -/
def BlocksFrom (block : Nat → Nat) : Nat → List Nat → Prop
  | _, [] => True
  | k, b :: bs => block k = b ∧ BlocksFrom block (k + 1) bs

/-- The working copy that an update leaves pinned: VALID and DIRTY, not OLD, released. -/
def pinnedBuf (dev blockno : Nat) (d : Data) : Buf :=
  { dev := dev, blockno := blockno, valid := true, dirty := true, old := false, refcnt := 0,
    data := d }

/-- Cache and log invariant between the updates of a transaction that started on a fresh
cache. `pins` lists, in log order, the slot, home block and payload of each update made so
far. Each pinned slot holds `pinnedBuf` and is the first non-OLD buffer of its block; every
other buffer is recyclable; a buffer of the log device whose block is neither a logged
home block nor one of the log data blocks in use has neither VALID nor OLD set; the
in-memory header lists the home blocks, which are pairwise distinct and outside the log
region. -/
structure TInv (s : State) (pins : List (Nat × Nat × Data)) : Prop where
  nodup : s.bcache.order.Nodup
  pinned : ∀ t ∈ pins, t.1 ∈ s.bcache.order ∧
    s.bcache.buf t.1 = pinnedBuf s.log.dev t.2.1 t.2.2 ∧
    s.bcache.order.find? (matchesNew s.bcache s.log.dev t.2.1) = some t.1
  free : ∀ i ∈ s.bcache.order, (∀ t ∈ pins, t.1 ≠ i) →
    (s.bcache.buf i).refcnt = 0 ∧ (s.bcache.buf i).dirty = false
  fresh : ∀ i ∈ s.bcache.order, (s.bcache.buf i).dev = s.log.dev →
    (∀ t ∈ pins, t.2.1 ≠ (s.bcache.buf i).blockno) →
    ¬ (s.log.start + 1 ≤ (s.bcache.buf i).blockno ∧
        (s.bcache.buf i).blockno ≤ s.log.start + pins.length) →
    (s.bcache.buf i).valid = false ∧ (s.bcache.buf i).old = false
  logn : s.log.n = pins.length
  logblock : BlocksFrom s.log.block 0 (pins.map fun t => t.2.1)
  outside : ∀ t ∈ pins, ¬ (s.log.start ≤ t.2.1 ∧ t.2.1 < s.log.start + s.log.size)
  distinct : (pins.map fun t => t.2.1).Nodup

/-- Read-only use of a list of blocks: `bread` then `brelse` on each, in order. -/
def churn (s : State) (dev : Nat) : List Nat → Res Unit
  | [] => .ok () s
  | b :: bs => (bread s dev b).bind fun p s1 => churn (brelse s1 p) dev bs

/-- A sequence of transactions, each run to completion with no fault injected. -/
def run_txns (s : State) : List (List (Nat × Data)) → Res Unit
  | [] => .ok () s
  | ws :: rest => (txn noFault s ws).bind fun _ s1 => run_txns s1 rest

/-! ## Concrete inputs -/

/-- A payload with every word equal to `v`. -/
def pay (v : Nat) : Data := fun _ => v

/-- A disk on which block `b` holds `100 + b` in every word, except block 10, the log header,
which is zero (so its `n` is 0). -/
def exDisk : Disk := fun _ b => if b = 10 then pay 0 else pay (100 + b)

/-- Log region of 40 blocks starting at block 10. -/
def exSb : Superblock := { logstart := 10, nlog := 40 }

/-- Faults: only `PANIC_2`. -/
def fault2 : FaultFlags := { noFault with PANIC_2 := true }

/-- Faults: only `PANIC_3`. -/
def fault3 : FaultFlags := { noFault with PANIC_3 := true }

/-- Faults: only `LOG_FLAG == 5`. -/
def fault5 : FaultFlags := { noFault with LOG_FLAG := 5 }

/-- Faults: only `PANIC_1`. -/
def fault1 : FaultFlags := { noFault with PANIC_1 := true }

/-- Boot on `exDisk`, then one completed transaction storing payload 7 in block 5. -/
def exAfterTx1 : Res Unit :=
  (boot exDisk 1 exSb).bind fun _ s => txn noFault s [(5, pay 7)]

/-- After `exAfterTx1`, a second transaction storing payload 8 in block 5, whose `end_op`
runs under the faults `f`. -/
def exCrash (f : FaultFlags) : Res Unit :=
  exAfterTx1.bind fun _ s => txn f s [(5, pay 8)]

/-- Reboot on the disk left by `exCrash f`. -/
def exReboot (f : FaultFlags) : Res Unit :=
  boot (exCrash f).state.disk 1 exSb

/-- Blocks 200, 201, ..., 227: twenty-eight blocks other than block 5. -/
def exOthers : List Nat := (List.range 28).map fun i => 200 + i

/-- Boot, `bread_wr` of block 5, payload 7, `log_write`: the transaction is open and block 5
is logged once. The caller keeps the buffer. -/
def exLoggedOnce : Res BufPtr :=
  (boot exDisk 1 exSb).bind fun _ s0 =>
  (bread_wr s0 1 5).bind fun b s1 =>
  (log_write (setData s1 b (pay 7)) b).bind fun _ s2 => .ok b s2

/-- After `exLoggedOnce`: read and release the blocks `exOthers`, then store payload 8 in the
buffer of block 5 and call `log_write` on it a second time. -/
def exLoggedTwice : Res Unit :=
  exLoggedOnce.bind fun b s2 =>
  (churn s2 1 exOthers).bind fun _ s3 =>
  log_write (setData s3 b (pay 8)) b

/-- Boot, `bread_wr` of block 5 (not released), then `bread` of block 5. Returns both
pointers. -/
def exTwoAcquisitions : Res (BufPtr × BufPtr) :=
  (boot exDisk 1 exSb).bind fun _ s0 =>
  (bread_wr s0 1 5).bind fun x s1 =>
  (bread s1 1 5).bind fun y s2 => .ok (x, y) s2

/-- Boot, then `bread_wr` of block 5. -/
def exFirstDup : Res BufPtr :=
  (boot exDisk 1 exSb).bind fun _ s0 => bread_wr s0 1 5

/-- After `exFirstDup`, a second `bread_wr` of block 5. -/
def exSecondDup : Res BufPtr :=
  exFirstDup.bind fun _ s1 => bread_wr s1 1 5

/-- Boot, then `bread` of block 5: one resident copy, not tagged OLD. -/
def exPlainRead : Res BufPtr :=
  (boot exDisk 1 exSb).bind fun _ s0 => bread s0 1 5

/-- After `exPlainRead`: payload 7, then `log_write`; no OLD-tagged copy of block 5 is
resident. -/
def exLogWithoutOld : Res Unit :=
  exPlainRead.bind fun b s1 => log_write (setData s1 b (pay 7)) b

/-- The state after boot with the in-memory header changed to one entry, block 5, of which
no copy is resident; then `install_trans`. -/
def exInstallWithoutNew : Res Unit :=
  (boot exDisk 1 exSb).bind fun _ s0 =>
    install_trans noFault (s0.setLog { s0.log with n := 1, block := fun _ => 5 })

/-- Log region of 3 blocks starting at block 10: room for `size - 1 = 2` entries. -/
def exSmallSb : Superblock := { logstart := 10, nlog := 3 }

/-- Boot with `exSmallSb`; block 5 is logged through a buffer the caller keeps, then block 6
is logged: now `n = 2 = size - 1`. -/
def exLogFull : Res BufPtr :=
  (boot exDisk 1 exSmallSb).bind fun _ s0 =>
  (bread_wr s0 1 5).bind fun b s1 =>
  (log_write (setData s1 b (pay 7)) b).bind fun _ s2 =>
  (txn_write s2 6 (pay 8)).bind fun _ s3 => .ok b s3

/-- The freshly initialised cache with an empty log on device 1, region `10 .. 49`. -/
def exFresh : State :=
  { bcache := binit zeroBcache
    log := { zeroLog with start := 10, size := 40, dev := 1 }
    disk := exDisk }

/-- Updates of `k` distinct home blocks `100, 101, ...` with payloads `500, 501, ...`. -/
def exWrites (k : Nat) : List (Nat × Data) := (List.range k).map fun i => (100 + i, pay (500 + i))

/-- A disk whose header (block 10) records `n = 3` and `block = [12, 20, 11]`; every other
block `b` holds `100 + b`. -/
def exDiskAlias : Disk := fun _ b =>
  if b = 10 then fun j => if j = 0 then 3 else if j = 1 then 12 else if j = 2 then 20
    else if j = 3 then 11 else 0
  else pay (100 + b)

/-- Log region of one block (the header only) at block 10. -/
def exTinySb : Superblock := { logstart := 10, nlog := 1 }

/-- After `exAfterTx1`, the updates of a second transaction (payload 8 into block 6), before
its `end_op`. -/
def exOpenTx2 : Res Unit :=
  exAfterTx1.bind fun _ s => txn_body s [(6, pay 8)]

/-- A disk whose header (block 10) records `n = 2` and `block = [5, 7]`; every other block
`b` holds `100 + b`, so the log data blocks 11 and 12 hold 111 and 112. -/
def exDiskUndo : Disk := fun _ b =>
  if b = 10 then fun j => if j = 0 then 2 else if j = 1 then 5 else if j = 2 then 7 else 0
  else pay (100 + b)

/-- The freshly initialised cache with an empty log on device 1 whose region `10 .. 11` has
room for one entry. -/
def exFreshSmall : State :=
  { bcache := binit zeroBcache
    log := { zeroLog with start := 10, size := 2, dev := 1 }
    disk := exDisk }

/-! ## Further predicates and concrete inputs -/

/-- The resident copies of block `blockno` of device `dev`: the buffers on the recency list
with that device and block number and VALID set. -/
def copies (s : State) (dev blockno : Nat) : List Nat :=
  s.bcache.order.filter fun i => matches_ s.bcache dev blockno i && (s.bcache.buf i).valid

/-- The resident copies tagged OLD. -/
def oldCopies (s : State) (dev blockno : Nat) : List Nat :=
  (copies s dev blockno).filter fun i => (s.bcache.buf i).old

/-- Every slot of the pool has reference count 0 and DIRTY unset. -/
def allReleased (s : State) : Bool :=
  (List.range NBUF).all fun i => (s.bcache.buf i).refcnt == 0 && !(s.bcache.buf i).dirty

/-- The bounds on the in-memory header: `n <= LOGSIZE`, and `n <= size - 1` or `n = 0`. -/
def LogBounds (lg : Log) : Prop :=
  lg.n ≤ LOGSIZE ∧ (lg.n = 0 ∨ lg.n + 1 ≤ lg.size)

/-- The block numbers `block[0..n)` of the in-memory header are pairwise distinct. -/
def LogDistinct (lg : Log) : Prop :=
  ∀ i, i < lg.n → ∀ j, j < lg.n → lg.block i = lg.block j → i = j

/-- Boot, `x = bread_wr` of block 5 (kept), `b = bread_wr` of block 5 again, payload 9 stored
in `b`, `log_write(b)`. Returns `b`. -/
def exDoubleAcquire : Res BufPtr :=
  (boot exDisk 1 exSb).bind fun _ s0 =>
  (bread_wr s0 1 5).bind fun _ s1 =>
  (bread_wr s1 1 5).bind fun b s2 =>
  (log_write (setData s2 b (pay 9)) b).bind fun _ s3 => .ok b s3

/-- After `exDoubleAcquire`: `end_op` with no fault. -/
def exDoubleCommit : Res Unit :=
  exDoubleAcquire.bind fun _ s => end_op noFault s

/-- After `exDoubleAcquire`: the blocks `exOthers` are read and released, then
`log_write(x)` is called on the buffer `x` (slot 1) of the first `bread_wr`. -/
def exUnpinned : Res Unit :=
  exDoubleAcquire.bind fun _ s =>
  (churn s 1 exOthers).bind fun _ s1 => log_write s1 (.slot 1)

/-- On the fresh cache `exFresh`: one whole transaction storing 7 in block 5. Returns the
buffer it used. -/
def exTwoCopies : Res BufPtr :=
  (bread_wr exFresh 1 5).bind fun b s1 =>
  (log_write (setData s1 b (pay 7)) b).bind fun _ s2 =>
  (end_op noFault (brelse s2 b)).bind fun _ s3 => .ok b s3

/-- After `exTwoCopies`: the `bread_wr` of block 5 that opens the next transaction. -/
def exThreeCopies : Res BufPtr :=
  exTwoCopies.bind fun _ s => bread_wr s 1 5

/-- After `exAfterTx1`: a second completed transaction, storing 8 in block 5. -/
def exAfterTx2 : Res Unit :=
  exAfterTx1.bind fun _ s => txn noFault s [(5, pay 8)]

/-- The blocks `200 .. 228`: 29 blocks other than block 5 and outside the log region. -/
def exReads : List Nat := (List.range 29).map fun i => 200 + i

/-- Boot, `x = bread_wr` of block 5, `brelse(x)`, then the 29 blocks `exReads` are read and
released. -/
def exReleasedCopy : Res Unit :=
  (boot exDisk 1 exSb).bind fun _ s0 =>
  (bread_wr s0 1 5).bind fun x s1 => churn (brelse s1 x) 1 exReads

/-- After `exReleasedCopy`: `b = bread_wr` of block 5 again. Returns `b`. -/
def exOldHit : Res BufPtr :=
  exReleasedCopy.bind fun _ s => bread_wr s 1 5

/-- After `exOldHit`: payload 9 stored in `b`, `log_write(b)`, `brelse(b)`. -/
def exOldLogged : Res Unit :=
  exOldHit.bind fun b s =>
  (log_write (setData s b (pay 9)) b).bind fun _ s1 => .ok () (brelse s1 b)

/-- After `exOldLogged`: `end_op` under the faults `f`. -/
def exOldCommit (f : FaultFlags) : Res Unit :=
  exOldLogged.bind fun _ s => end_op f s

/-- Boot, then the updates of a transaction on blocks 12 and 11, in this order. Block 11
is the first data block of the log region `10 .. 49`. -/
def exLogRegionBody : Res Unit :=
  (boot exDisk 1 exSb).bind fun _ s => txn_body s [(12, pay 500), (11, pay 600)]

/-- After `exLogRegionBody`: `end_op` with `PANIC_1` set. -/
def exLogRegionCrash : Res Unit :=
  exLogRegionBody.bind fun _ s => end_op fault1 s

/-- The reboot on the disk left by `exLogRegionCrash`. -/
def exLogRegionReboot : Res Unit :=
  boot exLogRegionCrash.state.disk 1 exSb

/-- Recovery run a second time, on the disk left by recovery on `exDiskAlias`. -/
def exRecoverTwice : Res Unit :=
  boot (boot exDiskAlias 1 exTinySb).state.disk 1 exTinySb

/-! ## Client runs and the invariant of the working copies -/

/-- The resident copies not tagged OLD. -/
def newCopies (s : State) (dev blockno : Nat) : List Nat :=
  (copies s dev blockno).filter fun i => !(s.bcache.buf i).old

/-- The states a client reaches from a freshly initialised cache (`binit`, any log and
disk) by calls of `bread`, `bread_wr`, `bwrite`, `log_write`, `end_op` and `brelse` that
return, and by overwriting the payload of a buffer. `Reach n s ps`: state `s` is reached,
`ps` lists the pointers that `bread` and `bread_wr` have returned so far, and `n` calls of
`log_write` were made. A pointer passed to a call is one of `ps`. -/
inductive Reach : Nat → State → List BufPtr → Prop
  | init (lg : Log) (disk : Disk) : Reach 0 (State.mk (binit zeroBcache) lg disk) []
  | read {n : Nat} {s s' : State} {ps : List BufPtr} {p : BufPtr} (dev blockno : Nat) :
      Reach n s ps → bread s dev blockno = .ok p s' → Reach n s' (p :: ps)
  | readWr {n : Nat} {s s' : State} {ps : List BufPtr} {p : BufPtr} (dev blockno : Nat) :
      Reach n s ps → bread_wr s dev blockno = .ok p s' → Reach n s' (p :: ps)
  | store {n : Nat} {s : State} {ps : List BufPtr} (p : BufPtr) (d : Data) :
      Reach n s ps → p ∈ ps → Reach n (setData s p d) ps
  | write {n : Nat} {s : State} {ps : List BufPtr} (p : BufPtr) :
      Reach n s ps → p ∈ ps → Reach n (bwrite s p) ps
  | logWrite {n : Nat} {s s' : State} {ps : List BufPtr} (p : BufPtr) :
      Reach n s ps → p ∈ ps → log_write s p = .ok () s' → Reach (n + 1) s' ps
  | endOp {n : Nat} {s s' : State} {ps : List BufPtr} (f : FaultFlags) :
      Reach n s ps → end_op f s = .ok () s' → Reach n s' ps
  | release {n : Nat} {s : State} {ps : List BufPtr} (p : BufPtr) :
      Reach n s ps → p ∈ ps → Reach n (brelse s p) ps

/-- A VALID buffer not tagged OLD is the first buffer not tagged OLD of its device and
block on the recency list. -/
def Coh (c : Bcache) : Prop :=
  ∀ i ∈ c.order, (c.buf i).valid = true → (c.buf i).old = false →
    c.order.find? (matchesNew c (c.buf i).dev (c.buf i).blockno) = some i

/-- A step that changes neither the list nor the device, block number, OLD or VALID of any
slot, nor the reference count of the sentinel. -/
structure Quiet (s s' : State) : Prop where
  order : s'.bcache.order = s.bcache.order
  dev : ∀ i, (s'.bcache.buf i).dev = (s.bcache.buf i).dev
  blockno : ∀ i, (s'.bcache.buf i).blockno = (s.bcache.buf i).blockno
  old : ∀ i, (s'.bcache.buf i).old = (s.bcache.buf i).old
  valid : ∀ i, (s'.bcache.buf i).valid = (s.bcache.buf i).valid
  head : s'.bcache.head.refcnt = s.bcache.head.refcnt

/-- A step that keeps `Coh`, the members of the list, the VALID flags that are set and the
reference count of the sentinel. -/
structure Good (s s' : State) : Prop where
  coh : Coh s.bcache → Coh s'.bcache
  nodup : s.bcache.order.Nodup → s'.bcache.order.Nodup
  mem : ∀ i, i ∈ s'.bcache.order ↔ i ∈ s.bcache.order
  valid : ∀ i, (s.bcache.buf i).valid = true → (s'.bcache.buf i).valid = true
  head : s'.bcache.head.refcnt = s.bcache.head.refcnt

/-- Invariant of the reachable states: the list holds each buffer once, `Coh` holds, the
pointers handed out designate VALID slots on the list, and the reference count of the
sentinel, which each `log_write` lowers at most once, has not come down to 1 again. -/
structure CInv (n : Nat) (s : State) (ps : List BufPtr) : Prop where
  nodup : s.bcache.order.Nodup
  coh : Coh s.bcache
  ptrs : ∀ p ∈ ps, ∃ i, p = .slot i ∧ i ∈ s.bcache.order ∧ (s.bcache.buf i).valid = true
  hbound : s.bcache.head.refcnt < 4294967296
  sentinel : s.bcache.head.refcnt = 0 ∨ 4294967296 ≤ s.bcache.head.refcnt + n

/-! # Theorems -/

/-! ## Access lemmas -/

@[simp] theorem setBuf_disk (s : State) (p : BufPtr) (b : Buf) : (s.setBuf p b).disk = s.disk := rfl

@[simp] theorem setBuf_log (s : State) (p : BufPtr) (b : Buf) : (s.setBuf p b).log = s.log := rfl

@[simp] theorem setBuf_order (s : State) (p : BufPtr) (b : Buf) :
    (s.setBuf p b).bcache.order = s.bcache.order := by
  cases p <;> rfl

@[simp] theorem setBuf_slot_buf (s : State) (i j : Nat) (b : Buf) :
    (s.setBuf (.slot i) b).bcache.buf j = if j = i then b else s.bcache.buf j := rfl

@[simp] theorem setBuf_head_buf (s : State) (j : Nat) (b : Buf) :
    (s.setBuf .head b).bcache.buf j = s.bcache.buf j := rfl

@[simp] theorem setBuf_slot_head (s : State) (i : Nat) (b : Buf) :
    (s.setBuf (.slot i) b).bcache.head = s.bcache.head := rfl

@[simp] theorem setBuf_head_head (s : State) (b : Buf) :
    (s.setBuf .head b).bcache.head = b := rfl

@[simp] theorem getBuf_slot (s : State) (i : Nat) : s.getBuf (.slot i) = s.bcache.buf i := rfl

@[simp] theorem getBuf_head (s : State) : s.getBuf .head = s.bcache.head := rfl

theorem getBuf_setBuf (s : State) (p q : BufPtr) (b : Buf) :
    (s.setBuf p b).getBuf q = if q = p then b else s.getBuf q := by
  cases p <;> cases q <;> simp

@[simp] theorem getBuf_setBuf_same (s : State) (p : BufPtr) (b : Buf) :
    (s.setBuf p b).getBuf p = b := by
  simp [getBuf_setBuf]

theorem getBuf_setBuf_ne (s : State) {p q : BufPtr} (b : Buf) (h : q ≠ p) :
    (s.setBuf p b).getBuf q = s.getBuf q := by
  simp [getBuf_setBuf, h]

@[simp] theorem modBuf_disk (s : State) (p : BufPtr) (f : Buf → Buf) :
    (s.modBuf p f).disk = s.disk := rfl

@[simp] theorem modBuf_log (s : State) (p : BufPtr) (f : Buf → Buf) :
    (s.modBuf p f).log = s.log := rfl

@[simp] theorem modBuf_order (s : State) (p : BufPtr) (f : Buf → Buf) :
    (s.modBuf p f).bcache.order = s.bcache.order := by
  cases p <;> rfl

theorem getBuf_modBuf (s : State) (p q : BufPtr) (f : Buf → Buf) :
    (s.modBuf p f).getBuf q = if q = p then f (s.getBuf p) else s.getBuf q := by
  unfold State.modBuf
  rw [getBuf_setBuf]

@[simp] theorem getBuf_modBuf_same (s : State) (p : BufPtr) (f : Buf → Buf) :
    (s.modBuf p f).getBuf p = f (s.getBuf p) := by
  simp [getBuf_modBuf]

theorem getBuf_modBuf_ne (s : State) {p q : BufPtr} (f : Buf → Buf) (h : q ≠ p) :
    (s.modBuf p f).getBuf q = s.getBuf q := by
  simp [getBuf_modBuf, h]

@[simp] theorem setDisk_disk (s : State) (d : Disk) : (s.setDisk d).disk = d := rfl

@[simp] theorem setDisk_log (s : State) (d : Disk) : (s.setDisk d).log = s.log := rfl

@[simp] theorem setDisk_bcache (s : State) (d : Disk) : (s.setDisk d).bcache = s.bcache := rfl

@[simp] theorem setDisk_getBuf (s : State) (d : Disk) (q : BufPtr) :
    (s.setDisk d).getBuf q = s.getBuf q := rfl

@[simp] theorem setLog_disk (s : State) (lg : Log) : (s.setLog lg).disk = s.disk := rfl

@[simp] theorem setLog_log (s : State) (lg : Log) : (s.setLog lg).log = lg := rfl

@[simp] theorem setLog_bcache (s : State) (lg : Log) : (s.setLog lg).bcache = s.bcache := rfl

@[simp] theorem setLog_getBuf (s : State) (lg : Log) (q : BufPtr) :
    (s.setLog lg).getBuf q = s.getBuf q := rfl

@[simp] theorem relink_disk (s : State) (p : BufPtr) : (s.relink p).disk = s.disk := rfl

@[simp] theorem relink_log (s : State) (p : BufPtr) : (s.relink p).log = s.log := rfl

@[simp] theorem relink_getBuf (s : State) (p q : BufPtr) :
    (s.relink p).getBuf q = s.getBuf q := by
  cases p <;> cases q <;> rfl

@[simp] theorem relink_buf (s : State) (p : BufPtr) (j : Nat) :
    (s.relink p).bcache.buf j = s.bcache.buf j := by
  cases p <;> rfl

@[simp] theorem relink_slot_order (s : State) (i : Nat) :
    (s.relink (.slot i)).bcache.order = i :: s.bcache.order.erase i := rfl

@[simp] theorem setRefcnt_dev (b : Buf) (r : Nat) : (b.setRefcnt r).dev = b.dev := rfl
@[simp] theorem setRefcnt_blockno (b : Buf) (r : Nat) : (b.setRefcnt r).blockno = b.blockno := rfl
@[simp] theorem setRefcnt_valid (b : Buf) (r : Nat) : (b.setRefcnt r).valid = b.valid := rfl
@[simp] theorem setRefcnt_dirty (b : Buf) (r : Nat) : (b.setRefcnt r).dirty = b.dirty := rfl
@[simp] theorem setRefcnt_old (b : Buf) (r : Nat) : (b.setRefcnt r).old = b.old := rfl
@[simp] theorem setRefcnt_refcnt (b : Buf) (r : Nat) : (b.setRefcnt r).refcnt = r := rfl
@[simp] theorem setRefcnt_data (b : Buf) (r : Nat) : (b.setRefcnt r).data = b.data := rfl

@[simp] theorem setValid_dev (b : Buf) (v : Bool) : (b.setValid v).dev = b.dev := rfl
@[simp] theorem setValid_blockno (b : Buf) (v : Bool) : (b.setValid v).blockno = b.blockno := rfl
@[simp] theorem setValid_valid (b : Buf) (v : Bool) : (b.setValid v).valid = v := rfl
@[simp] theorem setValid_dirty (b : Buf) (v : Bool) : (b.setValid v).dirty = b.dirty := rfl
@[simp] theorem setValid_old (b : Buf) (v : Bool) : (b.setValid v).old = b.old := rfl
@[simp] theorem setValid_refcnt (b : Buf) (v : Bool) : (b.setValid v).refcnt = b.refcnt := rfl
@[simp] theorem setValid_data (b : Buf) (v : Bool) : (b.setValid v).data = b.data := rfl

@[simp] theorem setDirty_dev (b : Buf) (v : Bool) : (b.setDirty v).dev = b.dev := rfl
@[simp] theorem setDirty_blockno (b : Buf) (v : Bool) : (b.setDirty v).blockno = b.blockno := rfl
@[simp] theorem setDirty_valid (b : Buf) (v : Bool) : (b.setDirty v).valid = b.valid := rfl
@[simp] theorem setDirty_dirty (b : Buf) (v : Bool) : (b.setDirty v).dirty = v := rfl
@[simp] theorem setDirty_old (b : Buf) (v : Bool) : (b.setDirty v).old = b.old := rfl
@[simp] theorem setDirty_refcnt (b : Buf) (v : Bool) : (b.setDirty v).refcnt = b.refcnt := rfl
@[simp] theorem setDirty_data (b : Buf) (v : Bool) : (b.setDirty v).data = b.data := rfl

@[simp] theorem setOld_dev (b : Buf) (v : Bool) : (b.setOld v).dev = b.dev := rfl
@[simp] theorem setOld_blockno (b : Buf) (v : Bool) : (b.setOld v).blockno = b.blockno := rfl
@[simp] theorem setOld_valid (b : Buf) (v : Bool) : (b.setOld v).valid = b.valid := rfl
@[simp] theorem setOld_dirty (b : Buf) (v : Bool) : (b.setOld v).dirty = b.dirty := rfl
@[simp] theorem setOld_old (b : Buf) (v : Bool) : (b.setOld v).old = v := rfl
@[simp] theorem setOld_refcnt (b : Buf) (v : Bool) : (b.setOld v).refcnt = b.refcnt := rfl
@[simp] theorem setOld_data (b : Buf) (v : Bool) : (b.setOld v).data = b.data := rfl

@[simp] theorem setData_dev (b : Buf) (d : Data) : (b.setData d).dev = b.dev := rfl
@[simp] theorem setData_blockno (b : Buf) (d : Data) : (b.setData d).blockno = b.blockno := rfl
@[simp] theorem setData_valid (b : Buf) (d : Data) : (b.setData d).valid = b.valid := rfl
@[simp] theorem setData_dirty (b : Buf) (d : Data) : (b.setData d).dirty = b.dirty := rfl
@[simp] theorem setData_old (b : Buf) (d : Data) : (b.setData d).old = b.old := rfl
@[simp] theorem setData_refcnt (b : Buf) (d : Data) : (b.setData d).refcnt = b.refcnt := rfl
@[simp] theorem setData_data (b : Buf) (d : Data) : (b.setData d).data = d := rfl

@[simp] theorem copyFlags_dev (b c : Buf) : (b.copyFlags c).dev = b.dev := rfl
@[simp] theorem copyFlags_blockno (b c : Buf) : (b.copyFlags c).blockno = b.blockno := rfl
@[simp] theorem copyFlags_valid (b c : Buf) : (b.copyFlags c).valid = c.valid := rfl
@[simp] theorem copyFlags_dirty (b c : Buf) : (b.copyFlags c).dirty = c.dirty := rfl
@[simp] theorem copyFlags_old (b c : Buf) : (b.copyFlags c).old = c.old := rfl
@[simp] theorem copyFlags_refcnt (b c : Buf) : (b.copyFlags c).refcnt = b.refcnt := rfl
@[simp] theorem copyFlags_data (b c : Buf) : (b.copyFlags c).data = b.data := rfl

@[simp] theorem recycle_dev (b : Buf) (d k : Nat) : (recycle b d k).dev = d := rfl
@[simp] theorem recycle_blockno (b : Buf) (d k : Nat) : (recycle b d k).blockno = k := rfl
@[simp] theorem recycle_valid (b : Buf) (d k : Nat) : (recycle b d k).valid = false := rfl
@[simp] theorem recycle_dirty (b : Buf) (d k : Nat) : (recycle b d k).dirty = false := rfl
@[simp] theorem recycle_old (b : Buf) (d k : Nat) : (recycle b d k).old = false := rfl
@[simp] theorem recycle_refcnt (b : Buf) (d k : Nat) : (recycle b d k).refcnt = 1 := rfl
@[simp] theorem recycle_data (b : Buf) (d k : Nat) : (recycle b d k).data = b.data := rfl

@[simp] theorem bind_ok {α β : Type} (a : α) (s : State) (f : α → State → Res β) :
    (Res.ok a s).bind f = f a s := rfl

@[simp] theorem bind_panic {α β : Type} (p : Panic) (s : State) (f : α → State → Res β) :
    (Res.panic p s : Res α).bind f = .panic p s := rfl

theorem bind_eq_ok {α β : Type} {r : Res α} {f : α → State → Res β} {b : β} {s' : State}
    (h : r.bind f = .ok b s') : ∃ a s1, r = .ok a s1 ∧ f a s1 = .ok b s' := by
  cases r with
  | ok a s1 => exact ⟨a, s1, rfl, h⟩
  | panic p s1 => simp at h

/-! ## The scans of `bget` -/

/-- The three ways `bget` can go: a hit, a recycled buffer, or no buffer. -/
theorem bget_cases (s : State) (dev blockno : Nat) :
    (∃ i, s.bcache.order.find? (matches_ s.bcache dev blockno) = some i ∧
        i ∈ s.bcache.order ∧ matches_ s.bcache dev blockno i = true ∧
        bget s dev blockno = .ok (.slot i)
          (s.setBuf (.slot i)
            ((s.bcache.buf i).setRefcnt (refInc (s.bcache.buf i).refcnt)))) ∨
    (s.bcache.order.find? (matches_ s.bcache dev blockno) = none ∧
      ∃ i, s.bcache.order.reverse.find? (recyclable s.bcache) = some i ∧
        i ∈ s.bcache.order ∧ recyclable s.bcache i = true ∧
        bget s dev blockno = .ok (.slot i)
          (s.setBuf (.slot i) (recycle (s.bcache.buf i) dev blockno))) ∨
    (s.bcache.order.find? (matches_ s.bcache dev blockno) = none ∧
      s.bcache.order.reverse.find? (recyclable s.bcache) = none ∧
      bget s dev blockno = .panic .bget_no_buffers s) := by
  unfold bget
  cases h : s.bcache.order.find? (matches_ s.bcache dev blockno) with
  | some i =>
    exact Or.inl ⟨i, rfl, List.mem_of_find?_eq_some h, List.find?_some h, rfl⟩
  | none =>
    cases h2 : s.bcache.order.reverse.find? (recyclable s.bcache) with
    | some i =>
      exact Or.inr (Or.inl ⟨rfl, i, rfl, List.mem_reverse.1 (List.mem_of_find?_eq_some h2),
        List.find?_some h2, rfl⟩)
    | none => exact Or.inr (Or.inr ⟨rfl, rfl, rfl⟩)

/-- The two ways `bget_again` can go. -/
theorem bget_again_cases (s : State) (dev blockno : Nat) :
    (∃ i, s.bcache.order.reverse.find? (recyclable s.bcache) = some i ∧
        i ∈ s.bcache.order ∧ recyclable s.bcache i = true ∧
        bget_again s dev blockno = .ok (.slot i)
          (s.setBuf (.slot i) (recycle (s.bcache.buf i) dev blockno))) ∨
    (s.bcache.order.reverse.find? (recyclable s.bcache) = none ∧
      bget_again s dev blockno = .panic .bget_no_buffers s) := by
  unfold bget_again
  cases h2 : s.bcache.order.reverse.find? (recyclable s.bcache) with
  | some i =>
    exact Or.inl ⟨i, rfl, List.mem_reverse.1 (List.mem_of_find?_eq_some h2),
      List.find?_some h2, rfl⟩
  | none => exact Or.inr ⟨rfl, rfl⟩

/-- A recyclable buffer on the list makes the recycle scan succeed. -/
theorem recycle_scan_some (c : Bcache) {a : Nat} (ha : a ∈ c.order) (hr : recyclable c a = true) :
    ∃ i, c.order.reverse.find? (recyclable c) = some i := by
  have : (c.order.reverse.find? (recyclable c)).isSome = true :=
    List.find?_isSome.2 ⟨a, List.mem_reverse.2 ha, hr⟩
  exact Option.isSome_iff_exists.1 this

/-! ## Frame lemmas for the device primitive and the cache -/

theorem getBuf_def (s : State) (q : BufPtr) : s.getBuf q = getBuf s.bcache q := rfl

theorem Jinv_of_getBuf {s s' : State} (h : ∀ q, (s'.getBuf q).dirty = true →
    (s'.getBuf q).valid = true ∨ ((s.getBuf q).dirty = true ∧
      ((s.getBuf q).valid = true → (s'.getBuf q).valid = true))) (hJ : Jinv s) : Jinv s' := by
  intro q hq
  rcases h q hq with h1 | ⟨h1, h2⟩
  · exact h1
  · exact h2 (hJ q h1)

theorem Jinv_modBuf {s : State} (p : BufPtr) (f : Buf → Buf) (hJ : Jinv s)
    (hf : (f (s.getBuf p)).dirty = true → (f (s.getBuf p)).valid = true) :
    Jinv (s.modBuf p f) := by
  intro q hq
  rw [getBuf_modBuf] at hq ⊢
  split_ifs at hq ⊢ with h
  · exact hf hq
  · exact hJ q hq

theorem iderw_log (s : State) (p : BufPtr) : (iderw s p).log = s.log := by
  unfold iderw
  split_ifs <;> rfl

theorem iderw_order (s : State) (p : BufPtr) :
    (iderw s p).bcache.order = s.bcache.order := by
  unfold iderw
  split_ifs
  · rw [setDisk_bcache]
    exact modBuf_order s p _
  · rfl
  · exact modBuf_order s p _

theorem iderw_getBuf_ne (s : State) {p q : BufPtr} (h : q ≠ p) :
    (iderw s p).getBuf q = s.getBuf q := by
  unfold iderw
  split_ifs
  · rw [setDisk_getBuf]
    exact getBuf_modBuf_ne s _ h
  · rfl
  · exact getBuf_modBuf_ne s _ h

/-- The buffer handed to `iderw` afterwards: VALID set, DIRTY clear, payload read from disk
when it was neither DIRTY nor VALID. -/
theorem iderw_getBuf_same (s : State) (p : BufPtr) :
    (iderw s p).getBuf p =
      if (s.getBuf p).dirty = true then ((s.getBuf p).setValid true).setDirty false
      else if (s.getBuf p).valid = true then s.getBuf p
      else ((s.getBuf p).setValid true).setData (s.disk (s.getBuf p).dev (s.getBuf p).blockno) := by
  unfold iderw
  split_ifs
  · rw [setDisk_getBuf]
    exact getBuf_modBuf_same s p _
  · rfl
  · exact getBuf_modBuf_same s p _

theorem iderw_disk (s : State) (p : BufPtr) :
    (iderw s p).disk =
      if (s.getBuf p).dirty = true then
        writeDisk s.disk (s.getBuf p).dev (s.getBuf p).blockno (s.getBuf p).data
      else s.disk := by
  unfold iderw
  split_ifs <;> rfl

theorem iderw_valid (s : State) (p : BufPtr) : ((iderw s p).getBuf p).valid = true := by
  rw [iderw_getBuf_same]
  split_ifs with h1 h2
  · rfl
  · exact h2
  · rfl

theorem iderw_dirty (s : State) (p : BufPtr) : ((iderw s p).getBuf p).dirty = false := by
  rw [iderw_getBuf_same]
  split_ifs with h1 h2
  · rfl
  · simpa using h1
  · simpa using h1

/-- `iderw` leaves device, block number, OLD and reference count of every buffer alone. -/
theorem iderw_ident (s : State) (p q : BufPtr) :
    ((iderw s p).getBuf q).dev = (s.getBuf q).dev ∧
    ((iderw s p).getBuf q).blockno = (s.getBuf q).blockno ∧
    ((iderw s p).getBuf q).old = (s.getBuf q).old ∧
    ((iderw s p).getBuf q).refcnt = (s.getBuf q).refcnt := by
  by_cases h : q = p
  · subst h
    rw [iderw_getBuf_same]
    split_ifs <;> simp
  · rw [iderw_getBuf_ne s h]
    simp

theorem Jinv_iderw {s : State} (p : BufPtr) (hJ : Jinv s) : Jinv (iderw s p) := by
  intro q hq
  by_cases h : q = p
  · subst h
    exact iderw_valid s q
  · rw [iderw_getBuf_ne s h] at hq ⊢
    exact hJ q hq

/-! ### `bget` and `bget_again` -/

/-- What every returning `bget` guarantees, in any state. -/
theorem bget_frame {s s' : State} {dev blockno : Nat} {p : BufPtr}
    (h : bget s dev blockno = .ok p s') :
    s'.disk = s.disk ∧ s'.log = s.log ∧ s'.bcache.order = s.bcache.order ∧
    (∀ q, q ≠ p → s'.getBuf q = s.getBuf q) ∧
    (s'.getBuf p).dev = dev ∧ (s'.getBuf p).blockno = blockno ∧
    ((s'.getBuf p).dirty = true → (s.getBuf p).dirty = true) ∧
    ((s.getBuf p).valid = true → (s'.getBuf p).dirty = true → (s'.getBuf p).valid = true) := by
  rcases bget_cases s dev blockno with ⟨i, _, _, hm, he⟩ | ⟨_, i, _, _, _, he⟩ | ⟨_, _, he⟩
  · rw [he] at h
    injection h with hp hs
    subst hp; subst hs
    simp only [matches_, Bool.and_eq_true, beq_iff_eq] at hm
    refine ⟨rfl, rfl, setBuf_order _ _ _, fun q hq => getBuf_setBuf_ne _ _ hq, ?_, ?_, ?_, ?_⟩
    · simpa using hm.1
    · simpa using hm.2
    · simp
    · intro hv _
      simpa using hv
  · rw [he] at h
    injection h with hp hs
    subst hp; subst hs
    refine ⟨rfl, rfl, setBuf_order _ _ _, fun q hq => getBuf_setBuf_ne _ _ hq, ?_, ?_, ?_, ?_⟩
    · simp
    · simp
    · simp
    · simp
  · rw [he] at h
    exact Res.noConfusion h

theorem Jinv_bget {s s' : State} {dev blockno : Nat} {p : BufPtr}
    (h : bget s dev blockno = .ok p s') (hJ : Jinv s) : Jinv s' := by
  obtain ⟨_, _, _, hne, _, _, hd, hv⟩ := bget_frame h
  intro q hq
  by_cases hqp : q = p
  · subst hqp
    exact hv (hJ q (hd hq)) hq
  · rw [hne q hqp] at hq ⊢
    exact hJ q hq

/-- What every returning `bget_again` guarantees, in any state. -/
theorem bget_again_frame {s s' : State} {dev blockno : Nat} {p : BufPtr}
    (h : bget_again s dev blockno = .ok p s') :
    s'.disk = s.disk ∧ s'.log = s.log ∧ s'.bcache.order = s.bcache.order ∧
    (∀ q, q ≠ p → s'.getBuf q = s.getBuf q) ∧
    (s'.getBuf p).valid = false ∧ (s'.getBuf p).dirty = false ∧
    (s'.getBuf p).old = false := by
  rcases bget_again_cases s dev blockno with ⟨i, _, _, _, he⟩ | ⟨_, he⟩
  · rw [he] at h
    injection h with hp hs
    subst hp; subst hs
    refine ⟨rfl, rfl, setBuf_order _ _ _, fun q hq => getBuf_setBuf_ne _ _ hq, ?_, ?_, ?_⟩ <;> simp
  · rw [he] at h
    exact Res.noConfusion h

theorem Jinv_bget_again {s s' : State} {dev blockno : Nat} {p : BufPtr}
    (h : bget_again s dev blockno = .ok p s') (hJ : Jinv s) : Jinv s' := by
  obtain ⟨_, _, _, hne, _, hd, _⟩ := bget_again_frame h
  intro q hq
  by_cases hqp : q = p
  · subst hqp
    rw [hd] at hq
    exact Bool.noConfusion hq
  · rw [hne q hqp] at hq ⊢
    exact hJ q hq

/-! ### `bread`, `bwrite`, `brelse`, `setData` -/

/-- What every returning `bread` guarantees when DIRTY implies VALID: no disk write, the
log untouched, only the returned buffer changed, and that buffer VALID for the requested
block. -/
theorem bread_frame {s s' : State} {dev blockno : Nat} {p : BufPtr}
    (h : bread s dev blockno = .ok p s') (hJ : Jinv s) :
    s'.disk = s.disk ∧ s'.log = s.log ∧ s'.bcache.order = s.bcache.order ∧
    (∀ q, q ≠ p → s'.getBuf q = s.getBuf q) ∧
    (s'.getBuf p).dev = dev ∧ (s'.getBuf p).blockno = blockno ∧
    (s'.getBuf p).valid = true ∧ Jinv s' := by
  unfold bread at h
  obtain ⟨b, s1, h1, h2⟩ := bind_eq_ok h
  obtain ⟨hd, hl, ho, hne, hdev, hblk, _, _⟩ := bget_frame h1
  have hJ1 := Jinv_bget h1 hJ
  split_ifs at h2 with hv
  · injection h2 with hp hs
    subst hp; subst hs
    exact ⟨hd, hl, ho, hne, hdev, hblk, hv, hJ1⟩
  · injection h2 with hp hs
    subst hp; subst hs
    have hnd : ¬ (s1.getBuf b).dirty = true := fun hdirty => hv (hJ1 b hdirty)
    refine ⟨?_, ?_, ?_, ?_, ?_, ?_, iderw_valid s1 b, Jinv_iderw b hJ1⟩
    · rw [iderw_disk, if_neg hnd, hd]
    · rw [iderw_log, hl]
    · rw [iderw_order, ho]
    · intro q hq
      rw [iderw_getBuf_ne s1 hq, hne q hq]
    · rw [(iderw_ident s1 b b).1, hdev]
    · rw [(iderw_ident s1 b b).2.1, hblk]

theorem bwrite_log (s : State) (p : BufPtr) : (bwrite s p).log = s.log := by
  unfold bwrite
  rw [iderw_log, modBuf_log]

theorem bwrite_order (s : State) (p : BufPtr) :
    (bwrite s p).bcache.order = s.bcache.order := by
  unfold bwrite
  rw [iderw_order, modBuf_order]

theorem bwrite_getBuf_ne (s : State) {p q : BufPtr} (h : q ≠ p) :
    (bwrite s p).getBuf q = s.getBuf q := by
  unfold bwrite
  rw [iderw_getBuf_ne _ h, getBuf_modBuf_ne _ _ h]

theorem bwrite_getBuf_same (s : State) (p : BufPtr) :
    (bwrite s p).getBuf p = ((s.getBuf p).setValid true).setDirty false := by
  unfold bwrite
  rw [iderw_getBuf_same, getBuf_modBuf_same, if_pos (setDirty_dirty _ _)]
  rfl

theorem bwrite_disk (s : State) (p : BufPtr) :
    (bwrite s p).disk =
      writeDisk s.disk (s.getBuf p).dev (s.getBuf p).blockno (s.getBuf p).data := by
  unfold bwrite
  rw [iderw_disk]
  simp

theorem Jinv_bwrite {s : State} (p : BufPtr) (hJ : Jinv s) : Jinv (bwrite s p) := by
  intro q hq
  by_cases h : q = p
  · subst h
    rw [bwrite_getBuf_same]
    rfl
  · rw [bwrite_getBuf_ne s h] at hq ⊢
    exact hJ q hq

theorem brelse_disk (s : State) (p : BufPtr) : (brelse s p).disk = s.disk := by
  unfold brelse
  by_cases h1 : refDec (s.getBuf p).refcnt = 0
  · rw [if_pos h1]
    rfl
  · rw [if_neg h1]
    rfl

theorem brelse_log (s : State) (p : BufPtr) : (brelse s p).log = s.log := by
  unfold brelse
  by_cases h1 : refDec (s.getBuf p).refcnt = 0
  · rw [if_pos h1]
    rfl
  · rw [if_neg h1]
    rfl

theorem brelse_getBuf (s : State) (p q : BufPtr) :
    (brelse s p).getBuf q =
      if q = p then (s.getBuf p).setRefcnt (refDec (s.getBuf p).refcnt) else s.getBuf q := by
  unfold brelse
  by_cases h1 : refDec (s.getBuf p).refcnt = 0
  · rw [if_pos h1, relink_getBuf, getBuf_modBuf]
  · rw [if_neg h1, getBuf_modBuf]

theorem Jinv_brelse {s : State} (p : BufPtr) (hJ : Jinv s) : Jinv (brelse s p) := by
  intro q hq
  rw [brelse_getBuf] at hq ⊢
  split_ifs at hq ⊢ with h
  · subst h
    rw [setRefcnt_dirty] at hq
    rw [setRefcnt_valid]
    exact hJ q hq
  · exact hJ q hq

theorem Jinv_setData {s : State} (p : BufPtr) (d : Data) (hJ : Jinv s) :
    Jinv (setData s p d) :=
  Jinv_modBuf p _ hJ (hJ p)

/-! ## Frame lemmas for `bread_wr` and the log -/

theorem iderw_valid_mono (s : State) (p q : BufPtr) (h : (s.getBuf q).valid = true) :
    ((iderw s p).getBuf q).valid = true := by
  by_cases hq : q = p
  · subst hq
    exact iderw_valid s q
  · rw [iderw_getBuf_ne s hq]
    exact h

theorem bwrite_valid_mono (s : State) (p q : BufPtr) (h : (s.getBuf q).valid = true) :
    ((bwrite s p).getBuf q).valid = true := by
  by_cases hq : q = p
  · subst hq
    rw [bwrite_getBuf_same]
    rfl
  · rw [bwrite_getBuf_ne s hq]
    exact h

theorem brelse_valid (s : State) (p q : BufPtr) :
    ((brelse s p).getBuf q).valid = (s.getBuf q).valid := by
  rw [brelse_getBuf]
  split_ifs with h
  · subst h
    rw [setRefcnt_valid]
  · rfl

theorem bget_valid {s s' : State} {dev blockno : Nat} {p : BufPtr}
    (h : bget s dev blockno = .ok p s') (hv : (s'.getBuf p).valid = true) :
    (s.getBuf p).valid = true := by
  rcases bget_cases s dev blockno with ⟨i, _, _, hm, he⟩ | ⟨_, i, _, _, _, he⟩ | ⟨_, _, he⟩
  · rw [he] at h
    injection h with hp hs
    subst hp; subst hs
    simpa using hv
  · rw [he] at h
    injection h with hp hs
    subst hp; subst hs
    simp at hv
  · rw [he] at h
    exact Res.noConfusion h

/-- After `bread` of a block whose buffer was not VALID, the payload is the disk block. -/
theorem bread_data_of_invalid {s s' : State} {dev blockno : Nat} {p : BufPtr}
    (h : bread s dev blockno = .ok p s') (hJ : Jinv s)
    (hinv : ∀ q, (s.getBuf q).valid = false) : (s'.getBuf p).data = s.disk dev blockno := by
  unfold bread at h
  obtain ⟨b, s1, h1, h2⟩ := bind_eq_ok h
  obtain ⟨hd, _, _, _, hdev, hblk, _, _⟩ := bget_frame h1
  have hJ1 := Jinv_bget h1 hJ
  have hv1 : ¬ (s1.getBuf b).valid = true := by
    intro hv
    have := bget_valid h1 hv
    rw [hinv b] at this
    exact Bool.noConfusion this
  rw [if_neg hv1] at h2
  injection h2 with hp hs
  subst hp; subst hs
  have hnd : ¬ (s1.getBuf b).dirty = true := fun hdirty => hv1 (hJ1 b hdirty)
  rw [iderw_getBuf_same, if_neg hnd, if_neg hv1, setData_data, hdev, hblk, hd]

theorem bread_wr_fill_frame (s : State) (bnew bold : BufPtr) (hJ : Jinv s) :
    (bread_wr_fill s bnew bold).disk = s.disk ∧ (bread_wr_fill s bnew bold).log = s.log ∧
    Jinv (bread_wr_fill s bnew bold) ∧ ((bread_wr_fill s bnew bold).getBuf bnew).valid = true := by
  have hJ3 : Jinv (s.modBuf bold (fun b => b.setData (s.getBuf bnew).data)) :=
    Jinv_modBuf bold _ hJ (hJ bold)
  have hJ4 : Jinv ((s.modBuf bold (fun b => b.setData (s.getBuf bnew).data)).modBuf bold
      (fun b => b.copyFlags
        ((s.modBuf bold (fun b => b.setData (s.getBuf bnew).data)).getBuf bnew))) := by
    apply Jinv_modBuf bold _ hJ3
    intro hd
    rw [copyFlags_dirty] at hd
    rw [copyFlags_valid]
    exact hJ3 bnew hd
  unfold bread_wr_fill
  simp only
  generalize hs4 : (s.modBuf bold (fun b => b.setData (s.getBuf bnew).data)).modBuf bold
      (fun b => b.copyFlags
        ((s.modBuf bold (fun b => b.setData (s.getBuf bnew).data)).getBuf bnew)) = s4 at hJ4 ⊢
  have h4d : s4.disk = s.disk := by rw [← hs4]; rfl
  have h4l : s4.log = s.log := by rw [← hs4]; rfl
  by_cases hv : (s4.getBuf bnew).valid = true
  · rw [if_pos hv]
    refine ⟨h4d, h4l, Jinv_modBuf bold _ hJ4 (hJ4 bold), ?_⟩
    rw [getBuf_modBuf]
    split_ifs with h
    · subst h
      rw [setOld_valid]
      exact hv
    · exact hv
  · rw [if_neg hv]
    have hnd : ¬ (s4.getBuf bnew).dirty = true := fun hd => hv (hJ4 bnew hd)
    have h5d : (iderw s4 bnew).disk = s4.disk := by rw [iderw_disk, if_neg hnd]
    have hJ5 : Jinv (iderw s4 bnew) := Jinv_iderw bnew hJ4
    have hnd2 : ¬ ((iderw s4 bnew).getBuf bold).dirty = true := by
      by_cases hb : bold = bnew
      · subst hb
        rw [iderw_dirty]
        exact Bool.noConfusion
      · rw [iderw_getBuf_ne s4 hb]
        intro hd
        apply hv
        have e1 : (s4.getBuf bold).dirty =
            ((s.modBuf bold (fun b => b.setData (s.getBuf bnew).data)).getBuf bnew).dirty := by
          rw [← hs4, getBuf_modBuf_same, copyFlags_dirty]
        have e2 : (s4.getBuf bnew) =
            ((s.modBuf bold (fun b => b.setData (s.getBuf bnew).data)).getBuf bnew) := by
          rw [← hs4, getBuf_modBuf_ne _ _ (Ne.symm hb)]
        rw [e2]
        apply hJ3 bnew
        rw [← e1]
        exact hd
    have h6d : (iderw (iderw s4 bnew) bold).disk = s4.disk := by
      rw [iderw_disk, if_neg hnd2, h5d]
    refine ⟨?_, ?_, Jinv_modBuf bold _ (Jinv_iderw bold hJ5) (Jinv_iderw bold hJ5 bold), ?_⟩
    · rw [modBuf_disk, h6d, h4d]
    · rw [modBuf_log, iderw_log, iderw_log, h4l]
    · have hv6 : ((iderw (iderw s4 bnew) bold).getBuf bnew).valid = true :=
        iderw_valid_mono _ bold bnew (iderw_valid s4 bnew)
      rw [getBuf_modBuf]
      split_ifs with h
      · subst h
        rw [setOld_valid]
        exact hv6
      · exact hv6

/-- What every returning `bread_wr` guarantees when DIRTY implies VALID: no disk write, the
log untouched and the returned buffer VALID. -/
theorem bread_wr_frame {s s' : State} {dev blockno : Nat} {p : BufPtr}
    (h : bread_wr s dev blockno = .ok p s') (hJ : Jinv s) :
    s'.disk = s.disk ∧ s'.log = s.log ∧ Jinv s' ∧ (s'.getBuf p).valid = true := by
  unfold bread_wr at h
  obtain ⟨bnew, s1, h1, h2⟩ := bind_eq_ok h
  obtain ⟨bold, s2, h3, h4⟩ := bind_eq_ok h2
  injection h4 with hp hs
  subst hp; subst hs
  obtain ⟨hd1, hl1, _⟩ := bget_frame h1
  obtain ⟨hd2, hl2, _⟩ := bget_again_frame h3
  obtain ⟨hd, hl, hJ', hv⟩ :=
    bread_wr_fill_frame s2 bnew bold (Jinv_bget_again h3 (Jinv_bget h1 hJ))
  exact ⟨by rw [hd, hd2, hd1], by rw [hl, hl2, hl1], hJ', hv⟩

theorem absorb_index_le (block : Nat → Nat) (blockno : Nat) (fuel i : Nat) :
    absorb_index block blockno fuel i ≤ i + fuel := by
  induction fuel generalizing i with
  | zero => simp [absorb_index]
  | succ k ih =>
    unfold absorb_index
    split_ifs
    · omega
    · have := ih (i + 1)
      omega

/-- What the second half of `log_write` guarantees when it returns: the log untouched and
one disk write, to log data block `start + i + 1`. -/
theorem log_write_copy_frame {s s' : State} {i : Nat} {b : BufPtr}
    (h : log_write_copy s i b = .ok () s') (hJ : Jinv s) (hb : (s.getBuf b).valid = true) :
    Jinv s' ∧ s'.log = s.log ∧
    ∃ D, s'.disk = writeDisk s.disk s.log.dev (s.log.start + i + 1) D := by
  unfold log_write_copy at h
  obtain ⟨tobuf, s1, h1, h2⟩ := bind_eq_ok h
  obtain ⟨hd1, hl1, _, hne1, hdev1, hblk1, hv1, hJ1⟩ := bread_frame h1 hJ
  simp only at h2
  injection h2 with _ hs
  subst hs
  generalize bread_wr_old s1 s1.log.dev (s1.log.block i) = frm
  have hb1 : (s1.getBuf b).valid = true := by
    by_cases hbt : b = tobuf
    · subst hbt
      exact hv1
    · rw [hne1 b hbt]
      exact hb
  have hJ2 : Jinv (setData s1 tobuf (s1.getBuf frm).data) := Jinv_setData _ _ hJ1
  have hJ3 := Jinv_bwrite tobuf hJ2
  have hJ4 : Jinv ((bwrite (setData s1 tobuf (s1.getBuf frm).data) tobuf).modBuf frm
      (fun x => x.setDirty false)) := by
    apply Jinv_modBuf frm _ hJ3
    intro hd
    rw [setDirty_dirty] at hd
    exact Bool.noConfusion hd
  have hJ6 := Jinv_brelse tobuf (Jinv_brelse frm hJ4)
  refine ⟨?_, ?_, (s1.getBuf frm).data, ?_⟩
  · apply Jinv_modBuf b _ hJ6
    intro _
    rw [setDirty_valid, brelse_valid, brelse_valid, getBuf_modBuf]
    have hb3 : ((bwrite (setData s1 tobuf (s1.getBuf frm).data) tobuf).getBuf b).valid = true := by
      apply bwrite_valid_mono
      unfold setData
      rw [getBuf_modBuf]
      split_ifs with hh
      · subst hh
        rw [setData_valid]
        exact hb1
      · exact hb1
    split_ifs with hh
    · subst hh
      rw [setDirty_valid]
      exact hb3
    · exact hb3
  · rw [modBuf_log, brelse_log, brelse_log, modBuf_log, bwrite_log]
    unfold setData
    rw [modBuf_log, hl1]
  · rw [modBuf_disk, brelse_disk, brelse_disk, modBuf_disk, bwrite_disk]
    unfold setData
    rw [getBuf_modBuf_same, setData_dev, setData_blockno, setData_data, modBuf_disk, hdev1,
      hblk1, hd1]

theorem LogConst_refl (s : State) : LogConst s s := ⟨rfl, rfl, rfl⟩

theorem LogConst_of_log_eq {s s' : State} (h : s'.log = s.log) : LogConst s s' := by
  unfold LogConst
  rw [h]
  exact ⟨rfl, rfl, rfl⟩

theorem LogConst_trans {s s1 s2 : State} (h1 : LogConst s s1) (h2 : LogConst s1 s2) :
    LogConst s s2 := by
  obtain ⟨a1, b1, c1⟩ := h1
  obtain ⟨a2, b2, c2⟩ := h2
  exact ⟨a2.trans a1, b2.trans b1, c2.trans c1⟩

theorem inLogData_congr {s s' : State} (h : LogConst s s') (d k : Nat) :
    inLogData s'.log d k ↔ inLogData s.log d k := by
  obtain ⟨a, b, c⟩ := h
  unfold inLogData
  rw [a, b, c]

theorem BodyFrame_trans {s s1 s2 : State} (h1 : BodyFrame s s1) (h2 : BodyFrame s1 s2) :
    BodyFrame s s2 := by
  obtain ⟨_, c1, d1⟩ := h1
  obtain ⟨j2, c2, d2⟩ := h2
  refine ⟨j2, LogConst_trans c1 c2, fun d k hk => ?_⟩
  rw [d2 d k (fun hh => hk ((inLogData_congr c1 d k).1 hh)), d1 d k hk]

/-- `log_write`, when it returns, keeps DIRTY implying VALID, keeps the log region and
writes at most one log data block. -/
theorem log_write_frame {s s' : State} {b : BufPtr}
    (h : log_write s b = .ok () s') (hJ : Jinv s) (hb : (s.getBuf b).valid = true) :
    BodyFrame s s' := by
  unfold log_write at h
  split_ifs at h with hg
  simp only at h
  have hJ0 : Jinv (s.setLog (s.log.record
      (absorb_index s.log.block (s.getBuf b).blockno s.log.n 0) (s.getBuf b).blockno)) := hJ
  obtain ⟨hJ', hl, D, hd⟩ := log_write_copy_frame h hJ0 hb
  refine ⟨hJ', ?_, fun d k hk => ?_⟩
  · unfold LogConst
    rw [hl]
    exact ⟨rfl, rfl, rfl⟩
  · rw [hd]
    unfold writeDisk
    rw [if_neg]
    · rfl
    · rintro ⟨hd1, hk1⟩
      apply hk
      have hle := absorb_index_le s.log.block (s.getBuf b).blockno s.log.n 0
      have hg2 : ¬ ((s.log.n : Int) ≥ (s.log.size : Int) - 1) := fun hh => hg (Or.inr hh)
      refine ⟨hd1, ?_, ?_⟩
      · rw [hk1]
        show s.log.start + 1 ≤ s.log.start + _ + 1
        omega
      · rw [hk1]
        show s.log.start + _ + 1 < s.log.start + s.log.size
        omega

/-- One update of a transaction keeps DIRTY implying VALID, keeps the log region and
writes at most log data blocks. -/
theorem txn_write_frame {s s' : State} {blockno : Nat} {payload : Data}
    (h : txn_write s blockno payload = .ok () s') (hJ : Jinv s) : BodyFrame s s' := by
  unfold txn_write at h
  obtain ⟨b, s1, h1, h2⟩ := bind_eq_ok h
  obtain ⟨u, s2, h3, h4⟩ := bind_eq_ok h2
  injection h4 with _ hs
  subst hs
  obtain ⟨hd1, hl1, hJ1, hv1⟩ := bread_wr_frame h1 hJ
  have hJd : Jinv (setData s1 b payload) := Jinv_setData _ _ hJ1
  have hvd : ((setData s1 b payload).getBuf b).valid = true := by
    unfold setData
    rw [getBuf_modBuf_same, setData_valid]
    exact hv1
  obtain ⟨hJ2, hc2, hdk⟩ := log_write_frame h3 hJd hvd
  have hc1 : LogConst s (setData s1 b payload) := LogConst_of_log_eq hl1
  refine ⟨Jinv_brelse b hJ2, ?_, fun d k hk => ?_⟩
  · have := LogConst_trans hc1 hc2
    unfold LogConst at this ⊢
    rw [brelse_log]
    exact this
  · rw [brelse_disk, hdk d k (fun hh => hk ((inLogData_congr hc1 d k).1 hh))]
    show s1.disk d k = s.disk d k
    rw [hd1]

theorem BodyFrame_refl {s : State} (hJ : Jinv s) : BodyFrame s s :=
  ⟨hJ, LogConst_refl s, fun _ _ _ => rfl⟩

/-- The updates of a transaction keep DIRTY implying VALID, keep the log region and write
at most log data blocks. -/
theorem txn_body_frame (ws : List (Nat × Data)) {s s' : State}
    (h : txn_body s ws = .ok () s') (hJ : Jinv s) : BodyFrame s s' := by
  induction ws generalizing s with
  | nil =>
    unfold txn_body at h
    injection h with _ hs
    subst hs
    exact BodyFrame_refl hJ
  | cons w rest ih =>
    obtain ⟨blockno, payload⟩ := w
    unfold txn_body at h
    obtain ⟨u, s1, h1, h2⟩ := bind_eq_ok h
    have f1 := txn_write_frame h1 hJ
    exact BodyFrame_trans f1 (ih h2 f1.1)

/-- `bread` returns, or aborts with "bget: no buffers" in the state it was called in. -/
theorem bread_ok_or_no_buffers (s : State) (dev blockno : Nat) :
    (∃ p s', bread s dev blockno = .ok p s') ∨
    bread s dev blockno = .panic .bget_no_buffers s := by
  unfold bread
  rcases bget_cases s dev blockno with ⟨i, _, _, _, he⟩ | ⟨_, i, _, _, _, he⟩ | ⟨_, _, he⟩
  · left
    rw [he, bind_ok]
    split <;> exact ⟨_, _, rfl⟩
  · left
    rw [he, bind_ok]
    split <;> exact ⟨_, _, rfl⟩
  · right
    rw [he, bind_panic]

/-! ## Exact effects on well-behaved states -/

theorem setBuf_setBuf (s : State) (p : BufPtr) (a b : Buf) :
    (s.setBuf p a).setBuf p b = s.setBuf p b := by
  cases p with
  | slot i =>
    unfold State.setBuf setBuf
    simp only
    congr 2
    funext j
    split_ifs <;> rfl
  | head => rfl

theorem modBuf_setBuf (s : State) (p : BufPtr) (a : Buf) (f : Buf → Buf) :
    (s.setBuf p a).modBuf p f = s.setBuf p (f a) := by
  unfold State.modBuf
  rw [getBuf_setBuf_same, setBuf_setBuf]

theorem modBuf_eq_setBuf (s : State) (p : BufPtr) (f : Buf → Buf) :
    s.modBuf p f = s.setBuf p (f (s.getBuf p)) := rfl

theorem setDisk_setBuf (s : State) (p : BufPtr) (b : Buf) (d : Disk) :
    (s.setDisk d).setBuf p b = (s.setBuf p b).setDisk d := rfl

theorem setLog_setBuf (s : State) (p : BufPtr) (b : Buf) (lg : Log) :
    (s.setLog lg).setBuf p b = (s.setBuf p b).setLog lg := rfl

theorem refDec_one : refDec 1 = 0 := by decide

theorem refInc_zero : refInc 0 = 1 := by decide

/-! ### List lemmas for the scans -/

/-- The first hit of a weaker test is the first hit of a stronger one that it passes. -/
theorem find?_mono {p p' : Nat → Bool} {l : List Nat} {a : Nat}
    (h : l.find? p = some a) (ha : p' a = true) (hle : ∀ x ∈ l, p' x = true → p x = true) :
    l.find? p' = some a := by
  induction l with
  | nil => simp at h
  | cons x xs ih =>
    rw [List.find?_cons] at h ⊢
    by_cases hx : p x = true
    · rw [hx] at h
      injection h with hxa
      subst hxa
      rw [ha]
    · have hx' : p' x = false := by
        by_contra hc
        exact hx (hle x (List.mem_cons_self _ _) (by simpa using hc))
      simp only [Bool.not_eq_true] at hx
      rw [hx] at h
      rw [hx']
      exact ih h (fun y hy => hle y (List.mem_cons_of_mem _ hy))

theorem find?_erase_ne {p : Nat → Bool} {l : List Nat} {a i : Nat}
    (h : l.find? p = some a) (hne : a ≠ i) : (l.erase i).find? p = some a := by
  induction l with
  | nil => simp at h
  | cons x xs ih =>
    rw [List.erase_cons]
    rw [List.find?_cons] at h
    by_cases hxi : (x == i) = true
    · rw [if_pos hxi]
      have hxi' : x = i := by simpa using hxi
      by_cases hx : p x = true
      · rw [hx] at h
        injection h with hxa
        exact absurd (hxa.symm.trans hxi') hne
      · simp only [Bool.not_eq_true] at hx
        rw [hx] at h
        exact h
    · rw [if_neg hxi, List.find?_cons]
      by_cases hx : p x = true
      · rw [hx] at h ⊢
        exact h
      · simp only [Bool.not_eq_true] at hx
        rw [hx] at h ⊢
        exact ih h

/-- Moving to the front an element that fails the test keeps the first hit. -/
theorem find?_relink_ne {p : Nat → Bool} {l : List Nat} {a i : Nat}
    (h : l.find? p = some a) (hne : a ≠ i) (hi : p i = false) :
    (i :: l.erase i).find? p = some a := by
  rw [List.find?_cons, hi]
  exact find?_erase_ne h hne

theorem find?_relink_self {p : Nat → Bool} (l : List Nat) {i : Nat} (hi : p i = true) :
    (i :: l.erase i).find? p = some i := by
  rw [List.find?_cons, hi]

/-- The only element passing the test is the first hit. -/
theorem find?_unique {p : Nat → Bool} {l : List Nat} {a : Nat} (hm : a ∈ l) (ha : p a = true)
    (hu : ∀ x ∈ l, p x = true → x = a) : l.find? p = some a := by
  induction l with
  | nil => simp at hm
  | cons x xs ih =>
    rw [List.find?_cons]
    by_cases hx : p x = true
    · rw [hx, hu x (List.mem_cons_self _ _) hx]
    · simp only [Bool.not_eq_true] at hx
      rw [hx]
      rcases List.mem_cons.1 hm with h | h
      · subst h
        rw [ha] at hx
        exact Bool.noConfusion hx
      · exact ih h (fun y hy => hu y (List.mem_cons_of_mem _ hy))

theorem mem_relink {l : List Nat} {i x : Nat} (hi : i ∈ l) :
    x ∈ i :: l.erase i ↔ x ∈ l := by
  constructor
  · intro h
    rcases List.mem_cons.1 h with h | h
    · subst h
      exact hi
    · exact List.mem_of_mem_erase h
  · intro h
    by_cases hx : x = i
    · subst hx
      exact List.mem_cons_self _ _
    · exact List.mem_cons_of_mem _ ((List.mem_erase_of_ne hx).2 h)

theorem nodup_relink {l : List Nat} {i : Nat} (hn : l.Nodup) : (i :: l.erase i).Nodup := by
  rw [List.nodup_cons]
  refine ⟨fun h => ?_, hn.erase i⟩
  exact ((List.Nodup.mem_erase_iff hn).1 h).1 rfl

theorem length_relink {l : List Nat} {i : Nat} (hi : i ∈ l) :
    (i :: l.erase i).length = l.length := by
  rw [List.length_cons, List.length_erase_of_mem hi]
  have : 0 < l.length := List.length_pos_of_mem hi
  omega

/-- A duplicate-free list longer than `held` has an element outside `held`. -/
theorem exists_not_mem_of_length_lt (l held : List Nat) (hn : l.Nodup)
    (hlen : held.length < l.length) : ∃ a ∈ l, a ∉ held := by
  by_contra hc
  have hsub : l ⊆ held := fun x hx => by
    by_contra hx'
    exact hc ⟨x, hx, hx'⟩
  have := (List.subperm_of_subset hn hsub).length_le
  omega

/-! ### `bread` on a clean buffer -/

theorem buf_eq_loaded {b : Buf} {dev blockno : Nat} {d : Data} (h1 : b.dev = dev)
    (h2 : b.blockno = blockno) (h3 : b.valid = true) (h4 : b.dirty = false)
    (h5 : b.old = false) (h6 : b.refcnt = 1) (h7 : b.data = d) : b = loaded dev blockno d := by
  cases b
  simp only at h1 h2 h3 h4 h5 h6 h7
  subst h1 h2 h3 h4 h5 h6 h7
  rfl

/-- `bread` when the buffer found by the lookup (if any) is unreferenced, neither DIRTY nor
OLD and, if VALID, equal to the disk block, and some buffer is recyclable: it returns a
slot that was recyclable and now is `loaded` with the disk block; nothing else changes. -/
theorem bread_clean (s : State) (dev blockno : Nat)
    (hhit : ∀ i, s.bcache.order.find? (matches_ s.bcache dev blockno) = some i →
      (s.bcache.buf i).refcnt = 0 ∧ (s.bcache.buf i).dirty = false ∧
      (s.bcache.buf i).old = false ∧
      ((s.bcache.buf i).valid = true → (s.bcache.buf i).data = s.disk dev blockno))
    (hfree : ∃ a ∈ s.bcache.order, recyclable s.bcache a = true) :
    ∃ i, i ∈ s.bcache.order ∧ recyclable s.bcache i = true ∧
      (s.bcache.order.find? (matches_ s.bcache dev blockno) = some i ∨
        s.bcache.order.find? (matches_ s.bcache dev blockno) = none) ∧
      bread s dev blockno =
        .ok (.slot i) (s.setBuf (.slot i) (loaded dev blockno (s.disk dev blockno))) := by
  unfold bread
  rcases bget_cases s dev blockno with ⟨i, hf, hi, hm, he⟩ | ⟨hf, i, _, hi, hr, he⟩ | ⟨_, hn, _⟩
  · obtain ⟨h0, hd, ho, hc⟩ := hhit i hf
    simp only [matches_, Bool.and_eq_true, beq_iff_eq] at hm
    refine ⟨i, hi, ?_, Or.inl hf, ?_⟩
    · simp [recyclable, h0, hd]
    · rw [he, bind_ok, getBuf_setBuf_same, setRefcnt_valid]
      by_cases hv : (s.bcache.buf i).valid = true
      · rw [if_pos hv]
        congr 2
        apply buf_eq_loaded
        · exact hm.1
        · exact hm.2
        · exact hv
        · exact hd
        · exact ho
        · rw [setRefcnt_refcnt, h0]
          exact refInc_zero
        · exact hc hv
      · rw [if_neg hv]
        have hnd : ¬ ((s.setBuf (.slot i)
            ((s.bcache.buf i).setRefcnt (refInc (s.bcache.buf i).refcnt))).getBuf
              (.slot i)).dirty = true := by
          rw [getBuf_setBuf_same, setRefcnt_dirty, hd]
          exact Bool.noConfusion
        have hnv : ¬ ((s.setBuf (.slot i)
            ((s.bcache.buf i).setRefcnt (refInc (s.bcache.buf i).refcnt))).getBuf
              (.slot i)).valid = true := by
          rw [getBuf_setBuf_same, setRefcnt_valid]
          exact hv
        unfold iderw
        rw [if_neg hnd, if_neg hnv, modBuf_setBuf]
        congr 2
        apply buf_eq_loaded
        · exact hm.1
        · exact hm.2
        · rfl
        · exact hd
        · exact ho
        · simp only [setData_refcnt, setValid_refcnt, setRefcnt_refcnt]
          rw [h0]
          exact refInc_zero
        · simp only [setData_data, setValid_dev, setValid_blockno, setRefcnt_dev,
            setRefcnt_blockno, setBuf_disk]
          rw [hm.1, hm.2]
  · refine ⟨i, hi, hr, Or.inr hf, ?_⟩
    rw [he, bind_ok, getBuf_setBuf_same, recycle_valid, if_neg Bool.false_ne_true]
    have hnd : ¬ ((s.setBuf (.slot i) (recycle (s.bcache.buf i) dev blockno)).getBuf
        (.slot i)).dirty = true := by
      rw [getBuf_setBuf_same, recycle_dirty]
      exact Bool.false_ne_true
    have hnv : ¬ ((s.setBuf (.slot i) (recycle (s.bcache.buf i) dev blockno)).getBuf
        (.slot i)).valid = true := by
      rw [getBuf_setBuf_same, recycle_valid]
      exact Bool.false_ne_true
    unfold iderw
    rw [if_neg hnd, if_neg hnv, modBuf_setBuf]
    rfl
  · exfalso
    obtain ⟨a, ha, hr⟩ := hfree
    obtain ⟨i, hi⟩ := recycle_scan_some s.bcache ha hr
    rw [hi] at hn
    exact Option.noConfusion hn

/-- Releasing a slot whose reference count is 1 clears the count and moves the slot to the
front of the list. -/
theorem brelse_one (s : State) (i : Nat) (h : (s.bcache.buf i).refcnt = 1) :
    brelse s (.slot i) = (s.setBuf (.slot i) ((s.bcache.buf i).setRefcnt 0)).relink (.slot i) := by
  unfold brelse
  rw [getBuf_slot, h, if_pos refDec_one, modBuf_eq_setBuf, getBuf_slot, h, refDec_one]

/-- Overwriting the payload of a VALID, clean buffer and writing it out. -/
theorem bwrite_setData (s : State) (p : BufPtr) (d : Data)
    (hv : (s.getBuf p).valid = true) (hd : (s.getBuf p).dirty = false) :
    bwrite (setData s p d) p =
      (s.setBuf p ((s.getBuf p).setData d)).setDisk
        (writeDisk s.disk (s.getBuf p).dev (s.getBuf p).blockno d) := by
  unfold bwrite setData iderw
  rw [if_pos (by rw [getBuf_modBuf_same, getBuf_modBuf_same]; rfl)]
  rw [modBuf_eq_setBuf s p, modBuf_setBuf, modBuf_setBuf, getBuf_setBuf_same]
  simp only [setBuf_disk, setDirty_dev, setDirty_blockno, setDirty_data, setData_dev,
    setData_blockno, setData_data]
  congr 2
  cases hb : s.getBuf p
  rw [hb] at hv hd
  simp only at hv hd
  subst hv hd
  rfl

/-! ## Evaluation at concrete inputs -/

set_option maxRecDepth 100000 in
/-- C1 (evaluation at the failing input). Boot on `exDisk`; a first transaction stores 7 in
block 5 and completes, so block 5 holds 7 on disk when the second transaction begins. The
second transaction stores 8 and its `end_op` aborts at fault point 2, 3 or 5. After the
reboot, recovery leaves block 5 holding 105, the value from before the first transaction,
not 7: `log_write` took the pre-image from the OLD copy left behind by the first
transaction. -/
theorem mid_commit_crash_restores_stale_preimage :
    exAfterTx1.isOk = true ∧ exAfterTx1.state.disk 1 5 0 = 7 ∧
    (exCrash fault2).panicOf = some .commit_type_2 ∧
    (exReboot fault2).isOk = true ∧ (exReboot fault2).state.disk 1 5 0 = 105 ∧
    (exCrash fault3).panicOf = some .commit_type_3 ∧
    (exReboot fault3).isOk = true ∧ (exReboot fault3).state.disk 1 5 0 = 105 ∧
    (exCrash fault5).panicOf = some .install_trans_type_5 ∧
    (exReboot fault5).isOk = true ∧ (exReboot fault5).state.disk 1 5 0 = 105 := by
  decide

set_option maxRecDepth 100000 in
/-- C3 (counterexample). From the freshly initialised cache and an empty log with room for
39 entries, a transaction on the 29 distinct home blocks `100 .. 128` does not complete:
`log_write` of the 29th block aborts with "bget: no buffers", because 28 buffers are pinned
DIRTY and the two others are held by `bread_wr`. With a log region of two blocks a
transaction on the two home blocks 100 and 101 aborts with "too big a transaction". And a
transaction storing the payload 500 in block 10, the header block of the log region,
completes with block 10 holding the cleared header (word 0 is 0, not 500). -/
theorem round_trip_29_blocks_aborts :
    (exWrites 29).length ≤ LOGSIZE ∧ ((exWrites 29).map Prod.fst).Nodup ∧
    exFresh.log.n = 0 ∧
    (txn noFault exFresh (exWrites 29)).panicOf = some .bget_no_buffers ∧
    exFreshSmall.log.n = 0 ∧
    (txn noFault exFreshSmall (exWrites 2)).panicOf = some .too_big_a_transaction ∧
    (txn noFault exFresh [(10, pay 500)]).isOk = true ∧
    (txn noFault exFresh [(10, pay 500)]).state.disk 1 10 0 = 0 ∧ pay 500 0 = 500 := by
  decide

set_option maxRecDepth 100000 in
/-- C4 (counterexample). The header of `exDiskAlias` holds `n = 3` and the pairwise
distinct home blocks 12, 20, 11, all outside the one-block log region `[10, 11)`. After
`initlog` on a fresh cache, home block 12 (entry 0) differs from log data block 11, and home
block 20 (entry 1) differs from what log data block 12 held before recovery. -/
theorem recovery_with_log_blocks_outside_region :
    hdr_n (exDiskAlias 1 10) = 3 ∧ hdr_n (exDiskAlias 1 10) ≤ LOGSIZE ∧
    hdr_block (exDiskAlias 1 10) 0 = 12 ∧ hdr_block (exDiskAlias 1 10) 1 = 20 ∧
    hdr_block (exDiskAlias 1 10) 2 = 11 ∧
    (boot exDiskAlias 1 exTinySb).isOk = true ∧
    (boot exDiskAlias 1 exTinySb).state.disk 1 12 ≠ (boot exDiskAlias 1 exTinySb).state.disk 1 11 ∧
    (boot exDiskAlias 1 exTinySb).state.disk 1 20 ≠ exDiskAlias 1 12 := by
  refine ⟨by decide, by decide, by decide, by decide, by decide, by decide, ?_, ?_⟩
  · intro h
    exact absurd (congrFun h 0) (by decide)
  · intro h
    exact absurd (congrFun h 0) (by decide)

set_option maxRecDepth 100000 in
/-- C5 (evaluation at the failing input). Block 5 holds 105 on disk. After the first
`log_write` of block 5 the header has the single entry 5 and log data block 11 holds the
pre-image 105. After 28 other blocks have been read and released and `log_write` is called
on block 5 again, there is still one entry, but log data block 11 holds 0: the OLD copy
was recycled, `bget_old` returned the list sentinel and its payload was logged. -/
theorem absorbed_write_loses_preimage :
    exLoggedOnce.isOk = true ∧ exLoggedOnce.state.log.n = 1 ∧
    exLoggedOnce.state.log.block 0 = 5 ∧ exLoggedOnce.state.disk 1 11 0 = 105 ∧
    exDisk 1 5 0 = 105 ∧
    exLoggedTwice.isOk = true ∧ exLoggedTwice.state.log.n = 1 ∧
    exLoggedTwice.state.log.block 0 = 5 ∧ exLoggedTwice.state.disk 1 11 0 = 0 := by
  decide

set_option maxRecDepth 100000 in
/-- C7 (evaluation at the failing input). After boot, `bread_wr` of block 5 returns slot 1,
which is not released; the next acquisition, `bread` of block 5, returns slot 2, the
OLD-tagged snapshot, whose reference count becomes 2 although it was acquired once. -/
theorem second_acquisition_returns_snapshot :
    exTwoAcquisitions.result = some (.slot 1, .slot 2) ∧
    (exTwoAcquisitions.state.bcache.buf 1).refcnt = 1 ∧
    (exTwoAcquisitions.state.bcache.buf 2).old = true ∧
    (exTwoAcquisitions.state.bcache.buf 2).refcnt = 2 := by
  decide

set_option maxRecDepth 100000 in
/-- C8 (evaluation at the failing input). After boot and one `bread_wr` of block 5, at
least two buffers are recyclable; a second `bread_wr` of block 5 returns slot 2, which is
tagged OLD. -/
theorem bread_wr_returns_old_copy :
    exFirstDup.isOk = true ∧
    2 ≤ (exFirstDup.state.bcache.order.filter (recyclable exFirstDup.state.bcache)).length ∧
    exSecondDup.result = some (.slot 2) ∧
    (exSecondDup.state.getBuf (.slot 2)).old = true := by
  decide

set_option maxRecDepth 100000 in
/-- C9 (evaluation at the failing input). With one resident copy of block 5 and none tagged
OLD, `bread_wr_old` returns the list sentinel and `log_write` returns normally, having
written the sentinel's payload (0) to log data block 11 instead of the pre-image 105. With
block 5 logged and no copy resident, `bread_wr_new` returns the sentinel and
`install_trans` returns normally, having written the sentinel to block 0 of device 0. -/
theorem missing_tagged_buffer_is_not_fatal :
    exPlainRead.isOk = true ∧
    bread_wr_old exPlainRead.state 1 5 = .head ∧
    exLogWithoutOld.isOk = true ∧ exLogWithoutOld.state.disk 1 11 0 = 0 ∧
    exDisk 1 5 0 = 105 ∧
    bread_wr_new (boot exDisk 1 exSb).state 1 5 = .head ∧
    exInstallWithoutNew.isOk = true ∧
    exDisk 0 0 0 = 100 ∧ exInstallWithoutNew.state.disk 0 0 0 = 0 := by
  decide

set_option maxRecDepth 100000 in
/-- C10 (counterexample). In the state `exLogFull` block 5 is entry 0 of the log and
`n = 2 = size - 1`; `log_write` on the buffer of block 5 aborts with
"too big a transaction" although the write would be absorbed. -/
theorem absorbed_write_aborts_when_full :
    exLogFull.result = some (.slot 1) ∧
    (exLogFull.state.getBuf (.slot 1)).blockno = 5 ∧
    exLogFull.state.log.n = 2 ∧ exLogFull.state.log.size = 3 ∧
    exLogFull.state.log.block 0 = 5 ∧
    (log_write exLogFull.state (.slot 1)).panicOf = some .too_big_a_transaction := by
  decide

/-! ## Eviction safety -/

/-- A store into a recyclable slot leaves every pinned buffer as it was. -/
theorem pinned_unchanged_of_recycle (s : State) (i : Nat) (b : Buf) (q : BufPtr)
    (hr : recyclable s.bcache i = true)
    (hq : (s.getBuf q).refcnt ≠ 0 ∨ (s.getBuf q).dirty = true) :
    (s.setBuf (.slot i) b).getBuf q = s.getBuf q := by
  apply getBuf_setBuf_ne
  rintro rfl
  simp only [recyclable, Bool.and_eq_true, beq_iff_eq, Bool.not_eq_true'] at hr
  rcases hq with h | h
  · exact h hr.1
  · simp only [getBuf_slot] at h
    rw [hr.2] at h
    exact Bool.noConfusion h

/-- C6. Eviction safety. Whenever `bget` takes its miss path (the lookup scan finds no
buffer for the device and block) or `bget_again` runs, and a buffer is returned, that
buffer had reference count 0 and DIRTY unset before the call; and no buffer (slot or
sentinel) with non-zero reference count or with DIRTY set has its device, block number,
flags or payload changed by either function. -/
theorem eviction_safety (s : State) (dev blockno : Nat) :
    (∀ p s', bget s dev blockno = .ok p s' →
      (s.bcache.order.find? (matches_ s.bcache dev blockno) = none →
        (s.getBuf p).refcnt = 0 ∧ (s.getBuf p).dirty = false) ∧
      ∀ q, (s.getBuf q).refcnt ≠ 0 ∨ (s.getBuf q).dirty = true →
        (s'.getBuf q).dev = (s.getBuf q).dev ∧ (s'.getBuf q).blockno = (s.getBuf q).blockno ∧
        (s'.getBuf q).valid = (s.getBuf q).valid ∧ (s'.getBuf q).dirty = (s.getBuf q).dirty ∧
        (s'.getBuf q).old = (s.getBuf q).old ∧ (s'.getBuf q).data = (s.getBuf q).data) ∧
    (∀ p s', bget_again s dev blockno = .ok p s' →
      ((s.getBuf p).refcnt = 0 ∧ (s.getBuf p).dirty = false) ∧
      ∀ q, (s.getBuf q).refcnt ≠ 0 ∨ (s.getBuf q).dirty = true →
        (s'.getBuf q).dev = (s.getBuf q).dev ∧ (s'.getBuf q).blockno = (s.getBuf q).blockno ∧
        (s'.getBuf q).valid = (s.getBuf q).valid ∧ (s'.getBuf q).dirty = (s.getBuf q).dirty ∧
        (s'.getBuf q).old = (s.getBuf q).old ∧ (s'.getBuf q).data = (s.getBuf q).data) := by
  constructor
  · intro p s' h
    rcases bget_cases s dev blockno with ⟨i, hf, _, _, he⟩ | ⟨_, i, _, _, hr, he⟩ | ⟨_, _, he⟩
    · rw [he] at h
      injection h with hp hs
      subst hp; subst hs
      refine ⟨fun hn => ?_, fun q _ => ?_⟩
      · rw [hf] at hn
        exact Option.noConfusion hn
      · by_cases hq : q = .slot i
        · subst hq
          simp
        · rw [getBuf_setBuf_ne _ _ hq]
          simp
    · rw [he] at h
      injection h with hp hs
      subst hp; subst hs
      have hr2 := hr
      simp only [recyclable, Bool.and_eq_true, beq_iff_eq, Bool.not_eq_true'] at hr2
      refine ⟨fun _ => ⟨hr2.1, hr2.2⟩, fun q hq => ?_⟩
      rw [pinned_unchanged_of_recycle s i _ q hr hq]
      simp
    · rw [he] at h
      exact Res.noConfusion h
  · intro p s' h
    rcases bget_again_cases s dev blockno with ⟨i, _, _, hr, he⟩ | ⟨_, he⟩
    · rw [he] at h
      injection h with hp hs
      subst hp; subst hs
      have hr2 := hr
      simp only [recyclable, Bool.and_eq_true, beq_iff_eq, Bool.not_eq_true'] at hr2
      refine ⟨⟨hr2.1, hr2.2⟩, fun q hq => ?_⟩
      rw [pinned_unchanged_of_recycle s i _ q hr hq]
      simp
    · rw [he] at h
      exact Res.noConfusion h

set_option maxRecDepth 100000 in
/-- C6 at a concrete pool: after `exLoggedOnce` slot 1 is pinned (DIRTY, reference count 1);
`bget` of the uncached block 77 takes the miss path, returns slot 4, which had reference
count 0 and DIRTY unset, and leaves slot 1 as it was. -/
theorem eviction_safety_witness :
    (bget exLoggedOnce.state 1 77).result = some (.slot 4) ∧
    (exLoggedOnce.state.getBuf (.slot 1)).dirty = true ∧
    ((exLoggedOnce.state.getBuf (.slot 4)).refcnt = 0 ∧
      (exLoggedOnce.state.getBuf (.slot 4)).dirty = false) ∧
    ((bget exLoggedOnce.state 1 77).state.getBuf (.slot 1)).blockno = 5 :=
  ⟨by decide, by decide,
   ((eviction_safety exLoggedOnce.state 1 77).1 (.slot 4) (bget exLoggedOnce.state 1 77).state
     (by rfl)).1 (by decide),
   by decide⟩

/-! ## Oversized transactions -/

/-- The second half of `log_write` never aborts with "too big a transaction". -/
theorem log_write_copy_not_too_big (s : State) (i : Nat) (b : BufPtr) :
    (log_write_copy s i b).panicOf ≠ some .too_big_a_transaction := by
  unfold log_write_copy
  rcases bread_ok_or_no_buffers s s.log.dev (s.log.start + i + 1) with ⟨p, s1, he⟩ | he
  · rw [he]
    simp [Res.panicOf]
  · rw [he]
    simp [Res.panicOf]

/-- C10 (amended). `log_write` aborts with "too big a transaction" exactly when, on entry,
`n >= LOGSIZE` or `n >= size - 1`, whether or not the block of the buffer is already in
`block[0..n)`. -/
theorem log_write_too_big_iff (s : State) (b : BufPtr) :
    (log_write s b).panicOf = some .too_big_a_transaction ↔
      (s.log.n ≥ LOGSIZE ∨ (s.log.n : Int) ≥ (s.log.size : Int) - 1) := by
  unfold log_write
  by_cases hg : s.log.n ≥ LOGSIZE ∨ (s.log.n : Int) ≥ (s.log.size : Int) - 1
  · rw [if_pos hg]
    exact ⟨fun _ => hg, fun _ => rfl⟩
  · rw [if_neg hg]
    exact ⟨fun h => absurd h (log_write_copy_not_too_big _ _ _), fun h => absurd h hg⟩

/-! ## A crash before the header write -/

theorem write_head_loop_zero (block : Nat → Nat) (d : Data) (n : Nat) :
    write_head_loop block d n 0 = d 0 := by
  induction n with
  | zero => rfl
  | succ k ih =>
    unfold write_head_loop
    rw [if_neg (by omega)]
    exact ih

theorem write_head_data_n (lg : Log) (d : Data) : hdr_n (write_head_data lg d) = lg.n := by
  unfold hdr_n write_head_data
  rw [write_head_loop_zero]
  rfl

/-- `write_head`, when it returns, leaves the log untouched and has written one block, the
header, whose count is the in-memory `n`. -/
theorem write_head_frame {s s' : State} (h : write_head s = .ok () s') (hJ : Jinv s) :
    Jinv s' ∧ s'.log = s.log ∧
    ∃ D, hdr_n D = s.log.n ∧ s'.disk = writeDisk s.disk s.log.dev s.log.start D := by
  unfold write_head at h
  obtain ⟨buf, s1, h1, h2⟩ := bind_eq_ok h
  obtain ⟨hd1, hl1, _, _, hdev1, hblk1, _, hJ1⟩ := bread_frame h1 hJ
  injection h2 with _ hs
  subst hs
  refine ⟨Jinv_brelse _ (Jinv_bwrite _ (Jinv_setData _ _ hJ1)), ?_,
    write_head_data s1.log (s1.getBuf buf).data, ?_, ?_⟩
  · rw [brelse_log, bwrite_log]
    unfold setData
    rw [modBuf_log, hl1]
  · rw [write_head_data_n, hl1]
  · rw [brelse_disk, bwrite_disk]
    unfold setData
    rw [getBuf_modBuf_same, setData_dev, setData_blockno, setData_data, modBuf_disk, hdev1,
      hblk1, hd1]

/-- The install loop, when it returns, leaves the log untouched. -/
theorem install_trans_loop_frame (f : FaultFlags) (fuel : Nat) {tail : Nat} {s s' : State}
    (h : install_trans_loop f fuel tail s = .ok () s') (hJ : Jinv s) :
    Jinv s' ∧ s'.log = s.log := by
  induction fuel generalizing tail s with
  | zero =>
    unfold install_trans_loop at h
    injection h with _ hs
    subst hs
    exact ⟨hJ, rfl⟩
  | succ k ih =>
    unfold install_trans_loop at h
    split_ifs at h
    obtain ⟨hJ', hl⟩ := ih h (Jinv_bwrite _ hJ)
    exact ⟨hJ', by rw [hl, bwrite_log]⟩

theorem writeDisk_same (disk : Disk) (dev blockno : Nat) (d : Data) :
    writeDisk disk dev blockno d dev blockno = d := by
  unfold writeDisk
  rw [if_pos ⟨rfl, rfl⟩]

/-- `commit`, when it returns from a state whose on-disk header has `n = 0`, leaves an
on-disk header with `n = 0`, an empty in-memory log and the log region where it was. -/
theorem commit_frame {f : FaultFlags} {s s' : State} (h : commit f s = .ok () s')
    (hJ : Jinv s) (h0 : hdr_n (s.disk s.log.dev s.log.start) = 0) :
    Jinv s' ∧ LogConst s s' ∧ hdr_n (s'.disk s'.log.dev s'.log.start) = 0 := by
  unfold commit at h
  by_cases hn : s.log.n > 0
  · rw [if_pos hn] at h
    by_cases p1 : f.PANIC_1 = true
    · rw [if_pos p1] at h
      exact Res.noConfusion h
    rw [if_neg p1] at h
    obtain ⟨u1, s1, e1, h2⟩ := bind_eq_ok h
    by_cases p2 : f.PANIC_2 = true
    · rw [if_pos p2] at h2
      exact Res.noConfusion h2
    rw [if_neg p2] at h2
    obtain ⟨u2, s2, e2, h3⟩ := bind_eq_ok h2
    by_cases p3 : f.PANIC_3 = true
    · rw [if_pos p3] at h3
      exact Res.noConfusion h3
    rw [if_neg p3] at h3
    obtain ⟨u3, s3, e3, h4⟩ := bind_eq_ok h3
    by_cases p4 : f.PANIC_4 = true
    · rw [if_pos p4] at h4
      exact Res.noConfusion h4
    rw [if_neg p4] at h4
    injection h4 with _ hs
    subst hs
    obtain ⟨hJ1, hl1, _⟩ := write_head_frame e1 hJ
    obtain ⟨hJ2, hl2⟩ := install_trans_loop_frame f _ e2 hJ1
    have hJ2' : Jinv (s2.setLog { s2.log with n := 0 }) := hJ2
    obtain ⟨hJ3, hl3, D, hD, hdisk⟩ := write_head_frame e3 hJ2'
    refine ⟨hJ3, ?_, ?_⟩
    · unfold LogConst
      rw [hl3, setLog_log]
      show s2.log.start = _ ∧ s2.log.size = _ ∧ s2.log.dev = _
      rw [hl2, hl1]
      exact ⟨rfl, rfl, rfl⟩
    · rw [hdisk, hl3, setLog_log]
      show hdr_n (writeDisk s2.disk s2.log.dev s2.log.start D s2.log.dev s2.log.start) = 0
      rw [writeDisk_same, hD]
      rfl
  · rw [if_neg hn] at h
    injection h with _ hs
    subst hs
    exact ⟨hJ, LogConst_refl _, h0⟩

/-- A completed transaction, run from a state whose on-disk header has `n = 0`, leaves an
on-disk header with `n = 0`. -/
theorem txn_frame {f : FaultFlags} {s s' : State} {ws : List (Nat × Data)}
    (h : txn f s ws = .ok () s') (hJ : Jinv s)
    (h0 : hdr_n (s.disk s.log.dev s.log.start) = 0) :
    Jinv s' ∧ LogConst s s' ∧ hdr_n (s'.disk s'.log.dev s'.log.start) = 0 := by
  unfold txn end_op at h
  obtain ⟨u1, s1, e1, h2⟩ := bind_eq_ok h
  obtain ⟨hJ1, hc1, hd1⟩ := txn_body_frame ws e1 hJ
  have h01 : hdr_n (s1.disk s1.log.dev s1.log.start) = 0 := by
    rw [hc1.1, hc1.2.2, hd1]
    · exact h0
    · rintro ⟨_, hk, _⟩
      omega
  obtain ⟨hJ2, hc2, h02⟩ := commit_frame h2 hJ1 h01
  exact ⟨hJ2, LogConst_trans hc1 hc2, h02⟩

/-- Completed transactions, run from a state whose on-disk header has `n = 0`, leave an
on-disk header with `n = 0`. -/
theorem run_txns_frame (txs : List (List (Nat × Data))) {s s' : State}
    (h : run_txns s txs = .ok () s') (hJ : Jinv s)
    (h0 : hdr_n (s.disk s.log.dev s.log.start) = 0) :
    Jinv s' ∧ LogConst s s' ∧ hdr_n (s'.disk s'.log.dev s'.log.start) = 0 := by
  induction txs generalizing s with
  | nil =>
    unfold run_txns at h
    injection h with _ hs
    subst hs
    exact ⟨hJ, LogConst_refl _, h0⟩
  | cons ws rest ih =>
    unfold run_txns at h
    obtain ⟨u1, s1, e1, h2⟩ := bind_eq_ok h
    obtain ⟨hJ1, hc1, h01⟩ := txn_frame e1 hJ h0
    obtain ⟨hJ2, hc2, h02⟩ := ih h2 hJ1 h01
    exact ⟨hJ2, LogConst_trans hc1 hc2, h02⟩

theorem fresh_recyclable : ∃ a ∈ (binit zeroBcache).order, recyclable (binit zeroBcache) a = true :=
  ⟨0, by decide, by decide⟩

theorem Jinv_of_clean {s : State} (h : ∀ q, (s.getBuf q).dirty = false) : Jinv s := by
  intro q hq
  rw [h q] at hq
  exact Bool.noConfusion hq

theorem fresh_getBuf (lg : Log) (disk : Disk) (q : BufPtr) :
    (State.mk (binit zeroBcache) lg disk).getBuf q = zeroBuf := by
  cases q <;> rfl

/-- `bread` returns whenever some buffer on the list is recyclable. -/
theorem bread_ok_of_recyclable (s : State) (dev blockno : Nat) {a : Nat}
    (ha : a ∈ s.bcache.order) (hr : recyclable s.bcache a = true) :
    ∃ p s', bread s dev blockno = .ok p s' := by
  rcases bread_ok_or_no_buffers s dev blockno with h | h
  · exact h
  · exfalso
    unfold bread at h
    rcases bget_cases s dev blockno with ⟨i, _, _, _, he⟩ | ⟨_, i, _, _, _, he⟩ | ⟨_, hn, _⟩
    · rw [he, bind_ok] at h
      split_ifs at h
    · rw [he, bind_ok] at h
      split_ifs at h
    · obtain ⟨i, hi⟩ := recycle_scan_some s.bcache ha hr
      rw [hi] at hn
      exact Option.noConfusion hn

/-- Boot on a disk whose header has `n = 0`: `initlog` returns, the disk is unchanged and
the in-memory log is empty. -/
theorem boot_empty (disk : Disk) (dev : Nat) (sb : Superblock)
    (h0 : hdr_n (disk dev sb.logstart) = 0) :
    ∃ s, boot disk dev sb = .ok () s ∧ s.disk = disk ∧ Jinv s ∧
      s.log.start = sb.logstart ∧ s.log.size = sb.nlog ∧ s.log.dev = dev ∧ s.log.n = 0 := by
  unfold boot initlog
  rw [if_neg (by decide)]
  unfold recover_from_log read_head
  generalize hs0 : (State.mk (binit zeroBcache) zeroLog disk).setLog
    { zeroLog with start := sb.logstart, size := sb.nlog, dev := dev } = s0
  have hg0 : ∀ q, s0.getBuf q = zeroBuf := by
    intro q
    rw [← hs0]
    exact fresh_getBuf _ _ q
  have hJ0 : Jinv s0 := Jinv_of_clean (fun q => by rw [hg0 q]; rfl)
  have hdev : s0.log.dev = dev := by rw [← hs0]; rfl
  have hstart : s0.log.start = sb.logstart := by rw [← hs0]; rfl
  have hsize : s0.log.size = sb.nlog := by rw [← hs0]; rfl
  have hdisk : s0.disk = disk := by rw [← hs0]; rfl
  obtain ⟨a, ha, hr⟩ := fresh_recyclable
  have ha0 : a ∈ s0.bcache.order := by rw [← hs0]; exact ha
  have hr0 : recyclable s0.bcache a = true := by rw [← hs0]; exact hr
  obtain ⟨p, s1, e1⟩ := bread_ok_of_recyclable s0 s0.log.dev s0.log.start ha0 hr0
  obtain ⟨hd1, hl1, _, _, _, _, _, hJ1⟩ := bread_frame e1 hJ0
  have hdata := bread_data_of_invalid e1 hJ0 (fun q => by rw [hg0 q]; rfl)
  rw [e1, bind_ok, bind_ok]
  have hn : (s1.log.load (s1.getBuf p).data).n = 0 := by
    show hdr_n (s1.getBuf p).data = 0
    rw [hdata, hdisk, hdev, hstart]
    exact h0
  refine ⟨brelse (s1.setLog (s1.log.load (s1.getBuf p).data)) p, ?_, ?_, ?_, ?_, ?_, ?_, ?_⟩
  · unfold install_trans_old
    rw [brelse_log, setLog_log, hn]
    rfl
  · rw [brelse_disk, setLog_disk, hd1, hdisk]
  · exact Jinv_brelse p hJ1
  · rw [brelse_log, setLog_log]
    show s1.log.start = _
    rw [hl1, hstart]
  · rw [brelse_log, setLog_log]
    show s1.log.size = _
    rw [hl1, hsize]
  · rw [brelse_log, setLog_log]
    show s1.log.dev = _
    rw [hl1, hdev]
  · rw [brelse_log, setLog_log]
    exact hn

/-- C2 (amended). Pre-commit crash is a no-op outside the log region. Boot on a disk whose
header has `n = 0`, run any sequence of completed transactions to reach `s`, then the
updates of one more transaction to reach `s'` with `n > 0`. With `PANIC_1` set, `end_op`
aborts at fault point 1 in the state `s'` itself; no block outside the log region differs
on disk from its content in `s` (no home block outside the log region was written); and
the reboot (fresh `binit`, `initlog` with recovery) returns with every block outside the
log region holding its content in `s`. -/
theorem pre_commit_crash_is_noop (disk0 : Disk) (dev : Nat) (sb : Superblock)
    (txs : List (List (Nat × Data))) (ws : List (Nat × Data)) (f : FaultFlags)
    (s0 s s' : State)
    (h0 : hdr_n (disk0 dev sb.logstart) = 0)
    (hboot : boot disk0 dev sb = .ok () s0)
    (hrun : run_txns s0 txs = .ok () s)
    (hbody : txn_body s ws = .ok () s')
    (hn : s'.log.n > 0)
    (hf : f.PANIC_1 = true) :
    end_op f s' = .panic .commit_type_1 s' ∧
    (∀ d k, ¬ (d = dev ∧ sb.logstart ≤ k ∧ k < sb.logstart + sb.nlog) →
      s'.disk d k = s.disk d k) ∧
    ∃ sr, boot s'.disk dev sb = .ok () sr ∧
      ∀ d k, ¬ (d = dev ∧ sb.logstart ≤ k ∧ k < sb.logstart + sb.nlog) →
        sr.disk d k = s.disk d k := by
  obtain ⟨sb0, e0, hd0, hJ0, hst0, hsz0, hdv0, _⟩ := boot_empty disk0 dev sb h0
  rw [e0] at hboot
  injection hboot with _ hs
  subst hs
  have hh0 : hdr_n (sb0.disk sb0.log.dev sb0.log.start) = 0 := by
    rw [hd0, hdv0, hst0]
    exact h0
  obtain ⟨hJ1, hc1, hh1⟩ := run_txns_frame txs hrun hJ0 hh0
  obtain ⟨hJ2, hc2, hd2⟩ := txn_body_frame ws hbody hJ1
  have hst : s.log.start = sb.logstart := by rw [hc1.1, hst0]
  have hsz : s.log.size = sb.nlog := by rw [hc1.2.1, hsz0]
  have hdv : s.log.dev = dev := by rw [hc1.2.2, hdv0]
  have hout : ∀ d k, ¬ (d = dev ∧ sb.logstart ≤ k ∧ k < sb.logstart + sb.nlog) →
      s'.disk d k = s.disk d k := by
    intro d k hk
    apply hd2
    rintro ⟨a, b, c⟩
    rw [hst, hsz, hdv] at *
    exact hk ⟨a, by omega, c⟩
  have hh2 : hdr_n (s'.disk dev sb.logstart) = 0 := by
    rw [hd2]
    · rw [← hdv, ← hst]
      exact hh1
    · rintro ⟨_, b, _⟩
      rw [hst] at b
      omega
  refine ⟨?_, hout, ?_⟩
  · unfold end_op commit
    rw [if_pos hn, if_pos hf]
  · obtain ⟨sr, er, hdr, _⟩ := boot_empty s'.disk dev sb hh2
    exact ⟨sr, er, fun d k hk => by rw [hdr, hout d k hk]⟩

set_option maxRecDepth 100000 in
/-- C2 (amended) at a concrete input: boot on `exDisk`, one completed transaction on block 5, then a
transaction on block 6 that aborts at fault point 1. -/
theorem pre_commit_crash_is_noop_witness :
    end_op fault1 exOpenTx2.state = .panic .commit_type_1 exOpenTx2.state ∧
    (∀ d k, ¬ (d = 1 ∧ exSb.logstart ≤ k ∧ k < exSb.logstart + exSb.nlog) →
      exOpenTx2.state.disk d k = exAfterTx1.state.disk d k) ∧
    ∃ sr, boot exOpenTx2.state.disk 1 exSb = .ok () sr ∧
      ∀ d k, ¬ (d = 1 ∧ exSb.logstart ≤ k ∧ k < exSb.logstart + exSb.nlog) →
        sr.disk d k = exAfterTx1.state.disk d k :=
  pre_commit_crash_is_noop exDisk 1 exSb [[(5, pay 7)]] [(6, pay 8)] fault1
    (boot exDisk 1 exSb).state exAfterTx1.state exOpenTx2.state
    (by decide) (by rfl) (by rfl) (by rfl) (by decide) (by rfl)

/-! ## Recovery: the cache invariant -/

theorem matches_setBuf (s : State) (x : Nat) (b : Buf) (d k j : Nat) :
    matches_ (s.setBuf (.slot x) b).bcache d k j =
      if j = x then (b.dev == d && b.blockno == k) else matches_ s.bcache d k j := by
  unfold matches_
  rw [setBuf_slot_buf]
  split_ifs <;> rfl

theorem matches_iff (c : Bcache) (d k j : Nat) :
    matches_ c d k j = true ↔ (c.buf j).dev = d ∧ (c.buf j).blockno = k := by
  simp [matches_]

theorem matches_self (c : Bcache) (j : Nat) :
    matches_ c (c.buf j).dev (c.buf j).blockno j = true := by
  simp [matches_]

theorem recyclable_iff (c : Bcache) (j : Nat) :
    recyclable c j = true ↔ (c.buf j).refcnt = 0 ∧ (c.buf j).dirty = false := by
  simp [recyclable]

/-- Under the recovery invariant, `bread` of a block that no held buffer caches returns a
slot not held before, `loaded` with the disk block, and the invariant holds with that slot
held. -/
theorem RInvH_bread {s : State} {held : List Nat} (dev blockno : Nat) (hR : RInvH s held)
    (hlen : held.length < s.bcache.order.length)
    (hnm : ∀ i ∈ held, matches_ s.bcache dev blockno i = false) :
    ∃ x, x ∈ s.bcache.order ∧ x ∉ held ∧
      bread s dev blockno =
        .ok (.slot x) (s.setBuf (.slot x) (loaded dev blockno (s.disk dev blockno))) ∧
      RInvH (s.setBuf (.slot x) (loaded dev blockno (s.disk dev blockno))) (x :: held) := by
  have hfree : ∃ a ∈ s.bcache.order, recyclable s.bcache a = true := by
    obtain ⟨a, ha, hah⟩ := exists_not_mem_of_length_lt _ _ hR.nodup hlen
    refine ⟨a, ha, (recyclable_iff _ _).2 ⟨?_, hR.nodirty a ha⟩⟩
    rw [hR.ref a ha, if_neg hah]
  have hhit : ∀ i, s.bcache.order.find? (matches_ s.bcache dev blockno) = some i →
      (s.bcache.buf i).refcnt = 0 ∧ (s.bcache.buf i).dirty = false ∧
      (s.bcache.buf i).old = false ∧
      ((s.bcache.buf i).valid = true → (s.bcache.buf i).data = s.disk dev blockno) := by
    intro i hf
    have hi := List.mem_of_find?_eq_some hf
    have hm := List.find?_some hf
    have hih : i ∉ held := fun hh => by
      rw [hnm i hh] at hm
      exact Bool.noConfusion hm
    refine ⟨by rw [hR.ref i hi, if_neg hih], hR.nodirty i hi, hR.noold i hi, fun hv => ?_⟩
    rw [hR.coh i hi hv, ((matches_iff _ _ _ _).1 hm).1, ((matches_iff _ _ _ _).1 hm).2]
  obtain ⟨x, hx, hrx, hinfo, he⟩ := bread_clean s dev blockno hhit hfree
  have hxh : x ∉ held := fun hh => by
    have h1 := hR.ref x hx
    rw [if_pos hh, ((recyclable_iff _ _).1 hrx).1] at h1
    exact absurd h1 (by decide)
  refine ⟨x, hx, hxh, he, ?_⟩
  have hbuf : ∀ j, (s.setBuf (.slot x) (loaded dev blockno (s.disk dev blockno))).bcache.buf j =
      if j = x then loaded dev blockno (s.disk dev blockno) else s.bcache.buf j :=
    fun j => setBuf_slot_buf s x j _
  have hord : (s.setBuf (.slot x) (loaded dev blockno (s.disk dev blockno))).bcache.order =
      s.bcache.order := setBuf_order _ _ _
  constructor
  · rw [hord]
    exact hR.nodup
  · exact List.nodup_cons.2 ⟨hxh, hR.heldnd⟩
  · intro i hi
    rw [hord, hbuf]
    rcases List.mem_cons.1 hi with h | h
    · subst h
      rw [if_pos rfl]
      exact ⟨hx, rfl⟩
    · have hne : i ≠ x := fun hh => hxh (hh ▸ h)
      rw [if_neg hne]
      exact hR.heldsub i h
  · intro i hi
    rw [hord] at hi
    rw [hbuf]
    by_cases h : i = x
    · subst h
      rw [if_pos rfl, if_pos (List.mem_cons_self _ _)]
      rfl
    · rw [if_neg h, hR.ref i hi]
      by_cases hh : i ∈ held
      · rw [if_pos hh, if_pos (List.mem_cons_of_mem _ hh)]
      · rw [if_neg hh, if_neg]
        intro hc
        rcases List.mem_cons.1 hc with h' | h'
        · exact h h'
        · exact hh h'
  · intro i hi
    rw [hord] at hi
    rw [hbuf]
    split_ifs
    · rfl
    · exact hR.nodirty i hi
  · intro i hi
    rw [hord] at hi
    rw [hbuf]
    split_ifs
    · rfl
    · exact hR.noold i hi
  · intro i hi
    rw [hord] at hi
    rw [hbuf, setBuf_disk]
    split_ifs
    · intro _
      rfl
    · exact hR.coh i hi
  · intro i hi
    rw [hord] at hi ⊢
    rw [hbuf]
    by_cases h : i = x
    · subst h
      rw [if_pos rfl]
      intro _
      show List.find? (matches_ _ dev blockno) _ = _
      rcases hinfo with hf | hf
      · apply find?_mono hf
        · rw [matches_setBuf, if_pos rfl]
          simp [loaded]
        · intro y _ hy
          rw [matches_setBuf] at hy
          split_ifs at hy with hyx
          · rw [hyx]
            exact List.find?_some hf
          · exact hy
      · apply find?_unique hx
        · rw [matches_setBuf, if_pos rfl]
          simp [loaded]
        · intro y hy hym
          by_contra hyx
          rw [matches_setBuf, if_neg hyx] at hym
          exact List.find?_eq_none.1 hf y hy hym
    · rw [if_neg h]
      intro hv
      have hfi := hR.first i hi hv
      apply find?_mono hfi
      · rw [matches_setBuf, if_neg h]
        exact matches_self _ _
      · intro y _ hy
        rw [matches_setBuf] at hy
        split_ifs at hy with hyx
        · subst hyx
          simp only [loaded, Bool.and_eq_true, beq_iff_eq] at hy
          rcases hinfo with hf | hf
          · have := List.find?_some hf
            rw [hy.1, hy.2] at this
            exact this
          · exfalso
            have := List.find?_eq_none.1 hf i hi
            rw [hy.1, hy.2] at this
            exact this (matches_self _ _)
        · exact hy

theorem matches_congr {c c' : Bcache} (h : ∀ j, (c'.buf j).dev = (c.buf j).dev ∧
    (c'.buf j).blockno = (c.buf j).blockno) (d k : Nat) :
    matches_ c' d k = matches_ c d k := by
  funext j
  unfold matches_
  rw [(h j).1, (h j).2]

/-- Under the recovery invariant, overwriting the payload of a held buffer and writing it
out keeps the invariant; the disk changes in that block only. -/
theorem RInvH_write {s : State} {held : List Nat} {y : Nat} (d : Data) (hR : RInvH s held)
    (hy : y ∈ held) :
    bwrite (setData s (.slot y) d) (.slot y) =
      (s.setBuf (.slot y) ((s.bcache.buf y).setData d)).setDisk
        (writeDisk s.disk (s.bcache.buf y).dev (s.bcache.buf y).blockno d) ∧
    RInvH ((s.setBuf (.slot y) ((s.bcache.buf y).setData d)).setDisk
        (writeDisk s.disk (s.bcache.buf y).dev (s.bcache.buf y).blockno d)) held := by
  obtain ⟨hyo, hyv⟩ := hR.heldsub y hy
  refine ⟨bwrite_setData s (.slot y) d hyv (hR.nodirty y hyo), ?_⟩
  have hbuf : ∀ j, ((s.setBuf (.slot y) ((s.bcache.buf y).setData d)).setDisk
      (writeDisk s.disk (s.bcache.buf y).dev (s.bcache.buf y).blockno d)).bcache.buf j =
      if j = y then (s.bcache.buf y).setData d else s.bcache.buf j :=
    fun j => setBuf_slot_buf s y j _
  have hid : ∀ j, (((s.setBuf (.slot y) ((s.bcache.buf y).setData d)).setDisk
      (writeDisk s.disk (s.bcache.buf y).dev (s.bcache.buf y).blockno d)).bcache.buf j).dev =
        (s.bcache.buf j).dev ∧
      (((s.setBuf (.slot y) ((s.bcache.buf y).setData d)).setDisk
      (writeDisk s.disk (s.bcache.buf y).dev (s.bcache.buf y).blockno d)).bcache.buf j).blockno =
        (s.bcache.buf j).blockno := by
    intro j
    rw [hbuf]
    split_ifs with h
    · subst h
      exact ⟨rfl, rfl⟩
    · exact ⟨rfl, rfl⟩
  have hord : ((s.setBuf (.slot y) ((s.bcache.buf y).setData d)).setDisk
      (writeDisk s.disk (s.bcache.buf y).dev (s.bcache.buf y).blockno d)).bcache.order =
      s.bcache.order := setBuf_order _ _ _
  constructor
  · rw [hord]
    exact hR.nodup
  · exact hR.heldnd
  · intro i hi
    rw [hord, hbuf]
    split_ifs with h
    · subst h
      exact ⟨hyo, hyv⟩
    · exact hR.heldsub i hi
  · intro i hi
    rw [hord] at hi
    rw [hbuf]
    by_cases h : i = y
    · subst h
      rw [if_pos rfl]
      exact hR.ref i hi
    · rw [if_neg h]
      exact hR.ref i hi
  · intro i hi
    rw [hord] at hi
    rw [hbuf]
    split_ifs with h
    · subst h
      exact hR.nodirty i hi
    · exact hR.nodirty i hi
  · intro i hi
    rw [hord] at hi
    rw [hbuf]
    split_ifs with h
    · subst h
      exact hR.noold i hi
    · exact hR.noold i hi
  · intro i hi
    rw [hord] at hi
    rw [(hid i).1, (hid i).2, hbuf, setDisk_disk]
    split_ifs with h
    · subst h
      intro _
      rw [setData_data, writeDisk_same]
    · intro hv
      rw [hR.coh i hi hv]
      unfold writeDisk
      rw [if_neg]
      rintro ⟨h1, h2⟩
      have hfi := hR.first i hi hv
      have hfy := hR.first y hyo hyv
      rw [h1, h2, hfy] at hfi
      injection hfi with hfi
      exact h hfi.symm
  · intro i hi
    rw [hord] at hi ⊢
    rw [(hid i).1, (hid i).2, matches_congr hid, hbuf]
    split_ifs with h
    · subst h
      exact hR.first i hi
    · exact hR.first i hi

/-- Under the recovery invariant, releasing a held buffer keeps the invariant with that
buffer no longer held. -/
theorem RInvH_brelse {s : State} {held : List Nat} {x : Nat} (hR : RInvH s held)
    (hx : x ∈ held) :
    brelse s (.slot x) =
      (s.setBuf (.slot x) ((s.bcache.buf x).setRefcnt 0)).relink (.slot x) ∧
    RInvH ((s.setBuf (.slot x) ((s.bcache.buf x).setRefcnt 0)).relink (.slot x))
      (held.erase x) := by
  obtain ⟨hxo, hxv⟩ := hR.heldsub x hx
  have hr1 : (s.bcache.buf x).refcnt = 1 := by rw [hR.ref x hxo, if_pos hx]
  refine ⟨brelse_one s x hr1, ?_⟩
  have hbuf : ∀ j, ((s.setBuf (.slot x) ((s.bcache.buf x).setRefcnt 0)).relink
      (.slot x)).bcache.buf j =
      if j = x then (s.bcache.buf x).setRefcnt 0 else s.bcache.buf j := by
    intro j
    rw [relink_buf, setBuf_slot_buf]
  have hid : ∀ j, (((s.setBuf (.slot x) ((s.bcache.buf x).setRefcnt 0)).relink
      (.slot x)).bcache.buf j).dev = (s.bcache.buf j).dev ∧
      (((s.setBuf (.slot x) ((s.bcache.buf x).setRefcnt 0)).relink
      (.slot x)).bcache.buf j).blockno = (s.bcache.buf j).blockno := by
    intro j
    rw [hbuf]
    split_ifs with h
    · subst h
      exact ⟨rfl, rfl⟩
    · exact ⟨rfl, rfl⟩
  have hord : ((s.setBuf (.slot x) ((s.bcache.buf x).setRefcnt 0)).relink
      (.slot x)).bcache.order = x :: s.bcache.order.erase x := by
    rw [relink_slot_order, setBuf_order]
  have hmem : ∀ i, i ∈ x :: s.bcache.order.erase x ↔ i ∈ s.bcache.order :=
    fun i => mem_relink hxo
  constructor
  · rw [hord]
    exact nodup_relink hR.nodup
  · exact hR.heldnd.erase x
  · intro i hi
    have hi' := (List.Nodup.mem_erase_iff hR.heldnd).1 hi
    rw [hord, hmem, hbuf, if_neg hi'.1]
    exact hR.heldsub i hi'.2
  · intro i hi
    rw [hord, hmem] at hi
    rw [hbuf]
    by_cases h : i = x
    · subst h
      rw [if_pos rfl, if_neg (fun hc => ((List.Nodup.mem_erase_iff hR.heldnd).1 hc).1 rfl)]
      rfl
    · rw [if_neg h, hR.ref i hi]
      by_cases hh : i ∈ held
      · rw [if_pos hh, if_pos ((List.Nodup.mem_erase_iff hR.heldnd).2 ⟨h, hh⟩)]
      · rw [if_neg hh, if_neg (fun hc => hh (List.mem_of_mem_erase hc))]
  · intro i hi
    rw [hord, hmem] at hi
    rw [hbuf]
    split_ifs with h
    · subst h
      exact hR.nodirty i hi
    · exact hR.nodirty i hi
  · intro i hi
    rw [hord, hmem] at hi
    rw [hbuf]
    split_ifs with h
    · subst h
      exact hR.noold i hi
    · exact hR.noold i hi
  · intro i hi
    rw [hord, hmem] at hi
    rw [(hid i).1, (hid i).2, hbuf, relink_disk, setBuf_disk]
    split_ifs with h
    · subst h
      exact hR.coh i hi
    · exact hR.coh i hi
  · intro i hi
    rw [hord, hmem] at hi
    rw [hord, (hid i).1, (hid i).2, matches_congr hid]
    have hvi : (((s.setBuf (.slot x) ((s.bcache.buf x).setRefcnt 0)).relink
        (.slot x)).bcache.buf i).valid = (s.bcache.buf i).valid := by
      rw [hbuf]
      split_ifs with h
      · subst h
        rfl
      · rfl
    rw [hvi]
    intro hv
    by_cases h : i = x
    · subst h
      exact find?_relink_self _ (matches_self _ _)
    · apply find?_relink_ne (hR.first i hi hv) h
      by_contra hc
      have hm : matches_ s.bcache (s.bcache.buf i).dev (s.bcache.buf i).blockno x = true := by
        simpa using hc
      obtain ⟨e1, e2⟩ := (matches_iff _ _ _ _).1 hm
      have hfx := hR.first x hxo hxv
      rw [e1, e2] at hfx
      have hfi := hR.first i hi hv
      rw [hfx] at hfi
      injection hfi with hfi
      exact h hfi.symm

/-- One iteration of the loop of `install_trans_old` under the recovery invariant, for an
entry whose home block is not its own log data block: it returns, keeps the invariant and
the log, and the disk changes in the home block only, which receives the log data block. -/
theorem install_old_step_spec {s : State} (tail : Nat) (hR : RInvH s [])
    (hlen : 2 ≤ s.bcache.order.length)
    (hne : s.log.block tail ≠ s.log.start + tail + 1) :
    ∃ s', install_old_step s tail = .ok () s' ∧ RInvH s' [] ∧
      s'.bcache.order.length = s.bcache.order.length ∧ s'.log = s.log ∧
      s'.disk = writeDisk s.disk s.log.dev (s.log.block tail)
        (s.disk s.log.dev (s.log.start + tail + 1)) := by
  obtain ⟨x, hx, _, e1, R1⟩ := RInvH_bread s.log.dev (s.log.start + tail + 1) hR
    (by rw [List.length_nil]; omega) (fun i hi => absurd hi (List.not_mem_nil i))
  have a1 : (s.setBuf (.slot x) (loaded s.log.dev (s.log.start + tail + 1)
      (s.disk s.log.dev (s.log.start + tail + 1)))).log = s.log := rfl
  have a2 : (s.setBuf (.slot x) (loaded s.log.dev (s.log.start + tail + 1)
      (s.disk s.log.dev (s.log.start + tail + 1)))).disk = s.disk := rfl
  have a3 : (s.setBuf (.slot x) (loaded s.log.dev (s.log.start + tail + 1)
      (s.disk s.log.dev (s.log.start + tail + 1)))).bcache.order = s.bcache.order :=
    setBuf_order _ _ _
  have a4 : (s.setBuf (.slot x) (loaded s.log.dev (s.log.start + tail + 1)
      (s.disk s.log.dev (s.log.start + tail + 1)))).bcache.buf x =
      loaded s.log.dev (s.log.start + tail + 1) (s.disk s.log.dev (s.log.start + tail + 1)) := by
    rw [setBuf_slot_buf, if_pos rfl]
  generalize s.setBuf (.slot x) (loaded s.log.dev (s.log.start + tail + 1)
      (s.disk s.log.dev (s.log.start + tail + 1))) = s1 at e1 R1 a1 a2 a3 a4
  obtain ⟨y, hy, hyx, e2, R2⟩ := RInvH_bread s1.log.dev (s1.log.block tail) R1
    (by rw [a3]; simp only [List.length_cons, List.length_nil]; omega)
    (fun i hi => by
      rw [List.mem_singleton.1 hi]
      unfold matches_
      rw [a4, a1]
      simp only [loaded, Bool.and_eq_false_imp, beq_iff_eq, beq_eq_false_iff_ne]
      intro _
      exact fun hc => hne hc.symm)
  have hyx' : y ≠ x := fun hc => hyx (hc ▸ List.mem_singleton_self x)
  have b1 : (s1.setBuf (.slot y) (loaded s1.log.dev (s1.log.block tail)
      (s1.disk s1.log.dev (s1.log.block tail)))).log = s.log := a1
  have b2 : (s1.setBuf (.slot y) (loaded s1.log.dev (s1.log.block tail)
      (s1.disk s1.log.dev (s1.log.block tail)))).disk = s.disk := a2
  have b3 : (s1.setBuf (.slot y) (loaded s1.log.dev (s1.log.block tail)
      (s1.disk s1.log.dev (s1.log.block tail)))).bcache.order = s.bcache.order := by
    rw [setBuf_order, a3]
  have b4 : (s1.setBuf (.slot y) (loaded s1.log.dev (s1.log.block tail)
      (s1.disk s1.log.dev (s1.log.block tail)))).bcache.buf x =
      loaded s.log.dev (s.log.start + tail + 1) (s.disk s.log.dev (s.log.start + tail + 1)) := by
    rw [setBuf_slot_buf, if_neg (Ne.symm hyx'), a4]
  have b5 : (s1.setBuf (.slot y) (loaded s1.log.dev (s1.log.block tail)
      (s1.disk s1.log.dev (s1.log.block tail)))).bcache.buf y =
      loaded s.log.dev (s.log.block tail) (s.disk s.log.dev (s.log.block tail)) := by
    rw [setBuf_slot_buf, if_pos rfl, a1, a2]
  generalize s1.setBuf (.slot y) (loaded s1.log.dev (s1.log.block tail)
      (s1.disk s1.log.dev (s1.log.block tail))) = s2 at e2 R2 b1 b2 b3 b4 b5
  obtain ⟨e3, R3⟩ := RInvH_write (s2.getBuf (.slot x)).data R2 (List.mem_cons_self y [x])
  have c1 : ((s2.setBuf (.slot y) ((s2.bcache.buf y).setData (s2.getBuf (.slot x)).data)).setDisk
      (writeDisk s2.disk (s2.bcache.buf y).dev (s2.bcache.buf y).blockno
        (s2.getBuf (.slot x)).data)).log = s.log := b1
  have c2 : ((s2.setBuf (.slot y) ((s2.bcache.buf y).setData (s2.getBuf (.slot x)).data)).setDisk
      (writeDisk s2.disk (s2.bcache.buf y).dev (s2.bcache.buf y).blockno
        (s2.getBuf (.slot x)).data)).disk = writeDisk s.disk s.log.dev (s.log.block tail)
        (s.disk s.log.dev (s.log.start + tail + 1)) := by
    rw [setDisk_disk, getBuf_slot, b4, b5, b2]
    rfl
  have c3 : ((s2.setBuf (.slot y) ((s2.bcache.buf y).setData (s2.getBuf (.slot x)).data)).setDisk
      (writeDisk s2.disk (s2.bcache.buf y).dev (s2.bcache.buf y).blockno
        (s2.getBuf (.slot x)).data)).bcache.order = s.bcache.order := by
    rw [setDisk_bcache, setBuf_order, b3]
  generalize (s2.setBuf (.slot y) ((s2.bcache.buf y).setData (s2.getBuf (.slot x)).data)).setDisk
      (writeDisk s2.disk (s2.bcache.buf y).dev (s2.bcache.buf y).blockno
        (s2.getBuf (.slot x)).data) = s3 at e3 R3 c1 c2 c3
  obtain ⟨e4, R4⟩ := RInvH_brelse R3 (List.mem_cons_of_mem y (List.mem_singleton_self x))
  have hx3 : x ∈ s3.bcache.order := by rw [c3]; exact hx
  have d3 : ((s3.setBuf (.slot x) ((s3.bcache.buf x).setRefcnt 0)).relink
      (.slot x)).bcache.order.length = s.bcache.order.length := by
    rw [relink_slot_order, setBuf_order, length_relink hx3, c3]
  have d1 : ((s3.setBuf (.slot x) ((s3.bcache.buf x).setRefcnt 0)).relink (.slot x)).log =
      s.log := c1
  have d2 : ((s3.setBuf (.slot x) ((s3.bcache.buf x).setRefcnt 0)).relink (.slot x)).disk =
      writeDisk s.disk s.log.dev (s.log.block tail)
        (s.disk s.log.dev (s.log.start + tail + 1)) := c2
  have hy4 : y ∈ ((s3.setBuf (.slot x) ((s3.bcache.buf x).setRefcnt 0)).relink
      (.slot x)).bcache.order := by
    rw [relink_slot_order, setBuf_order, mem_relink hx3, c3, ← a3]
    exact hy
  have hh : [y, x].erase x = [y] := by
    rw [List.erase_cons, if_neg (by simpa using hyx'), List.erase_cons, if_pos (by simp)]
  rw [hh] at R4
  generalize (s3.setBuf (.slot x) ((s3.bcache.buf x).setRefcnt 0)).relink (.slot x) = s4
    at e4 R4 d1 d2 d3 hy4
  obtain ⟨e5, R5⟩ := RInvH_brelse R4 (List.mem_singleton_self y)
  have hh2 : [y].erase y = [] := by
    rw [List.erase_cons, if_pos (by simp)]
  rw [hh2] at R5
  refine ⟨(s4.setBuf (.slot y) ((s4.bcache.buf y).setRefcnt 0)).relink (.slot y), ?_, R5, ?_,
    d1, d2⟩
  · unfold install_old_step
    rw [e1, bind_ok, e2, bind_ok, e3, e4, e5]
  · rw [relink_slot_order, setBuf_order, length_relink hy4, d3]

/-- The loop of `install_trans_old` under the recovery invariant: it returns, and the disk
is `undo_disk` of the disk it started from. -/
theorem install_trans_old_loop_spec (fuel : Nat) (tail : Nat) (s : State) (hR : RInvH s [])
    (hlen : 2 ≤ s.bcache.order.length)
    (hne : ∀ i, tail ≤ i → i < tail + fuel → s.log.block i ≠ s.log.start + i + 1) :
    ∃ s', install_trans_old_loop fuel tail s = .ok () s' ∧ s'.log = s.log ∧
      s'.disk = undo_disk s.log fuel tail s.disk := by
  induction fuel generalizing tail s with
  | zero => exact ⟨s, rfl, rfl, rfl⟩
  | succ k ih =>
    obtain ⟨s1, e1, R1, hl1, hlog1, hd1⟩ :=
      install_old_step_spec tail hR hlen (hne tail (le_refl _) (by omega))
    obtain ⟨s2, e2, hlog2, hd2⟩ := ih (tail + 1) _ R1 (by rw [hl1]; exact hlen)
      (fun i h1 h2 => by rw [hlog1]; exact hne i (by omega) (by omega))
    refine ⟨s2, ?_, by rw [hlog2, hlog1], ?_⟩
    · unfold install_trans_old_loop
      rw [e1, bind_ok, e2]
    · rw [hd2, hlog1, hd1]
      rfl

theorem writeDisk_other (disk : Disk) (dev blockno : Nat) (d : Data) (d' k : Nat)
    (h : ¬ (d' = dev ∧ k = blockno)) : writeDisk disk dev blockno d d' k = disk d' k := by
  unfold writeDisk
  rw [if_neg h]

/-- What `undo_disk` computes when the home blocks of the entries are pairwise distinct and
none of them is a log data block of an entry: each home block ends up with the initial
content of its log data block, and nothing else changes. -/
theorem undo_disk_spec (lg : Log) (fuel : Nat) (tail : Nat) (disk : Disk)
    (hdist : ∀ i, tail ≤ i → i < tail + fuel → ∀ j, tail ≤ j → j < tail + fuel →
      lg.block i = lg.block j → i = j)
    (hlog : ∀ i, tail ≤ i → i < tail + fuel → ∀ j, tail ≤ j → j < tail + fuel →
      lg.block i ≠ lg.start + j + 1) :
    (∀ i, tail ≤ i → i < tail + fuel →
      undo_disk lg fuel tail disk lg.dev (lg.block i) = disk lg.dev (lg.start + i + 1)) ∧
    (∀ d k, ¬ (d = lg.dev ∧ ∃ i, tail ≤ i ∧ i < tail + fuel ∧ k = lg.block i) →
      undo_disk lg fuel tail disk d k = disk d k) := by
  induction fuel generalizing tail disk with
  | zero =>
    refine ⟨fun i h1 h2 => ?_, fun d k _ => rfl⟩
    omega
  | succ n ih =>
    obtain ⟨ihA, ihB⟩ := ih (tail + 1)
      (writeDisk disk lg.dev (lg.block tail) (disk lg.dev (lg.start + tail + 1)))
      (fun i h1 h2 j h3 h4 => hdist i (by omega) (by omega) j (by omega) (by omega))
      (fun i h1 h2 j h3 h4 => hlog i (by omega) (by omega) j (by omega) (by omega))
    constructor
    · intro i h1 h2
      show undo_disk lg n (tail + 1) _ lg.dev (lg.block i) = _
      by_cases hi : i = tail
      · subst hi
        rw [ihB, writeDisk_same]
        rintro ⟨_, j, hj1, hj2, hj3⟩
        have := hdist i (le_refl _) (by omega) j (by omega) (by omega) hj3
        omega
      · rw [ihA i (by omega) (by omega), writeDisk_other]
        rintro ⟨_, hc⟩
        exact hlog tail (le_refl _) (by omega) i (by omega) (by omega) hc.symm
    · intro d k hk
      show undo_disk lg n (tail + 1) _ d k = _
      rw [ihB, writeDisk_other]
      · rintro ⟨hd, hc⟩
        exact hk ⟨hd, tail, le_refl _, by omega, hc⟩
      · rintro ⟨hd, j, hj1, hj2, hj3⟩
        exact hk ⟨hd, j, by omega, by omega, hj3⟩

theorem read_head_loop_lt (d : Data) (block : Nat → Nat) (n i : Nat) (h : i < n) :
    read_head_loop d block n i = hdr_block d i := by
  induction n with
  | zero => omega
  | succ k ih =>
    unfold read_head_loop
    by_cases hi : i = k
    · rw [if_pos hi, hi]
    · rw [if_neg hi]
      exact ih (by omega)

theorem RInvH_setLog {s : State} {held : List Nat} (lg : Log) (hR : RInvH s held) :
    RInvH (s.setLog lg) held :=
  ⟨hR.nodup, hR.heldnd, hR.heldsub, hR.ref, hR.nodirty, hR.noold, hR.coh, hR.first⟩

theorem binit_order_nodup : (binit zeroBcache).order.Nodup := by decide

theorem binit_order_length : (binit zeroBcache).order.length = NBUF := by decide

theorem RInvH_fresh (lg : Log) (disk : Disk) : RInvH (State.mk (binit zeroBcache) lg disk) [] := by
  constructor
  · exact binit_order_nodup
  · exact List.nodup_nil
  · intro i hi
    exact absurd hi (List.not_mem_nil i)
  · intro i _
    rfl
  · intro i _
    rfl
  · intro i _
    rfl
  · intro i _ hv
    exact Bool.noConfusion hv
  · intro i _ hv
    exact Bool.noConfusion hv

/-- Boot on any disk on which no logged home block is its own log data block: `initlog`
returns, the in-memory header is the on-disk one, and the disk is `undo_disk` of the
initial disk. -/
theorem boot_spec (disk : Disk) (dev : Nat) (sb : Superblock)
    (hne : ∀ i, i < hdr_n (disk dev sb.logstart) →
      hdr_block (disk dev sb.logstart) i ≠ sb.logstart + i + 1) :
    ∃ s, boot disk dev sb = .ok () s ∧ s.log.start = sb.logstart ∧ s.log.dev = dev ∧
      s.log.n = hdr_n (disk dev sb.logstart) ∧
      (∀ i, i < s.log.n → s.log.block i = hdr_block (disk dev sb.logstart) i) ∧
      s.disk = undo_disk s.log s.log.n 0 disk := by
  unfold boot initlog
  rw [if_neg (by decide)]
  unfold recover_from_log read_head
  have R0 : RInvH ((State.mk (binit zeroBcache) zeroLog disk).setLog
      { zeroLog with start := sb.logstart, size := sb.nlog, dev := dev }) [] :=
    RInvH_setLog _ (RInvH_fresh _ _)
  have l0 : ((State.mk (binit zeroBcache) zeroLog disk).setLog
      { zeroLog with start := sb.logstart, size := sb.nlog, dev := dev }).bcache.order.length =
      NBUF := binit_order_length
  have g1 : ((State.mk (binit zeroBcache) zeroLog disk).setLog
      { zeroLog with start := sb.logstart, size := sb.nlog, dev := dev }).log.start =
      sb.logstart := rfl
  have g2 : ((State.mk (binit zeroBcache) zeroLog disk).setLog
      { zeroLog with start := sb.logstart, size := sb.nlog, dev := dev }).log.dev = dev := rfl
  have g3 : ((State.mk (binit zeroBcache) zeroLog disk).setLog
      { zeroLog with start := sb.logstart, size := sb.nlog, dev := dev }).disk = disk := rfl
  generalize (State.mk (binit zeroBcache) zeroLog disk).setLog
      { zeroLog with start := sb.logstart, size := sb.nlog, dev := dev } = s0 at R0 l0 g1 g2 g3
  obtain ⟨x, hx, _, e1, R1⟩ := RInvH_bread s0.log.dev s0.log.start R0
    (by rw [l0]; decide) (fun i hi => absurd hi (List.not_mem_nil i))
  rw [e1, bind_ok, bind_ok]
  have hdata : ((s0.setBuf (.slot x) (loaded s0.log.dev s0.log.start
      (s0.disk s0.log.dev s0.log.start))).getBuf (.slot x)).data = disk dev sb.logstart := by
    rw [getBuf_setBuf_same, g1, g2, g3]
    rfl
  rw [hdata]
  have R1' := RInvH_setLog (s0.log.load (disk dev sb.logstart)) R1
  have a1 : ((s0.setBuf (.slot x) (loaded s0.log.dev s0.log.start
      (s0.disk s0.log.dev s0.log.start))).setLog (s0.log.load (disk dev sb.logstart))).log =
      s0.log.load (disk dev sb.logstart) := rfl
  have a2 : ((s0.setBuf (.slot x) (loaded s0.log.dev s0.log.start
      (s0.disk s0.log.dev s0.log.start))).setLog (s0.log.load (disk dev sb.logstart))).disk =
      disk := g3
  have a3 : ((s0.setBuf (.slot x) (loaded s0.log.dev s0.log.start
      (s0.disk s0.log.dev s0.log.start))).setLog
      (s0.log.load (disk dev sb.logstart))).bcache.order = s0.bcache.order := setBuf_order _ _ _
  have a4 : ((s0.setBuf (.slot x) (loaded s0.log.dev s0.log.start
      (s0.disk s0.log.dev s0.log.start))).log = s0.log) := rfl
  rw [a4]
  generalize (s0.setBuf (.slot x) (loaded s0.log.dev s0.log.start
      (s0.disk s0.log.dev s0.log.start))).setLog (s0.log.load (disk dev sb.logstart)) = s1
    at R1' a1 a2 a3
  obtain ⟨e2, R2⟩ := RInvH_brelse R1' (List.mem_singleton_self x)
  have hh : [x].erase x = [] := by
    rw [List.erase_cons, if_pos (by simp)]
  rw [hh] at R2
  rw [e2]
  have hx1 : x ∈ s1.bcache.order := by rw [a3]; exact hx
  have b1 : ((s1.setBuf (.slot x) ((s1.bcache.buf x).setRefcnt 0)).relink (.slot x)).log =
      s0.log.load (disk dev sb.logstart) := a1
  have b2 : ((s1.setBuf (.slot x) ((s1.bcache.buf x).setRefcnt 0)).relink (.slot x)).disk =
      disk := a2
  have b3 : ((s1.setBuf (.slot x) ((s1.bcache.buf x).setRefcnt 0)).relink
      (.slot x)).bcache.order.length = NBUF := by
    rw [relink_slot_order, setBuf_order, length_relink hx1, a3, l0]
  generalize (s1.setBuf (.slot x) ((s1.bcache.buf x).setRefcnt 0)).relink (.slot x) = s2
    at R2 b1 b2 b3
  have hn2 : s2.log.n = hdr_n (disk dev sb.logstart) := by rw [b1]; rfl
  have hs2 : s2.log.start = sb.logstart := by rw [b1]; exact g1
  have hd2 : s2.log.dev = dev := by rw [b1]; exact g2
  have hb2 : ∀ i, i < s2.log.n → s2.log.block i = hdr_block (disk dev sb.logstart) i := by
    intro i hi
    rw [hn2] at hi
    rw [b1]
    exact read_head_loop_lt _ _ _ _ hi
  obtain ⟨s3, e3, hl3, hd3⟩ := install_trans_old_loop_spec s2.log.n 0 _ R2
    (by rw [b3]; decide)
    (fun i _ hi => by
      rw [Nat.zero_add] at hi
      rw [hb2 i hi, hs2]
      rw [hn2] at hi
      exact hne i hi)
  refine ⟨s3, e3, by rw [hl3, hs2], by rw [hl3, hd2], by rw [hl3, hn2], ?_, ?_⟩
  · rw [hl3]
    exact hb2
  · rw [hd3, hl3, b2]

/-- C4 (amended). Recovery is an undo. For every disk whose header holds `n = k` with
`k <= LOGSIZE` and `k <= size - 1` (so that log data blocks `start+1 .. start+k` lie
inside the log region), with pairwise distinct home blocks `block[0..k)` outside the log
region: `initlog` on a freshly initialised cache returns; for every `i < k` the on-disk
home block `block[i]` equals the on-disk log data block `start+1+i`, which still holds what
it held before recovery; and every block that is not one of the home blocks is unchanged. -/
theorem recovery_is_undo (disk : Disk) (dev : Nat) (sb : Superblock)
    (_hk : hdr_n (disk dev sb.logstart) ≤ LOGSIZE)
    (hsize : hdr_n (disk dev sb.logstart) + 1 ≤ sb.nlog)
    (hdist : ∀ i, i < hdr_n (disk dev sb.logstart) → ∀ j, j < hdr_n (disk dev sb.logstart) →
      hdr_block (disk dev sb.logstart) i = hdr_block (disk dev sb.logstart) j → i = j)
    (hout : ∀ i, i < hdr_n (disk dev sb.logstart) →
      ¬ (sb.logstart ≤ hdr_block (disk dev sb.logstart) i ∧
        hdr_block (disk dev sb.logstart) i < sb.logstart + sb.nlog)) :
    ∃ s', boot disk dev sb = .ok () s' ∧
      (∀ i, i < hdr_n (disk dev sb.logstart) →
        s'.disk dev (hdr_block (disk dev sb.logstart) i) = s'.disk dev (sb.logstart + 1 + i) ∧
        s'.disk dev (sb.logstart + 1 + i) = disk dev (sb.logstart + 1 + i)) ∧
      (∀ d b, ¬ (d = dev ∧ ∃ i, i < hdr_n (disk dev sb.logstart) ∧
          b = hdr_block (disk dev sb.logstart) i) → s'.disk d b = disk d b) := by
  have hnl : ∀ i, i < hdr_n (disk dev sb.logstart) → ∀ j, j < hdr_n (disk dev sb.logstart) →
      hdr_block (disk dev sb.logstart) i ≠ sb.logstart + j + 1 := by
    intro i hi j hj hc
    apply hout i hi
    omega
  obtain ⟨s, e, hs, hd, hn, hb, hdisk⟩ := boot_spec disk dev sb (fun i hi => hnl i hi i hi)
  obtain ⟨hA, hB⟩ := undo_disk_spec s.log s.log.n 0 disk
    (fun i _ hi j _ hj hij => by
      rw [Nat.zero_add] at hi hj
      rw [hb i hi, hb j hj] at hij
      rw [hn] at hi hj
      exact hdist i hi j hj hij)
    (fun i _ hi j _ hj => by
      rw [Nat.zero_add] at hi hj
      rw [hb i hi, hs]
      rw [hn] at hi hj
      exact hnl i hi j hj)
  have hfr : ∀ d b, ¬ (d = dev ∧ ∃ i, i < hdr_n (disk dev sb.logstart) ∧
      b = hdr_block (disk dev sb.logstart) i) → s.disk d b = disk d b := by
    intro d b hdb
    rw [hdisk, hB]
    rintro ⟨h1, i, _, hi, h2⟩
    rw [Nat.zero_add] at hi
    apply hdb
    rw [hd] at h1
    rw [hb i hi] at h2
    rw [hn] at hi
    exact ⟨h1, i, hi, h2⟩
  have hlogsame : ∀ i, i < hdr_n (disk dev sb.logstart) →
      s.disk dev (sb.logstart + 1 + i) = disk dev (sb.logstart + 1 + i) := by
    intro i hi
    apply hfr
    rintro ⟨_, j, hj, hc⟩
    apply hnl j hj i hi
    omega
  refine ⟨s, e, fun i hi => ⟨?_, hlogsame i hi⟩, hfr⟩
  rw [hlogsame i hi]
  have hi' : i < s.log.n := by rw [hn]; exact hi
  have := hA i (Nat.zero_le _) (by rw [Nat.zero_add]; exact hi')
  rw [hb i hi', hd, hs] at this
  rw [hdisk, this, show sb.logstart + i + 1 = sb.logstart + 1 + i by omega]

set_option maxRecDepth 100000 in
/-- C4 at a concrete disk: the header of `exDiskUndo` records the home blocks 5 and 7 and
the log region is `10 .. 49`. -/
theorem recovery_is_undo_witness :
    ∃ s', boot exDiskUndo 1 exSb = .ok () s' ∧
      (∀ i, i < hdr_n (exDiskUndo 1 exSb.logstart) →
        s'.disk 1 (hdr_block (exDiskUndo 1 exSb.logstart) i) =
          s'.disk 1 (exSb.logstart + 1 + i) ∧
        s'.disk 1 (exSb.logstart + 1 + i) = exDiskUndo 1 (exSb.logstart + 1 + i)) ∧
      (∀ d b, ¬ (d = 1 ∧ ∃ i, i < hdr_n (exDiskUndo 1 exSb.logstart) ∧
          b = hdr_block (exDiskUndo 1 exSb.logstart) i) → s'.disk d b = exDiskUndo d b) :=
  recovery_is_undo exDiskUndo 1 exSb (by decide) (by decide) (by decide) (by decide)

/-! ## Round-trip commit: exact effects of one update -/

theorem State.ext_bufs {s1 s2 : State} (hb : ∀ j, s1.bcache.buf j = s2.bcache.buf j)
    (hh : s1.bcache.head = s2.bcache.head) (ho : s1.bcache.order = s2.bcache.order)
    (hl : s1.log = s2.log) (hd : s1.disk = s2.disk) : s1 = s2 := by
  obtain ⟨⟨b1, h1, o1⟩, l1, d1⟩ := s1
  obtain ⟨⟨b2, h2, o2⟩, l2, d2⟩ := s2
  simp only at hb hh ho hl hd
  have : b1 = b2 := funext hb
  subst this hh ho hl hd
  rfl

/-- `bget` when the buffer found by the lookup (if any) is unreferenced with no flag set,
and some buffer is recyclable: the returned slot was recyclable and is now the recycled
buffer for the block. -/
theorem bget_pristine (s : State) (dev blockno : Nat)
    (hhit : ∀ i, s.bcache.order.find? (matches_ s.bcache dev blockno) = some i →
      (s.bcache.buf i).refcnt = 0 ∧ (s.bcache.buf i).valid = false ∧
      (s.bcache.buf i).dirty = false ∧ (s.bcache.buf i).old = false)
    (hfree : ∃ a ∈ s.bcache.order, recyclable s.bcache a = true) :
    ∃ y, y ∈ s.bcache.order ∧ recyclable s.bcache y = true ∧
      bget s dev blockno =
        .ok (.slot y) (s.setBuf (.slot y) (recycle (s.bcache.buf y) dev blockno)) := by
  rcases bget_cases s dev blockno with ⟨i, hf, hi, hm, he⟩ | ⟨hf, i, _, hi, hr, he⟩ | ⟨_, hn, _⟩
  · obtain ⟨h0, hv, hd, ho⟩ := hhit i hf
    obtain ⟨m1, m2⟩ := (matches_iff _ _ _ _).1 hm
    refine ⟨i, hi, (recyclable_iff _ _).2 ⟨h0, hd⟩, ?_⟩
    rw [he]
    congr 2
    cases hb : s.bcache.buf i
    rw [hb] at h0 hv hd ho m1 m2
    simp only at h0 hv hd ho m1 m2
    subst h0 hv hd ho m1 m2
    rfl
  · exact ⟨i, hi, hr, he⟩
  · exfalso
    obtain ⟨a, ha, hr⟩ := hfree
    obtain ⟨i, hi⟩ := recycle_scan_some s.bcache ha hr
    rw [hi] at hn
    exact Option.noConfusion hn

/-- `bget_again` when some buffer is recyclable. -/
theorem bget_again_ok (s : State) (dev blockno : Nat)
    (hfree : ∃ a ∈ s.bcache.order, recyclable s.bcache a = true) :
    ∃ z, z ∈ s.bcache.order ∧ recyclable s.bcache z = true ∧
      bget_again s dev blockno =
        .ok (.slot z) (s.setBuf (.slot z) (recycle (s.bcache.buf z) dev blockno)) := by
  rcases bget_again_cases s dev blockno with ⟨i, _, hi, hr, he⟩ | ⟨hn, _⟩
  · exact ⟨i, hi, hr, he⟩
  · exfalso
    obtain ⟨a, ha, hr⟩ := hfree
    obtain ⟨i, hi⟩ := recycle_scan_some s.bcache ha hr
    rw [hi] at hn
    exact Option.noConfusion hn

theorem iderw_read (s : State) (p : BufPtr) (hd : (s.getBuf p).dirty = false)
    (hv : (s.getBuf p).valid = false) :
    iderw s p = s.modBuf p (fun b => (b.setValid true).setData (s.disk b.dev b.blockno)) := by
  unfold iderw
  rw [if_neg (by rw [hd]; exact Bool.false_ne_true), if_neg (by rw [hv]; exact Bool.false_ne_true)]

theorem recyclable_setBuf_ne (s : State) (x : Nat) (b : Buf) {j : Nat} (h : j ≠ x) :
    recyclable (s.setBuf (.slot x) b).bcache j = recyclable s.bcache j := by
  unfold recyclable
  rw [setBuf_slot_buf, if_neg h]

/-- `bread_wr` when the buffer found by the lookup (if any) is unreferenced with no flag
set and two distinct buffers are recyclable: it returns a slot `y` and fills a second slot
`z`, both recyclable before; `y` is `loaded` with the disk block, `z` likewise and tagged
OLD; nothing else changes. -/
theorem bread_wr_spec (s : State) (dev blockno : Nat)
    (hhit : ∀ i, s.bcache.order.find? (matches_ s.bcache dev blockno) = some i →
      (s.bcache.buf i).refcnt = 0 ∧ (s.bcache.buf i).valid = false ∧
      (s.bcache.buf i).dirty = false ∧ (s.bcache.buf i).old = false)
    (hfree : ∃ a ∈ s.bcache.order, ∃ c ∈ s.bcache.order, a ≠ c ∧
      recyclable s.bcache a = true ∧ recyclable s.bcache c = true) :
    ∃ y z s', bread_wr s dev blockno = .ok (.slot y) s' ∧
      y ∈ s.bcache.order ∧ z ∈ s.bcache.order ∧ y ≠ z ∧
      recyclable s.bcache y = true ∧ recyclable s.bcache z = true ∧
      s'.bcache.order = s.bcache.order ∧ s'.log = s.log ∧ s'.disk = s.disk ∧
      s'.bcache.buf y = loaded dev blockno (s.disk dev blockno) ∧
      s'.bcache.buf z = (loaded dev blockno (s.disk dev blockno)).setOld true ∧
      ∀ j, j ≠ y → j ≠ z → s'.bcache.buf j = s.bcache.buf j := by
  obtain ⟨a, ha, c, hc, hac, hra, hrc⟩ := hfree
  obtain ⟨y, hy, hry, e1⟩ := bget_pristine s dev blockno hhit ⟨a, ha, hra⟩
  have hfree1 : ∃ a' ∈ (s.setBuf (.slot y) (recycle (s.bcache.buf y) dev blockno)).bcache.order,
      recyclable (s.setBuf (.slot y) (recycle (s.bcache.buf y) dev blockno)).bcache a' = true := by
    by_cases hay : a = y
    · refine ⟨c, by rw [setBuf_order]; exact hc, ?_⟩
      rw [recyclable_setBuf_ne _ _ _ (fun h => hac (hay.trans h.symm)), hrc]
    · refine ⟨a, by rw [setBuf_order]; exact ha, ?_⟩
      rw [recyclable_setBuf_ne _ _ _ hay, hra]
  obtain ⟨z, hz, hrz, e2⟩ := bget_again_ok _ dev blockno hfree1
  rw [setBuf_order] at hz
  have hzy : z ≠ y := by
    intro h
    subst h
    rw [recyclable_iff, setBuf_slot_buf, if_pos rfl, recycle_refcnt] at hrz
    exact absurd hrz.1 (by decide)
  rw [recyclable_setBuf_ne _ _ _ hzy] at hrz
  have hney : BufPtr.slot y ≠ BufPtr.slot z := fun h => hzy (BufPtr.slot.inj h).symm
  -- the state after both buffers are obtained
  have b1 : ((s.setBuf (.slot y) (recycle (s.bcache.buf y) dev blockno)).setBuf (.slot z)
      (recycle ((s.setBuf (.slot y) (recycle (s.bcache.buf y) dev blockno)).bcache.buf z)
        dev blockno)).getBuf (.slot y) = recycle (s.bcache.buf y) dev blockno := by
    rw [getBuf_setBuf_ne _ _ hney, getBuf_setBuf_same]
  have b2 : ((s.setBuf (.slot y) (recycle (s.bcache.buf y) dev blockno)).setBuf (.slot z)
      (recycle ((s.setBuf (.slot y) (recycle (s.bcache.buf y) dev blockno)).bcache.buf z)
        dev blockno)).getBuf (.slot z) = recycle (s.bcache.buf z) dev blockno := by
    rw [getBuf_setBuf_same, setBuf_slot_buf, if_neg hzy]
  have b3 : ∀ q, q ≠ BufPtr.slot y → q ≠ BufPtr.slot z →
      ((s.setBuf (.slot y) (recycle (s.bcache.buf y) dev blockno)).setBuf (.slot z)
      (recycle ((s.setBuf (.slot y) (recycle (s.bcache.buf y) dev blockno)).bcache.buf z)
        dev blockno)).getBuf q = s.getBuf q := by
    intro q h1 h2
    rw [getBuf_setBuf_ne _ _ h2, getBuf_setBuf_ne _ _ h1]
  have b4 : ((s.setBuf (.slot y) (recycle (s.bcache.buf y) dev blockno)).setBuf (.slot z)
      (recycle ((s.setBuf (.slot y) (recycle (s.bcache.buf y) dev blockno)).bcache.buf z)
        dev blockno)).bcache.order = s.bcache.order := by
    rw [setBuf_order, setBuf_order]
  have b5 : ((s.setBuf (.slot y) (recycle (s.bcache.buf y) dev blockno)).setBuf (.slot z)
      (recycle ((s.setBuf (.slot y) (recycle (s.bcache.buf y) dev blockno)).bcache.buf z)
        dev blockno)).log = s.log := rfl
  have b6 : ((s.setBuf (.slot y) (recycle (s.bcache.buf y) dev blockno)).setBuf (.slot z)
      (recycle ((s.setBuf (.slot y) (recycle (s.bcache.buf y) dev blockno)).bcache.buf z)
        dev blockno)).disk = s.disk := rfl
  generalize (s.setBuf (.slot y) (recycle (s.bcache.buf y) dev blockno)).setBuf (.slot z)
      (recycle ((s.setBuf (.slot y) (recycle (s.bcache.buf y) dev blockno)).bcache.buf z)
        dev blockno) = s2 at e2 b1 b2 b3 b4 b5 b6
  refine ⟨y, z, bread_wr_fill s2 (.slot y) (.slot z), ?_, hy, hz, Ne.symm hzy, hry, hrz, ?_⟩
  · unfold bread_wr
    rw [e1, bind_ok, e2, bind_ok]
  -- the filling step
  unfold bread_wr_fill
  simp only
  have c1 : (s2.modBuf (.slot z) (fun b => b.setData (s2.getBuf (.slot y)).data)).getBuf
      (.slot y) = recycle (s.bcache.buf y) dev blockno := by
    rw [getBuf_modBuf_ne _ _ hney, b1]
  rw [c1]
  have c2 : ((s2.modBuf (.slot z) (fun b => b.setData (s2.getBuf (.slot y)).data)).modBuf
      (.slot z) (fun b => b.copyFlags (recycle (s.bcache.buf y) dev blockno))).getBuf
      (.slot y) = recycle (s.bcache.buf y) dev blockno := by
    rw [getBuf_modBuf_ne _ _ hney, c1]
  have c3 : ((s2.modBuf (.slot z) (fun b => b.setData (s2.getBuf (.slot y)).data)).modBuf
      (.slot z) (fun b => b.copyFlags (recycle (s.bcache.buf y) dev blockno))).getBuf
      (.slot z) = ((recycle (s.bcache.buf z) dev blockno).setData (s2.getBuf (.slot y)).data).copyFlags
        (recycle (s.bcache.buf y) dev blockno) := by
    rw [getBuf_modBuf_same, getBuf_modBuf_same, b2]
  have c4 : ∀ q, q ≠ BufPtr.slot y → q ≠ BufPtr.slot z →
      ((s2.modBuf (.slot z) (fun b => b.setData (s2.getBuf (.slot y)).data)).modBuf
      (.slot z) (fun b => b.copyFlags (recycle (s.bcache.buf y) dev blockno))).getBuf q =
      s.getBuf q := by
    intro q h1 h2
    rw [getBuf_modBuf_ne _ _ h2, getBuf_modBuf_ne _ _ h2, b3 q h1 h2]
  have c5 : ((s2.modBuf (.slot z) (fun b => b.setData (s2.getBuf (.slot y)).data)).modBuf
      (.slot z) (fun b => b.copyFlags (recycle (s.bcache.buf y) dev blockno))).bcache.order =
      s.bcache.order := by
    rw [modBuf_order, modBuf_order, b4]
  have c6 : ((s2.modBuf (.slot z) (fun b => b.setData (s2.getBuf (.slot y)).data)).modBuf
      (.slot z) (fun b => b.copyFlags (recycle (s.bcache.buf y) dev blockno))).log = s.log := b5
  have c7 : ((s2.modBuf (.slot z) (fun b => b.setData (s2.getBuf (.slot y)).data)).modBuf
      (.slot z) (fun b => b.copyFlags (recycle (s.bcache.buf y) dev blockno))).disk = s.disk := b6
  generalize (s2.modBuf (.slot z) (fun b => b.setData (s2.getBuf (.slot y)).data)).modBuf
      (.slot z) (fun b => b.copyFlags (recycle (s.bcache.buf y) dev blockno)) = s4
    at c2 c3 c4 c5 c6 c7
  rw [c2, recycle_valid, if_neg Bool.false_ne_true]
  rw [iderw_read s4 (.slot y) (by rw [c2]; rfl) (by rw [c2]; rfl)]
  have d2 : (s4.modBuf (.slot y)
      (fun b => (b.setValid true).setData (s4.disk b.dev b.blockno))).getBuf (.slot y) =
      loaded dev blockno (s.disk dev blockno) := by
    rw [getBuf_modBuf_same, c2, c7]
    rfl
  have d3 : (s4.modBuf (.slot y)
      (fun b => (b.setValid true).setData (s4.disk b.dev b.blockno))).getBuf (.slot z) =
      ((recycle (s.bcache.buf z) dev blockno).setData (s2.getBuf (.slot y)).data).copyFlags
        (recycle (s.bcache.buf y) dev blockno) := by
    rw [getBuf_modBuf_ne _ _ (Ne.symm hney), c3]
  have d4 : ∀ q, q ≠ BufPtr.slot y → q ≠ BufPtr.slot z → (s4.modBuf (.slot y)
      (fun b => (b.setValid true).setData (s4.disk b.dev b.blockno))).getBuf q = s.getBuf q := by
    intro q h1 h2
    rw [getBuf_modBuf_ne _ _ h1, c4 q h1 h2]
  have d5 : (s4.modBuf (.slot y)
      (fun b => (b.setValid true).setData (s4.disk b.dev b.blockno))).bcache.order =
      s.bcache.order := by
    rw [modBuf_order, c5]
  have d6 : (s4.modBuf (.slot y)
      (fun b => (b.setValid true).setData (s4.disk b.dev b.blockno))).log = s.log := c6
  have d7 : (s4.modBuf (.slot y)
      (fun b => (b.setValid true).setData (s4.disk b.dev b.blockno))).disk = s.disk := c7
  generalize s4.modBuf (.slot y)
      (fun b => (b.setValid true).setData (s4.disk b.dev b.blockno)) = s5 at d2 d3 d4 d5 d6 d7
  rw [iderw_read s5 (.slot z) (by rw [d3]; rfl) (by rw [d3]; rfl)]
  refine ⟨?_, ?_, ?_, ?_, ?_, ?_⟩
  · rw [modBuf_order, modBuf_order, d5]
  · rw [modBuf_log, modBuf_log, d6]
  · rw [modBuf_disk, modBuf_disk, d7]
  · rw [← getBuf_slot, getBuf_modBuf_ne _ _ hney, getBuf_modBuf_ne _ _ hney, d2]
  · rw [← getBuf_slot, getBuf_modBuf_same, getBuf_modBuf_same, d3, d7]
    rfl
  · intro j h1 h2
    have h1' : BufPtr.slot j ≠ BufPtr.slot y := fun h => h1 (BufPtr.slot.inj h)
    have h2' : BufPtr.slot j ≠ BufPtr.slot z := fun h => h2 (BufPtr.slot.inj h)
    rw [← getBuf_slot, getBuf_modBuf_ne _ _ h2', getBuf_modBuf_ne _ _ h2', d4 _ h1' h2']
    rfl

theorem matchesOld_iff (c : Bcache) (d k j : Nat) :
    matchesOld c d k j = true ↔
      (c.buf j).dev = d ∧ (c.buf j).blockno = k ∧ (c.buf j).old = true := by
  simp [matchesOld, matches_, and_assoc]

theorem matchesNew_iff (c : Bcache) (d k j : Nat) :
    matchesNew c d k j = true ↔
      (c.buf j).dev = d ∧ (c.buf j).blockno = k ∧ (c.buf j).old = false := by
  simp [matchesNew, matches_, and_assoc]

/-- The second half of `log_write` for entry `i`, called with the held buffer `y`, when
slot `z` is the only OLD-tagged buffer of the logged block and is held once, and the
buffer found for the log data block (if any) is clean: a slot `w`, recyclable before, ends
up holding the log data block, which is written with the payload of `z`; `z` and `w` are
released to the front of the list and `y` gets DIRTY. -/
theorem log_write_copy_spec (s : State) (i y z : Nat)
    (hy : (s.bcache.buf y).refcnt = 1) (hyz : y ≠ z) (hz : z ∈ s.bcache.order)
    (hzid : (s.bcache.buf z).dev = s.log.dev ∧ (s.bcache.buf z).blockno = s.log.block i ∧
      (s.bcache.buf z).old = true)
    (hzr : (s.bcache.buf z).refcnt = 1)
    (hzu : ∀ j ∈ s.bcache.order, matchesOld s.bcache s.log.dev (s.log.block i) j = true → j = z)
    (hhit : ∀ j, s.bcache.order.find? (matches_ s.bcache s.log.dev (s.log.start + i + 1)) =
        some j →
      (s.bcache.buf j).refcnt = 0 ∧ (s.bcache.buf j).dirty = false ∧
      (s.bcache.buf j).old = false ∧
      ((s.bcache.buf j).valid = true →
        (s.bcache.buf j).data = s.disk s.log.dev (s.log.start + i + 1)))
    (hfree : ∃ a ∈ s.bcache.order, recyclable s.bcache a = true) :
    ∃ w s', log_write_copy s i (.slot y) = .ok () s' ∧
      w ∈ s.bcache.order ∧ recyclable s.bcache w = true ∧ w ≠ y ∧ w ≠ z ∧
      s'.bcache.order = w :: (z :: s.bcache.order.erase z).erase w ∧ s'.log = s.log ∧
      s'.disk = writeDisk s.disk s.log.dev (s.log.start + i + 1) (s.bcache.buf z).data ∧
      s'.bcache.buf y = (s.bcache.buf y).setDirty true ∧
      s'.bcache.buf z = ((s.bcache.buf z).setDirty false).setRefcnt 0 ∧
      s'.bcache.buf w =
        (loaded s.log.dev (s.log.start + i + 1) (s.bcache.buf z).data).setRefcnt 0 ∧
      ∀ j, j ≠ y → j ≠ z → j ≠ w → s'.bcache.buf j = s.bcache.buf j := by
  obtain ⟨w, hw, hrw, _, e1⟩ := bread_clean s s.log.dev (s.log.start + i + 1) hhit hfree
  have hw0 := ((recyclable_iff _ _).1 hrw).1
  have hwy : w ≠ y := fun h => by
    rw [h, hy] at hw0
    exact absurd hw0 (by decide)
  have hwz : w ≠ z := fun h => by
    rw [h, hzr] at hw0
    exact absurd hw0 (by decide)
  have hzw : z ≠ w := Ne.symm hwz
  have hyw : y ≠ w := Ne.symm hwy
  -- after `bread` of the log data block
  have a1 : (s.setBuf (.slot w) (loaded s.log.dev (s.log.start + i + 1)
      (s.disk s.log.dev (s.log.start + i + 1)))).bcache.buf w =
      loaded s.log.dev (s.log.start + i + 1) (s.disk s.log.dev (s.log.start + i + 1)) := by
    rw [setBuf_slot_buf, if_pos rfl]
  have a2 : ∀ j, j ≠ w → (s.setBuf (.slot w) (loaded s.log.dev (s.log.start + i + 1)
      (s.disk s.log.dev (s.log.start + i + 1)))).bcache.buf j = s.bcache.buf j := by
    intro j hj
    rw [setBuf_slot_buf, if_neg hj]
  have a3 : (s.setBuf (.slot w) (loaded s.log.dev (s.log.start + i + 1)
      (s.disk s.log.dev (s.log.start + i + 1)))).bcache.order = s.bcache.order :=
    setBuf_order _ _ _
  have a4 : (s.setBuf (.slot w) (loaded s.log.dev (s.log.start + i + 1)
      (s.disk s.log.dev (s.log.start + i + 1)))).log = s.log := rfl
  have a5 : (s.setBuf (.slot w) (loaded s.log.dev (s.log.start + i + 1)
      (s.disk s.log.dev (s.log.start + i + 1)))).disk = s.disk := rfl
  generalize s.setBuf (.slot w) (loaded s.log.dev (s.log.start + i + 1)
      (s.disk s.log.dev (s.log.start + i + 1))) = s1 at e1 a1 a2 a3 a4 a5
  have hfrm : bread_wr_old s1 s1.log.dev (s1.log.block i) = .slot z := by
    unfold bread_wr_old bget_old
    have : s1.bcache.order.find? (matchesOld s1.bcache s1.log.dev (s1.log.block i)) =
        some z := by
      apply find?_unique
      · rw [a3]
        exact hz
      · rw [matchesOld_iff, a2 z hzw, a4]
        exact hzid
      · intro j hj hm
        rw [a3] at hj
        by_cases hjw : j = w
        · subst hjw
          rw [matchesOld_iff, a1] at hm
          exact absurd hm.2.2 (by simp [loaded])
        · apply hzu j hj
          rw [matchesOld_iff] at hm ⊢
          rw [a2 j hjw, a4] at hm
          exact hm
    rw [this]
  have hD : (s1.getBuf (.slot z)).data = (s.bcache.buf z).data := by
    rw [getBuf_slot, a2 z hzw]
  obtain e2 := bwrite_setData s1 (.slot w) (s.bcache.buf z).data
    (by rw [getBuf_slot, a1]; rfl) (by rw [getBuf_slot, a1]; rfl)
  rw [getBuf_slot, a1] at e2
  have e4 : (bwrite (setData s1 (.slot w) (s.bcache.buf z).data) (.slot w)).modBuf (.slot z)
      (fun x => x.setDirty false) =
      ((s1.setBuf (.slot w) ((loaded s.log.dev (s.log.start + i + 1)
      (s.disk s.log.dev (s.log.start + i + 1))).setData (s.bcache.buf z).data)).setDisk
      (writeDisk s1.disk s.log.dev (s.log.start + i + 1) (s.bcache.buf z).data)).modBuf (.slot z)
      (fun x => x.setDirty false) := by
    rw [e2]
    rfl
  -- after the write of the log data block and the clearing of DIRTY on `z`
  have b1 : (((s1.setBuf (.slot w) ((loaded s.log.dev (s.log.start + i + 1)
      (s.disk s.log.dev (s.log.start + i + 1))).setData (s.bcache.buf z).data)).setDisk
      (writeDisk s1.disk s.log.dev (s.log.start + i + 1) (s.bcache.buf z).data)).modBuf (.slot z)
      (fun x => x.setDirty false)).bcache.buf w =
      loaded s.log.dev (s.log.start + i + 1) (s.bcache.buf z).data := by
    rw [← getBuf_slot, getBuf_modBuf_ne _ _ (fun h => hwz (BufPtr.slot.inj h)), setDisk_getBuf,
      getBuf_setBuf_same]
    rfl
  have b2 : (((s1.setBuf (.slot w) ((loaded s.log.dev (s.log.start + i + 1)
      (s.disk s.log.dev (s.log.start + i + 1))).setData (s.bcache.buf z).data)).setDisk
      (writeDisk s1.disk s.log.dev (s.log.start + i + 1) (s.bcache.buf z).data)).modBuf (.slot z)
      (fun x => x.setDirty false)).bcache.buf z = (s.bcache.buf z).setDirty false := by
    rw [← getBuf_slot, getBuf_modBuf_same, setDisk_getBuf,
      getBuf_setBuf_ne _ _ (fun h => hzw (BufPtr.slot.inj h)), getBuf_slot, a2 z hzw]
  have b3 : ∀ j, j ≠ z → j ≠ w → (((s1.setBuf (.slot w) ((loaded s.log.dev (s.log.start + i + 1)
      (s.disk s.log.dev (s.log.start + i + 1))).setData (s.bcache.buf z).data)).setDisk
      (writeDisk s1.disk s.log.dev (s.log.start + i + 1) (s.bcache.buf z).data)).modBuf (.slot z)
      (fun x => x.setDirty false)).bcache.buf j = s.bcache.buf j := by
    intro j h1 h2
    rw [← getBuf_slot, getBuf_modBuf_ne _ _ (fun h => h1 (BufPtr.slot.inj h)), setDisk_getBuf,
      getBuf_setBuf_ne _ _ (fun h => h2 (BufPtr.slot.inj h)), getBuf_slot, a2 j h2]
  have b4 : (((s1.setBuf (.slot w) ((loaded s.log.dev (s.log.start + i + 1)
      (s.disk s.log.dev (s.log.start + i + 1))).setData (s.bcache.buf z).data)).setDisk
      (writeDisk s1.disk s.log.dev (s.log.start + i + 1) (s.bcache.buf z).data)).modBuf (.slot z)
      (fun x => x.setDirty false)).bcache.order = s.bcache.order := by
    rw [modBuf_order, setDisk_bcache, setBuf_order, a3]
  have b5 : (((s1.setBuf (.slot w) ((loaded s.log.dev (s.log.start + i + 1)
      (s.disk s.log.dev (s.log.start + i + 1))).setData (s.bcache.buf z).data)).setDisk
      (writeDisk s1.disk s.log.dev (s.log.start + i + 1) (s.bcache.buf z).data)).modBuf (.slot z)
      (fun x => x.setDirty false)).log = s.log := a4
  have b6 : (((s1.setBuf (.slot w) ((loaded s.log.dev (s.log.start + i + 1)
      (s.disk s.log.dev (s.log.start + i + 1))).setData (s.bcache.buf z).data)).setDisk
      (writeDisk s1.disk s.log.dev (s.log.start + i + 1) (s.bcache.buf z).data)).modBuf (.slot z)
      (fun x => x.setDirty false)).disk =
      writeDisk s.disk s.log.dev (s.log.start + i + 1) (s.bcache.buf z).data := by
    rw [modBuf_disk, setDisk_disk, a5]
  generalize ((s1.setBuf (.slot w) ((loaded s.log.dev (s.log.start + i + 1)
      (s.disk s.log.dev (s.log.start + i + 1))).setData (s.bcache.buf z).data)).setDisk
      (writeDisk s1.disk s.log.dev (s.log.start + i + 1) (s.bcache.buf z).data)).modBuf (.slot z)
      (fun x => x.setDirty false) = s4 at e4 b1 b2 b3 b4 b5 b6
  -- release of `z`
  have e5 := brelse_one s4 z (by rw [b2, setDirty_refcnt, hzr])
  have c1 : ((s4.setBuf (.slot z) ((s4.bcache.buf z).setRefcnt 0)).relink (.slot z)).bcache.buf w =
      loaded s.log.dev (s.log.start + i + 1) (s.bcache.buf z).data := by
    rw [relink_buf, setBuf_slot_buf, if_neg hwz, b1]
  have c2 : ((s4.setBuf (.slot z) ((s4.bcache.buf z).setRefcnt 0)).relink (.slot z)).bcache.buf z =
      ((s.bcache.buf z).setDirty false).setRefcnt 0 := by
    rw [relink_buf, setBuf_slot_buf, if_pos rfl, b2]
  have c3 : ∀ j, j ≠ z → j ≠ w →
      ((s4.setBuf (.slot z) ((s4.bcache.buf z).setRefcnt 0)).relink (.slot z)).bcache.buf j =
      s.bcache.buf j := by
    intro j h1 h2
    rw [relink_buf, setBuf_slot_buf, if_neg h1, b3 j h1 h2]
  have c4 : ((s4.setBuf (.slot z) ((s4.bcache.buf z).setRefcnt 0)).relink (.slot z)).bcache.order =
      z :: s.bcache.order.erase z := by
    rw [relink_slot_order, setBuf_order, b4]
  have c5 : ((s4.setBuf (.slot z) ((s4.bcache.buf z).setRefcnt 0)).relink (.slot z)).log =
      s.log := b5
  have c6 : ((s4.setBuf (.slot z) ((s4.bcache.buf z).setRefcnt 0)).relink (.slot z)).disk =
      writeDisk s.disk s.log.dev (s.log.start + i + 1) (s.bcache.buf z).data := b6
  generalize (s4.setBuf (.slot z) ((s4.bcache.buf z).setRefcnt 0)).relink (.slot z) = s5
    at e5 c1 c2 c3 c4 c5 c6
  -- release of `w`
  have e6 := brelse_one s5 w (by rw [c1]; rfl)
  refine ⟨w, ((s5.setBuf (.slot w) ((s5.bcache.buf w).setRefcnt 0)).relink (.slot w)).modBuf
    (.slot y) (fun x => x.setDirty true), ?_, hw, hrw, hwy, hwz, ?_, c5, c6, ?_, ?_, ?_, ?_⟩
  · unfold log_write_copy
    rw [e1, bind_ok]
    simp only
    rw [hfrm, hD, e4, e5, e6]
  · rw [modBuf_order, relink_slot_order, setBuf_order, c4]
  · rw [← getBuf_slot, getBuf_modBuf_same, relink_getBuf,
      getBuf_setBuf_ne _ _ (fun h => hyw (BufPtr.slot.inj h)), getBuf_slot, c3 y hyz hyw]
  · rw [← getBuf_slot, getBuf_modBuf_ne _ _ (fun h => hyz (BufPtr.slot.inj h).symm),
      relink_getBuf, getBuf_setBuf_ne _ _ (fun h => hzw (BufPtr.slot.inj h)), getBuf_slot, c2]
  · rw [← getBuf_slot, getBuf_modBuf_ne _ _ (fun h => hwy (BufPtr.slot.inj h)),
      relink_getBuf, getBuf_setBuf_same, c1]
  · intro j h1 h2 h3
    rw [← getBuf_slot, getBuf_modBuf_ne _ _ (fun h => h1 (BufPtr.slot.inj h)),
      relink_getBuf, getBuf_setBuf_ne _ _ (fun h => h3 (BufPtr.slot.inj h)), getBuf_slot,
      c3 j h2 h3]

/-! ## Round-trip commit: the invariant between updates -/

theorem BlocksFrom_append (block : Nat → Nat) (k : Nat) (bs : List Nat) (b : Nat) :
    BlocksFrom block k (bs ++ [b]) ↔ BlocksFrom block k bs ∧ block (k + bs.length) = b := by
  induction bs generalizing k with
  | nil => simp [BlocksFrom]
  | cons x xs ih =>
    show block k = x ∧ BlocksFrom block (k + 1) (xs ++ [b]) ↔
      (block k = x ∧ BlocksFrom block (k + 1) xs) ∧ block (k + (xs.length + 1)) = b
    rw [ih (k + 1), show k + 1 + xs.length = k + (xs.length + 1) by omega, and_assoc]

theorem BlocksFrom_congr {block block' : Nat → Nat} (k : Nat) (bs : List Nat)
    (h : ∀ i, k ≤ i → i < k + bs.length → block' i = block i)
    (hb : BlocksFrom block k bs) : BlocksFrom block' k bs := by
  induction bs generalizing k with
  | nil => trivial
  | cons x xs ih =>
    obtain ⟨h1, h2⟩ := hb
    refine ⟨?_, ih (k + 1) (fun i hi1 hi2 => h i (by omega) ?_) h2⟩
    · rw [h k (le_refl _) (by simp only [List.length_cons]; omega), h1]
    · simp only [List.length_cons]
      omega

theorem absorb_index_not_found (block : Nat → Nat) (blockno : Nat) (bs : List Nat) (k : Nat)
    (hb : BlocksFrom block k bs) (hn : blockno ∉ bs) :
    absorb_index block blockno bs.length k = k + bs.length := by
  induction bs generalizing k with
  | nil => rfl
  | cons x xs ih =>
    obtain ⟨h1, h2⟩ := hb
    simp only [List.length_cons]
    unfold absorb_index
    rw [if_neg]
    · rw [ih (k + 1) h2 (fun h => hn (List.mem_cons_of_mem _ h))]
      omega
    · rw [h1]
      exact fun h => hn (h ▸ List.mem_cons_self _ _)

theorem matchesNew_false_of_blockno {c : Bcache} {d k j : Nat} (h : (c.buf j).blockno ≠ k) :
    matchesNew c d k j = false := by
  by_contra hc
  exact h ((matchesNew_iff c d k j).1 (by simpa using hc)).2.1

theorem pinnedBuf_recyclable {c : Bcache} {i d k : Nat} {p : Data}
    (h : c.buf i = pinnedBuf d k p) : recyclable c i = false := by
  unfold recyclable
  rw [h]
  rfl

/-- The invariant after one more update, from a description of the state it leaves. -/
theorem TInv_step {s s' : State} {pins : List (Nat × Nat × Data)} {y z w B : Nat} {P : Data}
    (hT : TInv s pins) (hy : y ∈ s.bcache.order) (hz : z ∈ s.bcache.order)
    (hw : w ∈ s.bcache.order) (ry : recyclable s.bcache y = true)
    (rz : recyclable s.bcache z = true) (rw_ : recyclable s.bcache w = true)
    (ho : s'.bcache.order = y :: (w :: (z :: s.bcache.order.erase z).erase w).erase y)
    (hby : s'.bcache.buf y = pinnedBuf s.log.dev B P)
    (hbz : (s'.bcache.buf z).blockno = B ∧ (s'.bcache.buf z).refcnt = 0 ∧
      (s'.bcache.buf z).dirty = false)
    (hbw : (s'.bcache.buf w).blockno = s.log.start + pins.length + 1 ∧
      (s'.bcache.buf w).refcnt = 0 ∧ (s'.bcache.buf w).dirty = false)
    (hot : ∀ i, i ≠ y → i ≠ z → i ≠ w → s'.bcache.buf i = s.bcache.buf i)
    (hlog : s'.log = s.log.record pins.length B)
    (hB : ∀ t ∈ pins, t.2.1 ≠ B)
    (hBout : ¬ (s.log.start ≤ B ∧ B < s.log.start + s.log.size))
    (hroom : pins.length + 2 ≤ s.log.size) :
    TInv s' (pins ++ [(y, B, P)]) := by
  have hdev : s'.log.dev = s.log.dev := by rw [hlog]; rfl
  have hstart : s'.log.start = s.log.start := by rw [hlog]; rfl
  have hsize : s'.log.size = s.log.size := by rw [hlog]; rfl
  have hmem : ∀ i, i ∈ s'.bcache.order ↔ i ∈ s.bcache.order := by
    intro i
    have h1 : w ∈ z :: s.bcache.order.erase z := (mem_relink hz).2 hw
    have h2 : y ∈ w :: (z :: s.bcache.order.erase z).erase w :=
      (mem_relink h1).2 ((mem_relink hz).2 hy)
    rw [ho, mem_relink h2, mem_relink h1, mem_relink hz]
  have hpin_ne : ∀ t ∈ pins, t.1 ≠ y ∧ t.1 ≠ z ∧ t.1 ≠ w := by
    intro t ht
    have hr := pinnedBuf_recyclable (hT.pinned t ht).2.1
    refine ⟨fun h => ?_, fun h => ?_, fun h => ?_⟩
    · rw [h, ry] at hr
      exact Bool.noConfusion hr
    · rw [h, rz] at hr
      exact Bool.noConfusion hr
    · rw [h, rw_] at hr
      exact Bool.noConfusion hr
  constructor
  · rw [ho]
    exact nodup_relink (nodup_relink (nodup_relink hT.nodup))
  · intro t ht
    rcases List.mem_append.1 ht with ht | ht
    · obtain ⟨n1, n2, n3⟩ := hpin_ne t ht
      obtain ⟨p1, p2, p3⟩ := hT.pinned t ht
      refine ⟨(hmem _).2 p1, by rw [hot _ n1 n2 n3, hdev, p2], ?_⟩
      have hBx : t.2.1 ≠ B := hB t ht
      have hlx : t.2.1 ≠ s.log.start + pins.length + 1 := by
        intro h
        apply hT.outside t ht
        omega
      have fy : matchesNew s'.bcache s'.log.dev t.2.1 y = false :=
        matchesNew_false_of_blockno (by rw [hby]; exact Ne.symm hBx)
      have fz : matchesNew s'.bcache s'.log.dev t.2.1 z = false :=
        matchesNew_false_of_blockno (by rw [hbz.1]; exact Ne.symm hBx)
      have fw : matchesNew s'.bcache s'.log.dev t.2.1 w = false :=
        matchesNew_false_of_blockno (by rw [hbw.1]; exact Ne.symm hlx)
      have h0 : s.bcache.order.find? (matchesNew s'.bcache s'.log.dev t.2.1) = some t.1 := by
        apply find?_mono p3
        · rw [matchesNew_iff, hot _ n1 n2 n3, p2, hdev]
          exact ⟨rfl, rfl, rfl⟩
        · intro i _ hi
          by_cases h1 : i = y
          · rw [h1, fy] at hi
            exact Bool.noConfusion hi
          by_cases h2 : i = z
          · rw [h2, fz] at hi
            exact Bool.noConfusion hi
          by_cases h3 : i = w
          · rw [h3, fw] at hi
            exact Bool.noConfusion hi
          rw [matchesNew_iff, hot i h1 h2 h3, hdev] at hi
          exact (matchesNew_iff _ _ _ _).2 hi
      rw [ho]
      exact find?_relink_ne (find?_relink_ne (find?_relink_ne h0 n2 fz) n3 fw) n1 fy
    · rw [List.mem_singleton.1 ht]
      refine ⟨(hmem _).2 hy, by rw [hby, hdev], ?_⟩
      rw [ho]
      apply find?_relink_self
      rw [matchesNew_iff, hby, hdev]
      exact ⟨rfl, rfl, rfl⟩
  · intro i hi hni
    rw [hmem] at hi
    have hiy : i ≠ y := fun h => hni (y, B, P) (List.mem_append_right _ (List.mem_singleton_self _))
      h.symm
    by_cases h2 : i = z
    · rw [h2]
      exact hbz.2
    by_cases h3 : i = w
    · rw [h3]
      exact hbw.2
    rw [hot i hiy h2 h3]
    exact hT.free i hi (fun t ht => hni t (List.mem_append_left _ ht))
  · intro i hi hd hnb hnl
    rw [hmem] at hi
    rw [hstart, List.length_append, List.length_singleton] at hnl
    by_cases h1 : i = y
    · exfalso
      apply hnb (y, B, P) (List.mem_append_right _ (List.mem_singleton_self _))
      rw [h1, hby]
      rfl
    by_cases h2 : i = z
    · exfalso
      apply hnb (y, B, P) (List.mem_append_right _ (List.mem_singleton_self _))
      rw [h2, hbz.1]
    by_cases h3 : i = w
    · exfalso
      apply hnl
      rw [h3, hbw.1]
      omega
    rw [hot i h1 h2 h3] at hd hnb hnl ⊢
    rw [hdev] at hd
    exact hT.fresh i hi hd (fun t ht => hnb t (List.mem_append_left _ ht))
      (fun hc => hnl ⟨hc.1, by omega⟩)
  · rw [hlog, List.length_append, List.length_singleton]
    show (if pins.length = s.log.n then s.log.n + 1 else s.log.n) = _
    rw [if_pos hT.logn.symm, hT.logn]
  · rw [List.map_append, List.map_singleton, BlocksFrom_append, hlog]
    constructor
    · apply BlocksFrom_congr 0 _ _ hT.logblock
      intro i _ hi
      rw [List.length_map] at hi
      show (if i = pins.length then B else s.log.block i) = _
      rw [if_neg (by omega)]
    · rw [List.length_map, Nat.zero_add]
      show (if pins.length = pins.length then B else _) = B
      rw [if_pos rfl]
  · intro t ht
    rw [hstart, hsize]
    rcases List.mem_append.1 ht with ht | ht
    · exact hT.outside t ht
    · rw [List.mem_singleton.1 ht]
      exact hBout
  · rw [List.map_append, List.map_singleton]
    apply List.Nodup.append hT.distinct (List.nodup_singleton _)
    intro b hb1 hb2
    rw [List.mem_singleton] at hb2
    obtain ⟨t, ht, htb⟩ := List.mem_map.1 hb1
    exact hB t ht (htb.trans hb2)

theorem log_write_eq (s : State) (b : BufPtr) (j : Nat)
    (hg : ¬ (s.log.n ≥ LOGSIZE ∨ (s.log.n : Int) ≥ (s.log.size : Int) - 1))
    (hj : absorb_index s.log.block (s.getBuf b).blockno s.log.n 0 = j) :
    log_write s b = log_write_copy (s.setLog (s.log.record j (s.getBuf b).blockno)) j b := by
  unfold log_write
  rw [if_neg hg]
  simp only
  rw [hj]

/-- Three distinct recyclable buffers exist while at most `NBUF - 3` are pinned. -/
theorem TInv_three_free {s : State} {pins : List (Nat × Nat × Data)} (hT : TInv s pins)
    (hcache : pins.length + 3 ≤ s.bcache.order.length) :
    ∃ a ∈ s.bcache.order, ∃ c ∈ s.bcache.order, ∃ e ∈ s.bcache.order,
      a ≠ c ∧ a ≠ e ∧ c ≠ e ∧ recyclable s.bcache a = true ∧ recyclable s.bcache c = true ∧
      recyclable s.bcache e = true := by
  have hfree : ∀ i ∈ s.bcache.order, i ∉ pins.map (fun t => t.1) →
      recyclable s.bcache i = true := by
    intro i hi hn
    apply (recyclable_iff _ _).2
    apply hT.free i hi
    intro t ht h
    exact hn (List.mem_map.2 ⟨t, ht, h⟩)
  obtain ⟨a, ha, hna⟩ := exists_not_mem_of_length_lt _ (pins.map (fun t => t.1)) hT.nodup
    (by rw [List.length_map]; omega)
  obtain ⟨c, hc, hnc⟩ := exists_not_mem_of_length_lt _ (a :: pins.map (fun t => t.1))
    hT.nodup (by rw [List.length_cons, List.length_map]; omega)
  obtain ⟨e, he, hne⟩ := exists_not_mem_of_length_lt _
    (c :: a :: pins.map (fun t => t.1)) hT.nodup
    (by rw [List.length_cons, List.length_cons, List.length_map]; omega)
  rw [List.mem_cons, not_or] at hnc
  rw [List.mem_cons, List.mem_cons, not_or, not_or] at hne
  exact ⟨a, ha, c, hc, e, he, Ne.symm hnc.1, Ne.symm hne.2.1, Ne.symm hne.1, hfree a ha hna,
    hfree c hc hnc.2, hfree e he hne.2.2⟩

/-- Under the invariant, a buffer of the log device for a block that is neither a logged
home block nor a log data block in use is unreferenced and has no flag set. -/
theorem TInv_unused {s : State} {pins : List (Nat × Nat × Data)} (hT : TInv s pins) {i k : Nat}
    (hi : i ∈ s.bcache.order) (hm : matches_ s.bcache s.log.dev k i = true)
    (hk : ∀ t ∈ pins, t.2.1 ≠ k)
    (hl : ¬ (s.log.start + 1 ≤ k ∧ k ≤ s.log.start + pins.length)) :
    (s.bcache.buf i).refcnt = 0 ∧ (s.bcache.buf i).valid = false ∧
    (s.bcache.buf i).dirty = false ∧ (s.bcache.buf i).old = false := by
  obtain ⟨m1, m2⟩ := (matches_iff _ _ _ _).1 hm
  have h1 := hT.fresh i hi m1 (by rw [m2]; exact hk) (by rw [m2]; exact hl)
  have h2 := hT.free i hi (fun t ht h => by
    have := (hT.pinned t ht).2.1
    rw [h] at this
    rw [this] at m2
    exact hk t ht m2)
  exact ⟨h2.1, h1.1, h2.2, h1.2⟩

/-- One update of a transaction under the invariant, for a new home block outside the log
region, with room in the log and three unpinned buffers: it returns and the invariant
holds with the update added. -/
theorem txn_write_spec {s : State} {pins : List (Nat × Nat × Data)} (B : Nat) (P : Data)
    (hT : TInv s pins) (hB : ∀ t ∈ pins, t.2.1 ≠ B)
    (hBout : ¬ (s.log.start ≤ B ∧ B < s.log.start + s.log.size))
    (hroom : pins.length + 2 ≤ s.log.size) (hls : pins.length < LOGSIZE)
    (hcache : pins.length + 3 ≤ s.bcache.order.length) :
    ∃ y s', txn_write s B P = .ok () s' ∧ TInv s' (pins ++ [(y, B, P)]) ∧
      s'.bcache.order.length = s.bcache.order.length ∧ LogConst s s' := by
  obtain ⟨a, ha, c, hc, e, he, hac, hae, hce, ra, rc, re⟩ := TInv_three_free hT hcache
  have hBl : ¬ (s.log.start + 1 ≤ B ∧ B ≤ s.log.start + pins.length) := fun h =>
    hBout ⟨by omega, by omega⟩
  obtain ⟨y, z, s1, e1, hy, hz, hyz, ry, rz, o1, l1, d1, by1, bz1, ot1⟩ :=
    bread_wr_spec s s.log.dev B
      (fun i hf => TInv_unused hT (List.mem_of_find?_eq_some hf) (List.find?_some hf) hB hBl)
      ⟨a, ha, c, hc, hac, ra, rc⟩
  have hney : BufPtr.slot z ≠ BufPtr.slot y := fun h => hyz (BufPtr.slot.inj h).symm
  -- a recyclable buffer other than `y` and `z`
  obtain ⟨f, hf, rf, hfy, hfz⟩ : ∃ f ∈ s.bcache.order, recyclable s.bcache f = true ∧
      f ≠ y ∧ f ≠ z := by
    by_cases h1 : a ≠ y ∧ a ≠ z
    · exact ⟨a, ha, ra, h1.1, h1.2⟩
    by_cases h2 : c ≠ y ∧ c ≠ z
    · exact ⟨c, hc, rc, h2.1, h2.2⟩
    refine ⟨e, he, re, ?_, ?_⟩ <;> intro h3 <;> subst h3 <;> simp only [not_and_or, not_not] at h1 h2
    · rcases h1 with h1 | h1 <;> rcases h2 with h2 | h2 <;> first
        | exact hae h1 | exact hce h2 | exact hac (h1.trans h2.symm)
    · rcases h1 with h1 | h1 <;> rcases h2 with h2 | h2 <;> first
        | exact hae h1 | exact hce h2 | exact hac (h1.trans h2.symm)
  -- the state handed to the second half of `log_write`
  have hblk : ((setData s1 (.slot y) P).getBuf (.slot y)).blockno = B := by
    unfold setData
    rw [getBuf_modBuf_same, getBuf_slot, by1]
    rfl
  have hn1 : (setData s1 (.slot y) P).log.n = pins.length := by
    show s1.log.n = _
    rw [l1, hT.logn]
  have hg : ¬ ((setData s1 (.slot y) P).log.n ≥ LOGSIZE ∨
      ((setData s1 (.slot y) P).log.n : Int) ≥ ((setData s1 (.slot y) P).log.size : Int) - 1) := by
    rw [hn1]
    show ¬ (pins.length ≥ LOGSIZE ∨ (pins.length : Int) ≥ (s1.log.size : Int) - 1)
    rw [l1]
    omega
  have hidx : absorb_index (setData s1 (.slot y) P).log.block
      ((setData s1 (.slot y) P).getBuf (.slot y)).blockno (setData s1 (.slot y) P).log.n 0 =
      pins.length := by
    rw [hblk, hn1]
    show absorb_index s1.log.block B pins.length 0 = _
    rw [l1]
    have := absorb_index_not_found s.log.block B (pins.map fun t => t.2.1) 0 hT.logblock
      (fun h => by
        obtain ⟨t, ht, htb⟩ := List.mem_map.1 h
        exact hB t ht htb)
    rw [List.length_map, Nat.zero_add] at this
    exact this
  have e2 := log_write_eq (setData s1 (.slot y) P) (.slot y) pins.length hg hidx
  rw [hblk] at e2
  have a1 : ((setData s1 (.slot y) P).setLog ((setData s1 (.slot y) P).log.record pins.length
      B)).bcache.buf y = (loaded s.log.dev B (s.disk s.log.dev B)).setData P := by
    unfold setData
    rw [setLog_bcache, ← getBuf_slot, getBuf_modBuf_same, getBuf_slot, by1]
  have a2 : ((setData s1 (.slot y) P).setLog ((setData s1 (.slot y) P).log.record pins.length
      B)).bcache.buf z = (loaded s.log.dev B (s.disk s.log.dev B)).setOld true := by
    unfold setData
    rw [setLog_bcache, ← getBuf_slot, getBuf_modBuf_ne _ _ hney, getBuf_slot, bz1]
  have a3 : ∀ j, j ≠ y → j ≠ z → ((setData s1 (.slot y) P).setLog
      ((setData s1 (.slot y) P).log.record pins.length B)).bcache.buf j = s.bcache.buf j := by
    intro j h1 h2
    unfold setData
    rw [setLog_bcache, ← getBuf_slot, getBuf_modBuf_ne _ _ (fun h => h1 (BufPtr.slot.inj h)),
      getBuf_slot, ot1 j h1 h2]
  have a4 : ((setData s1 (.slot y) P).setLog ((setData s1 (.slot y) P).log.record pins.length
      B)).bcache.order = s.bcache.order := by
    unfold setData
    rw [setLog_bcache, modBuf_order, o1]
  have a5 : ((setData s1 (.slot y) P).setLog ((setData s1 (.slot y) P).log.record pins.length
      B)).log = s.log.record pins.length B := by
    unfold setData
    rw [setLog_log, modBuf_log, l1]
  have a6 : ((setData s1 (.slot y) P).setLog ((setData s1 (.slot y) P).log.record pins.length
      B)).disk = s.disk := d1
  generalize (setData s1 (.slot y) P).setLog ((setData s1 (.slot y) P).log.record pins.length
      B) = s3 at e2 a1 a2 a3 a4 a5 a6
  have l3d : s3.log.dev = s.log.dev := by rw [a5]; rfl
  have l3s : s3.log.start = s.log.start := by rw [a5]; rfl
  have l3b : s3.log.block pins.length = B := by
    rw [a5]
    show (if pins.length = pins.length then B else _) = B
    rw [if_pos rfl]
  have hBl2 : B ≠ s.log.start + pins.length + 1 := fun h => hBout ⟨by omega, by omega⟩
  obtain ⟨w, s4, e4, hw, rw3, hwy, hwz, o4, l4, d4, by4, bz4, bw4, ot4⟩ :=
    log_write_copy_spec s3 pins.length y z (by rw [a1]; rfl) hyz (by rw [a4]; exact hz)
      (by rw [a2, l3d, l3b]; exact ⟨rfl, rfl, rfl⟩) (by rw [a2]; rfl)
      (fun j hj hm => by
        rw [a4] at hj
        rw [matchesOld_iff, l3d, l3b] at hm
        by_contra hjz
        by_cases hjy : j = y
        · rw [hjy, a1] at hm
          exact absurd hm.2.2 (by simp [loaded])
        · rw [a3 j hjy hjz] at hm
          have := TInv_unused hT hj ((matches_iff _ _ _ _).2 ⟨hm.1, hm.2.1⟩) hB hBl
          rw [this.2.2.2] at hm
          exact absurd hm.2.2 Bool.false_ne_true)
      (fun j hfj => by
        have hj := List.mem_of_find?_eq_some hfj
        have hm := (matches_iff _ _ _ _).1 (List.find?_some hfj)
        rw [a4] at hj
        rw [l3d, l3s] at hm
        have hjy : j ≠ y := fun h => by
          rw [h, a1] at hm
          exact hBl2 hm.2
        have hjz : j ≠ z := fun h => by
          rw [h, a2] at hm
          exact hBl2 hm.2
        rw [a3 j hjy hjz] at hm ⊢
        have := TInv_unused hT hj ((matches_iff _ _ _ _).2 hm)
          (fun t ht h => hT.outside t ht ⟨by omega, by omega⟩) (fun h => by omega)
        exact ⟨this.1, this.2.2.1, this.2.2.2, fun hv => by
          rw [this.2.1] at hv
          exact absurd hv Bool.false_ne_true⟩)
      ⟨f, by rw [a4]; exact hf, by
        rw [recyclable_iff, a3 f hfy hfz]
        exact (recyclable_iff _ _).1 rf⟩
  have hw' : w ∈ s.bcache.order := by rw [← a4]; exact hw
  have rw' : recyclable s.bcache w = true := by
    rw [recyclable_iff, a3 w hwy hwz] at rw3
    exact (recyclable_iff _ _).2 rw3
  have e5 := brelse_one s4 y (by rw [by4, a1]; rfl)
  refine ⟨y, (s4.setBuf (.slot y) ((s4.bcache.buf y).setRefcnt 0)).relink (.slot y), ?_, ?_, ?_, ?_⟩
  · unfold txn_write
    rw [e1, bind_ok, e2, e4, bind_ok, e5]
  · apply TInv_step hT hy hz hw' ry rz rw'
    · rw [relink_slot_order, setBuf_order, o4, a4]
    · rw [relink_buf, setBuf_slot_buf, if_pos rfl, by4, a1]
      rfl
    · rw [relink_buf, setBuf_slot_buf, if_neg (Ne.symm hyz), bz4, a2]
      exact ⟨rfl, rfl, rfl⟩
    · rw [relink_buf, setBuf_slot_buf, if_neg hwy, bw4, l3s]
      exact ⟨rfl, rfl, rfl⟩
    · intro i h1 h2 h3
      rw [relink_buf, setBuf_slot_buf, if_neg h1, ot4 i h1 h2 h3, a3 i h1 h2]
    · show s4.log = _
      rw [l4, a5]
    · exact hB
    · exact hBout
    · exact hroom
  · have hz4 : z ∈ s.bcache.order := hz
    have h1 : w ∈ z :: s.bcache.order.erase z := (mem_relink hz).2 hw'
    have h2 : y ∈ w :: (z :: s.bcache.order.erase z).erase w :=
      (mem_relink h1).2 ((mem_relink hz).2 hy)
    rw [relink_slot_order, setBuf_order, o4, a4, length_relink h2, length_relink h1,
      length_relink hz]
  · unfold LogConst
    show s4.log.start = _ ∧ s4.log.size = _ ∧ s4.log.dev = _
    rw [l4, a5]
    exact ⟨rfl, rfl, rfl⟩

/-! ## Round-trip commit: the updates, then `commit` -/

/-- The updates of a transaction under the invariant, for new, pairwise distinct home
blocks outside the log region, with room in the log and in the cache: they return and the
invariant holds with all of them added, in order. -/
theorem txn_body_spec (ws : List (Nat × Data)) {s : State} {pins : List (Nat × Nat × Data)}
    (hT : TInv s pins)
    (hnew : ∀ u ∈ ws, ∀ t ∈ pins, t.2.1 ≠ u.1)
    (hdist : (ws.map Prod.fst).Nodup)
    (hout : ∀ u ∈ ws, ¬ (s.log.start ≤ u.1 ∧ u.1 < s.log.start + s.log.size))
    (hroom : pins.length + ws.length + 1 ≤ s.log.size)
    (hls : pins.length + ws.length ≤ LOGSIZE)
    (hcache : pins.length + ws.length + 2 ≤ s.bcache.order.length) :
    ∃ s' pins', txn_body s ws = .ok () s' ∧ TInv s' pins' ∧
      pins'.map (fun t => t.2) = pins.map (fun t => t.2) ++ ws ∧
      s'.bcache.order.length = s.bcache.order.length ∧ LogConst s s' := by
  induction ws generalizing s pins with
  | nil =>
    exact ⟨s, pins, rfl, hT, by rw [List.append_nil], rfl, LogConst_refl s⟩
  | cons u rest ih =>
    obtain ⟨B, P⟩ := u
    simp only [List.length_cons] at hroom hls hcache
    rw [List.map_cons, List.nodup_cons] at hdist
    obtain ⟨y, s1, e1, T1, o1, c1⟩ := txn_write_spec B P hT
      (fun t ht => hnew (B, P) (List.mem_cons_self _ _) t ht)
      (hout (B, P) (List.mem_cons_self _ _)) (by omega) (by omega) (by omega)
    obtain ⟨s2, pins2, e2, T2, m2, o2, c2⟩ := ih T1
      (fun u hu t ht => by
        rcases List.mem_append.1 ht with ht | ht
        · exact hnew u (List.mem_cons_of_mem _ hu) t ht
        · rw [List.mem_singleton.1 ht]
          intro h
          exact hdist.1 (List.mem_map.2 ⟨u, hu, h.symm⟩))
      hdist.2
      (fun u hu => by
        rw [c1.1, c1.2.1]
        exact hout u (List.mem_cons_of_mem _ hu))
      (by rw [List.length_append, List.length_singleton, c1.2.1]; omega)
      (by rw [List.length_append, List.length_singleton]; omega)
      (by rw [List.length_append, List.length_singleton, o1]; omega)
    refine ⟨s2, pins2, ?_, T2, ?_, by rw [o2, o1], LogConst_trans c1 c2⟩
    · unfold txn_body
      rw [e1, bind_ok, e2]
    · rw [m2, List.map_append, List.map_singleton, List.append_assoc]
      rfl

theorem TInv_fresh (lg : Log) (disk : Disk) (hn : lg.n = 0) :
    TInv (State.mk (binit zeroBcache) lg disk) [] := by
  constructor
  · exact binit_order_nodup
  · intro t ht
    exact absurd ht (List.not_mem_nil t)
  · intro i _ _
    exact ⟨rfl, rfl⟩
  · intro i _ _ _ _
    exact ⟨rfl, rfl⟩
  · exact hn
  · trivial
  · intro t ht
    exact absurd ht (List.not_mem_nil t)
  · exact List.nodup_nil

theorem matchesNew_congr {c c' : Bcache} (h : ∀ j, (c'.buf j).dev = (c.buf j).dev ∧
    (c'.buf j).blockno = (c.buf j).blockno ∧ (c'.buf j).old = (c.buf j).old) (d k : Nat) :
    matchesNew c' d k = matchesNew c d k := by
  funext j
  unfold matchesNew matches_
  rw [(h j).1, (h j).2.1, (h j).2.2]

theorem recyclable_bwrite (s : State) (p : BufPtr) (a : Nat)
    (h : recyclable s.bcache a = true) : recyclable (bwrite s p).bcache a = true := by
  rw [recyclable_iff] at h ⊢
  rw [← getBuf_slot]
  by_cases hp : BufPtr.slot a = p
  · subst hp
    rw [bwrite_getBuf_same]
    exact ⟨h.1, rfl⟩
  · rw [bwrite_getBuf_ne s hp]
    exact h

theorem bwrite_fields (s : State) (p : BufPtr) (j : Nat) :
    ((bwrite s p).bcache.buf j).dev = (s.bcache.buf j).dev ∧
    ((bwrite s p).bcache.buf j).blockno = (s.bcache.buf j).blockno ∧
    ((bwrite s p).bcache.buf j).old = (s.bcache.buf j).old ∧
    ((bwrite s p).bcache.buf j).data = (s.bcache.buf j).data := by
  rw [← getBuf_slot, ← getBuf_slot]
  by_cases hp : BufPtr.slot j = p
  · subst hp
    rw [bwrite_getBuf_same]
    exact ⟨rfl, rfl, rfl, rfl⟩
  · rw [bwrite_getBuf_ne s hp]
    exact ⟨rfl, rfl, rfl, rfl⟩

/-- The loop of `install_trans` with no fault at point 5, over entries whose non-OLD
buffers are resident with the given payloads and whose home blocks are pairwise distinct:
it returns, each home block holds its payload on disk and no other block has changed. -/
theorem install_trans_loop_spec (f : FaultFlags) (hf : f.LOG_FLAG ≠ 5)
    (rest : List (Nat × Nat × Data)) (tail : Nat) (s : State)
    (hblocks : BlocksFrom s.log.block tail (rest.map fun t => t.2.1))
    (hpins : ∀ t ∈ rest, bget_new s s.log.dev t.2.1 = .slot t.1 ∧
      (s.bcache.buf t.1).dev = s.log.dev ∧ (s.bcache.buf t.1).blockno = t.2.1 ∧
      (s.bcache.buf t.1).data = t.2.2)
    (hdist : (rest.map fun t => t.2.1).Nodup) :
    ∃ s', install_trans_loop f rest.length tail s = .ok () s' ∧ s'.log = s.log ∧
      (∀ t ∈ rest, s'.disk s.log.dev t.2.1 = t.2.2) ∧
      (∀ d k, ¬ (d = s.log.dev ∧ k ∈ rest.map fun t => t.2.1) → s'.disk d k = s.disk d k) ∧
      (∀ a ∈ s.bcache.order, recyclable s.bcache a = true →
        a ∈ s'.bcache.order ∧ recyclable s'.bcache a = true) := by
  induction rest generalizing tail s with
  | nil => exact ⟨s, rfl, rfl, fun t ht => absurd ht (List.not_mem_nil t), fun _ _ _ => rfl,
      fun a ha hr => ⟨ha, hr⟩⟩
  | cons t r ih =>
    obtain ⟨hb1, hb2⟩ := hblocks
    rw [List.map_cons, List.nodup_cons] at hdist
    obtain ⟨p1, p2, p3, p4⟩ := hpins t (List.mem_cons_self _ _)
    have hnew : bread_wr_new s s.log.dev (s.log.block tail) = .slot t.1 := by
      unfold bread_wr_new
      rw [hb1]
      exact p1
    have hord : (bwrite s (.slot t.1)).bcache.order = s.bcache.order := bwrite_order _ _
    have hlog : (bwrite s (.slot t.1)).log = s.log := bwrite_log _ _
    have hdisk : (bwrite s (.slot t.1)).disk = writeDisk s.disk s.log.dev t.2.1 t.2.2 := by
      rw [bwrite_disk, getBuf_slot, p2, p3, p4]
    obtain ⟨s', e', l', d1', d2', r'⟩ := ih (tail + 1) (bwrite s (.slot t.1))
      (by rw [hlog]; exact hb2)
      (fun u hu => by
        obtain ⟨q1, q2, q3, q4⟩ := hpins u (List.mem_cons_of_mem _ hu)
        obtain ⟨f1, f2, _, f4⟩ := bwrite_fields s (.slot t.1) u.1
        refine ⟨?_, by rw [f1, hlog, q2], by rw [f2, q3], by rw [f4, q4]⟩
        unfold bget_new at q1 ⊢
        rw [hord, hlog, matchesNew_congr (c := s.bcache) (fun j =>
          ⟨(bwrite_fields s (.slot t.1) j).1, (bwrite_fields s (.slot t.1) j).2.1,
            (bwrite_fields s (.slot t.1) j).2.2.1⟩)]
        exact q1)
      hdist.2
    rw [hlog] at d1' d2' l'
    refine ⟨s', ?_, l', ?_, ?_, ?_⟩
    · rw [List.length_cons]
      unfold install_trans_loop
      rw [if_neg (fun h => hf h.1), hnew]
      exact e'
    · intro u hu
      rcases List.mem_cons.1 hu with h | h
      · rw [h, d2' _ _ (fun hc => hdist.1 hc.2), hdisk, writeDisk_same]
      · exact d1' u h
    · intro d k hk
      rw [d2' d k (fun hc => hk ⟨hc.1, List.mem_cons_of_mem _ hc.2⟩), hdisk, writeDisk_other]
      exact fun hc => hk ⟨hc.1, by rw [hc.2]; exact List.mem_cons_self _ _⟩
    · intro a ha hr
      exact r' a (by rw [hord]; exact ha) (recyclable_bwrite s _ a hr)

/-- `write_head` under the invariant with one unpinned buffer: it returns, writes the
header with the in-memory count, and leaves every pinned working copy resident, found by
`bget_new`, with its payload. -/
theorem write_head_TInv {s : State} {pins : List (Nat × Nat × Data)} (hT : TInv s pins)
    (hroom : pins.length + 1 ≤ s.log.size)
    (hcache : pins.length + 1 ≤ s.bcache.order.length) :
    ∃ s' D, write_head s = .ok () s' ∧ s'.log = s.log ∧ hdr_n D = s.log.n ∧
      s'.disk = writeDisk s.disk s.log.dev s.log.start D ∧
      (∀ t ∈ pins, bget_new s' s.log.dev t.2.1 = .slot t.1 ∧
        (s'.bcache.buf t.1).dev = s.log.dev ∧ (s'.bcache.buf t.1).blockno = t.2.1 ∧
        (s'.bcache.buf t.1).data = t.2.2) ∧
      ∃ a ∈ s'.bcache.order, recyclable s'.bcache a = true := by
  have hfree : ∃ a ∈ s.bcache.order, recyclable s.bcache a = true := by
    obtain ⟨a, ha, hna⟩ := exists_not_mem_of_length_lt _ (pins.map (fun t => t.1))
      hT.nodup (by rw [List.length_map]; omega)
    exact ⟨a, ha, (recyclable_iff _ _).2
      (hT.free a ha (fun t ht h => hna (List.mem_map.2 ⟨t, ht, h⟩)))⟩
  have hstart : ∀ t ∈ pins, t.2.1 ≠ s.log.start := fun t ht hc =>
    hT.outside t ht ⟨by omega, by omega⟩
  obtain ⟨h, hh, rh, _, e1⟩ := bread_clean s s.log.dev s.log.start
    (fun i hf => by
      have := TInv_unused hT (List.mem_of_find?_eq_some hf) (List.find?_some hf) hstart
        (fun hc => by omega)
      exact ⟨this.1, this.2.2.1, this.2.2.2, fun hv => by
        rw [this.2.1] at hv
        exact absurd hv Bool.false_ne_true⟩)
    hfree
  have a1 : (s.setBuf (.slot h) (loaded s.log.dev s.log.start
      (s.disk s.log.dev s.log.start))).bcache.buf h =
      loaded s.log.dev s.log.start (s.disk s.log.dev s.log.start) := by
    rw [setBuf_slot_buf, if_pos rfl]
  have a2 : ∀ j, j ≠ h → (s.setBuf (.slot h) (loaded s.log.dev s.log.start
      (s.disk s.log.dev s.log.start))).bcache.buf j = s.bcache.buf j := by
    intro j hj
    rw [setBuf_slot_buf, if_neg hj]
  have a3 : (s.setBuf (.slot h) (loaded s.log.dev s.log.start
      (s.disk s.log.dev s.log.start))).bcache.order = s.bcache.order := setBuf_order _ _ _
  have a4 : (s.setBuf (.slot h) (loaded s.log.dev s.log.start
      (s.disk s.log.dev s.log.start))).log = s.log := rfl
  have a5 : (s.setBuf (.slot h) (loaded s.log.dev s.log.start
      (s.disk s.log.dev s.log.start))).disk = s.disk := rfl
  generalize s.setBuf (.slot h) (loaded s.log.dev s.log.start
      (s.disk s.log.dev s.log.start)) = s1 at e1 a1 a2 a3 a4 a5
  have e2 := bwrite_setData s1 (.slot h) (write_head_data s1.log (s1.getBuf (.slot h)).data)
    (by rw [getBuf_slot, a1]; rfl) (by rw [getBuf_slot, a1]; rfl)
  have b1 : ((s1.setBuf (.slot h) ((s1.getBuf (.slot h)).setData
      (write_head_data s1.log (s1.getBuf (.slot h)).data))).setDisk
      (writeDisk s1.disk (s1.getBuf (.slot h)).dev (s1.getBuf (.slot h)).blockno
        (write_head_data s1.log (s1.getBuf (.slot h)).data))).bcache.buf h =
      (loaded s.log.dev s.log.start (s.disk s.log.dev s.log.start)).setData
        (write_head_data s1.log (s1.getBuf (.slot h)).data) := by
    rw [setDisk_bcache, setBuf_slot_buf, if_pos rfl, getBuf_slot, a1]
  have b2 : ∀ j, j ≠ h → ((s1.setBuf (.slot h) ((s1.getBuf (.slot h)).setData
      (write_head_data s1.log (s1.getBuf (.slot h)).data))).setDisk
      (writeDisk s1.disk (s1.getBuf (.slot h)).dev (s1.getBuf (.slot h)).blockno
        (write_head_data s1.log (s1.getBuf (.slot h)).data))).bcache.buf j = s.bcache.buf j := by
    intro j hj
    rw [setDisk_bcache, setBuf_slot_buf, if_neg hj, a2 j hj]
  have b3 : ((s1.setBuf (.slot h) ((s1.getBuf (.slot h)).setData
      (write_head_data s1.log (s1.getBuf (.slot h)).data))).setDisk
      (writeDisk s1.disk (s1.getBuf (.slot h)).dev (s1.getBuf (.slot h)).blockno
        (write_head_data s1.log (s1.getBuf (.slot h)).data))).bcache.order = s.bcache.order := by
    rw [setDisk_bcache, setBuf_order, a3]
  have b4 : ((s1.setBuf (.slot h) ((s1.getBuf (.slot h)).setData
      (write_head_data s1.log (s1.getBuf (.slot h)).data))).setDisk
      (writeDisk s1.disk (s1.getBuf (.slot h)).dev (s1.getBuf (.slot h)).blockno
        (write_head_data s1.log (s1.getBuf (.slot h)).data))).log = s.log := a4
  have b5 : ((s1.setBuf (.slot h) ((s1.getBuf (.slot h)).setData
      (write_head_data s1.log (s1.getBuf (.slot h)).data))).setDisk
      (writeDisk s1.disk (s1.getBuf (.slot h)).dev (s1.getBuf (.slot h)).blockno
        (write_head_data s1.log (s1.getBuf (.slot h)).data))).disk =
      writeDisk s.disk s.log.dev s.log.start
        (write_head_data s1.log (s1.getBuf (.slot h)).data) := by
    rw [setDisk_disk, getBuf_slot, a1, a5]
    rfl
  have hD : hdr_n (write_head_data s1.log (s1.getBuf (.slot h)).data) = s.log.n := by
    rw [write_head_data_n, a4]
  generalize hDe : write_head_data s1.log (s1.getBuf (.slot h)).data = D at e2 b1 b2 b3 b4 b5 hD
  generalize (s1.setBuf (.slot h) ((s1.getBuf (.slot h)).setData D)).setDisk
      (writeDisk s1.disk (s1.getBuf (.slot h)).dev (s1.getBuf (.slot h)).blockno D) = s2
    at e2 b1 b2 b3 b4 b5
  have e3 := brelse_one s2 h (by rw [b1]; rfl)
  have hpin_ne : ∀ t ∈ pins, t.1 ≠ h := by
    intro t ht hc
    have hr := pinnedBuf_recyclable (hT.pinned t ht).2.1
    rw [hc, rh] at hr
    exact Bool.noConfusion hr
  refine ⟨(s2.setBuf (.slot h) ((s2.bcache.buf h).setRefcnt 0)).relink (.slot h), D, ?_, b4, hD,
    b5, ?_, ?_⟩
  · unfold write_head
    rw [e1, bind_ok, hDe, e2, e3]
  · intro t ht
    obtain ⟨p1, p2, p3⟩ := hT.pinned t ht
    have hne := hpin_ne t ht
    have hbuf : ((s2.setBuf (.slot h) ((s2.bcache.buf h).setRefcnt 0)).relink
        (.slot h)).bcache.buf t.1 = pinnedBuf s.log.dev t.2.1 t.2.2 := by
      rw [relink_buf, setBuf_slot_buf, if_neg hne, b2 _ hne, p2]
    refine ⟨?_, by rw [hbuf]; rfl, by rw [hbuf]; rfl, by rw [hbuf]; rfl⟩
    unfold bget_new
    have hfh : matchesNew ((s2.setBuf (.slot h) ((s2.bcache.buf h).setRefcnt 0)).relink
        (.slot h)).bcache s.log.dev t.2.1 h = false := by
      apply matchesNew_false_of_blockno
      rw [relink_buf, setBuf_slot_buf, if_pos rfl, b1]
      exact Ne.symm (hstart t ht)
    have hf : (h :: s.bcache.order.erase h).find?
        (matchesNew ((s2.setBuf (.slot h) ((s2.bcache.buf h).setRefcnt 0)).relink
        (.slot h)).bcache s.log.dev t.2.1) = some t.1 := by
      apply find?_relink_ne _ hne hfh
      apply find?_mono p3
      · rw [matchesNew_iff, hbuf]
        exact ⟨rfl, rfl, rfl⟩
      · intro i _ hi
        by_cases hih : i = h
        · rw [hih, hfh] at hi
          exact Bool.noConfusion hi
        · rw [matchesNew_iff, relink_buf, setBuf_slot_buf, if_neg hih, b2 i hih] at hi
          exact (matchesNew_iff _ _ _ _).2 hi
    rw [relink_slot_order, setBuf_order, b3, hf]
  · refine ⟨h, ?_, ?_⟩
    · rw [relink_slot_order]
      exact List.mem_cons_self _ _
    · rw [recyclable_iff, relink_buf, setBuf_slot_buf, if_pos rfl, b1]
      exact ⟨rfl, rfl⟩

theorem write_head_ok_of_recyclable (s : State) {a : Nat} (ha : a ∈ s.bcache.order)
    (hr : recyclable s.bcache a = true) : ∃ s', write_head s = .ok () s' := by
  obtain ⟨p, s1, e1⟩ := bread_ok_of_recyclable s s.log.dev s.log.start ha hr
  unfold write_head
  rw [e1, bind_ok]
  exact ⟨_, rfl⟩

/-- `commit` with no fault under the invariant, after at least one update: it returns,
every logged home block holds its payload on disk and the on-disk header has `n = 0`. -/
theorem commit_TInv {s : State} {pins : List (Nat × Nat × Data)} (hT : TInv s pins)
    (hJ : Jinv s) (hne : 0 < pins.length) (hroom : pins.length + 1 ≤ s.log.size)
    (hcache : pins.length + 1 ≤ s.bcache.order.length) :
    ∃ s', commit noFault s = .ok () s' ∧ (∀ t ∈ pins, s'.disk s.log.dev t.2.1 = t.2.2) ∧
      hdr_n (s'.disk s.log.dev s.log.start) = 0 := by
  obtain ⟨s1, D, e1, l1, _, d1, hp1, a, ha, ra⟩ := write_head_TInv hT hroom hcache
  obtain ⟨hJ1, _, _⟩ := write_head_frame e1 hJ
  have hn1 : s1.log.n = pins.length := by rw [l1, hT.logn]
  obtain ⟨s2, e2, l2, d2, f2, r2⟩ := install_trans_loop_spec noFault (by decide) pins
    0 s1 (by rw [l1]; exact hT.logblock)
    (fun t ht => by rw [l1]; exact hp1 t ht) hT.distinct
  obtain ⟨hJ2, _⟩ := install_trans_loop_frame noFault _ e2 hJ1
  obtain ⟨ha2, ra2⟩ := r2 a ha ra
  obtain ⟨s3, e3⟩ := write_head_ok_of_recyclable (s2.setLog { s2.log with n := 0 }) (a := a)
    ha2 ra2
  have hJ2' : Jinv (s2.setLog { s2.log with n := 0 }) := hJ2
  obtain ⟨_, _, D3, hD3, d3⟩ := write_head_frame e3 hJ2'
  have hdev : (s2.setLog { s2.log with n := 0 }).log.dev = s.log.dev := by
    show s2.log.dev = _
    rw [l2, l1]
  have hst : (s2.setLog { s2.log with n := 0 }).log.start = s.log.start := by
    show s2.log.start = _
    rw [l2, l1]
  rw [hdev, hst] at d3
  rw [l1] at d2 f2
  refine ⟨s3, ?_, ?_, ?_⟩
  · unfold commit
    rw [if_pos (by rw [hT.logn]; exact hne), if_neg (by decide), e1, bind_ok,
      if_neg (by decide)]
    unfold install_trans
    rw [hn1, e2, bind_ok, if_neg (by decide), e3, bind_ok, if_neg (by decide)]
  · intro t ht
    rw [d3, writeDisk_other]
    · exact d2 t ht
    · rintro ⟨_, hc⟩
      exact hT.outside t ht ⟨by omega, by omega⟩
  · rw [d3, writeDisk_same, hD3]
    rfl

/-- C3 (amended). Round-trip commit. Start from a freshly initialised cache and an empty
log (`n = 0` in memory and in the on-disk header). For every list of at most
`NBUF - 2 = 28` updates of pairwise distinct home blocks outside the log region, with
`k <= size - 1` for their number `k`: the updates (`bread_wr`, new payload, `log_write`,
`brelse` for each) followed by `end_op` with no fault return without a fatal abort, every
one of those home blocks holds its new payload on disk, and the on-disk header has
`n = 0`. -/
theorem round_trip_commit (lg : Log) (disk : Disk) (ws : List (Nat × Data))
    (hn : lg.n = 0) (h0 : hdr_n (disk lg.dev lg.start) = 0)
    (hlen : ws.length ≤ NBUF - 2) (hroom : ws.length + 1 ≤ lg.size)
    (hdist : (ws.map Prod.fst).Nodup)
    (hout : ∀ u ∈ ws, ¬ (lg.start ≤ u.1 ∧ u.1 < lg.start + lg.size)) :
    ∃ s', txn noFault (State.mk (binit zeroBcache) lg disk) ws = .ok () s' ∧
      (∀ u ∈ ws, s'.disk lg.dev u.1 = u.2) ∧ hdr_n (s'.disk lg.dev lg.start) = 0 := by
  have hT0 := TInv_fresh lg disk hn
  have hJ0 : Jinv (State.mk (binit zeroBcache) lg disk) :=
    Jinv_of_clean (fun q => by rw [fresh_getBuf]; rfl)
  have hl0 : (State.mk (binit zeroBcache) lg disk).bcache.order.length = NBUF :=
    binit_order_length
  have hN : NBUF = 30 := by decide
  have hL : LOGSIZE = 30 := by decide
  obtain ⟨s1, pins, e1, T1, m1, o1, c1⟩ := txn_body_spec ws hT0
    (fun u _ t ht => absurd ht (List.not_mem_nil t)) hdist hout
    (by show [].length + ws.length + 1 ≤ lg.size; rw [List.length_nil]; omega)
    (by rw [List.length_nil]; omega)
    (by rw [List.length_nil, hl0]; omega)
  rw [List.map_nil, List.nil_append] at m1
  have hlen1 : pins.length = ws.length := by
    rw [← List.length_map pins (fun t => t.2), m1]
  obtain ⟨hJ1, _, _⟩ := txn_body_frame ws e1 hJ0
  have hdev : s1.log.dev = lg.dev := c1.2.2
  have hstart : s1.log.start = lg.start := c1.1
  have hsize : s1.log.size = lg.size := c1.2.1
  by_cases hk : ws = []
  · subst hk
    unfold txn_body at e1
    injection e1 with _ hs
    subst hs
    refine ⟨State.mk (binit zeroBcache) lg disk, ?_,
      fun u hu => absurd hu (List.not_mem_nil u), h0⟩
    unfold txn txn_body end_op commit
    rw [bind_ok, if_neg (by show ¬ lg.n > 0; rw [hn]; exact Nat.lt_irrefl 0)]
  · have hpos : 0 < pins.length := by
      rw [hlen1]
      exact List.length_pos.2 hk
    obtain ⟨s2, e2, d2, h2⟩ := commit_TInv T1 hJ1 hpos (by rw [hlen1, hsize]; omega)
      (by rw [hlen1, o1, hl0]; omega)
    rw [hdev] at d2
    rw [hdev, hstart] at h2
    refine ⟨s2, ?_, ?_, h2⟩
    · unfold txn end_op
      rw [e1, bind_ok, e2]
    · intro u hu
      have : u ∈ pins.map (fun t => t.2) := by rw [m1]; exact hu
      obtain ⟨t, ht, htu⟩ := List.mem_map.1 this
      have := d2 t ht
      rw [← htu]
      exact this

set_option maxRecDepth 100000 in
/-- C3 at a concrete input: the 28 updates `exWrites 28` on the fresh state `exFresh`. -/
theorem round_trip_commit_witness :
    ∃ s', txn noFault (State.mk (binit zeroBcache) exFresh.log exDisk) (exWrites 28) =
        .ok () s' ∧
      (∀ u ∈ exWrites 28, s'.disk exFresh.log.dev u.1 = u.2) ∧
      hdr_n (s'.disk exFresh.log.dev exFresh.log.start) = 0 :=
  round_trip_commit exFresh.log exDisk (exWrites 28) (by decide) (by decide) (by decide)
    (by decide) (by decide) (by decide)

/-! ## Further evaluations at concrete inputs -/

set_option maxRecDepth 100000 in
/-- C14 (evaluation at the failing input). After boot, `bread_wr` of block 5 is called twice:
the first call returns `x` (slot 1), the second returns `b` (slot 2), the OLD-tagged
snapshot. The caller stores 9 in `b` and calls `log_write(b)`: `b` is DIRTY and holds 9.
`end_op` with no fault then returns, and home block 5 holds 105, the payload of `x`, not 9:
`bget_new` skips `b` because it is tagged OLD. If instead 28 other blocks are read and
released and `log_write(x)` is called, `b` is no longer DIRTY: it was taken as the OLD
pre-image and un-dirtied. -/
theorem logged_buffer_is_not_installed :
    exFirstDup.result = some (.slot 1) ∧
    exDoubleAcquire.result = some (.slot 2) ∧
    (exDoubleAcquire.state.getBuf (.slot 2)).dirty = true ∧
    (exDoubleAcquire.state.getBuf (.slot 2)).old = true ∧
    (exDoubleAcquire.state.getBuf (.slot 2)).blockno = 5 ∧
    (exDoubleAcquire.state.getBuf (.slot 2)).data 0 = 9 ∧
    exDoubleAcquire.state.log.n = 1 ∧ exDoubleAcquire.state.log.block 0 = 5 ∧
    exDoubleCommit.isOk = true ∧ exDoubleCommit.state.disk 1 5 0 = 105 ∧
    exUnpinned.isOk = true ∧ (exUnpinned.state.getBuf (.slot 2)).blockno = 5 ∧
    (exUnpinned.state.getBuf (.slot 2)).dirty = false := by
  decide

set_option maxRecDepth 100000 in
/-- C16 (evaluation at the failing input). The header of `exDiskUndo` records `n = 2`.
After `initlog`, which runs `recover_from_log`, the in-memory count is still 2 and so is the
count in the on-disk header; the entries `block[0] = 5`, `block[1] = 7` are still listed. -/
theorem recovery_leaves_log_count :
    hdr_n (exDiskUndo 1 10) = 2 ∧
    (boot exDiskUndo 1 exSb).isOk = true ∧
    (boot exDiskUndo 1 exSb).state.log.n = 2 ∧
    (boot exDiskUndo 1 exSb).state.log.block 0 = 5 ∧
    (boot exDiskUndo 1 exSb).state.log.block 1 = 7 ∧
    hdr_n ((boot exDiskUndo 1 exSb).state.disk 1 10) = 2 := by
  decide

set_option maxRecDepth 100000 in
/-- C2 (counterexample). Boot on `exDisk`, whose header has `n = 0`; block 11 holds 111. A
transaction updates blocks 12 and 11 (`n = 2`, `block[0] = 12`, `block[1] = 11`) and its
`end_op` aborts at fault point 1. Home block 11 then holds 112 on disk, the pre-image of
block 12 that `log_write` stored in log data block 11, and after the reboot, which
returns, it still holds 112 and not its pre-transaction value 111. -/
theorem pre_commit_crash_changes_logged_block :
    hdr_n (exDisk 1 10) = 0 ∧
    (boot exDisk 1 exSb).isOk = true ∧ (boot exDisk 1 exSb).state.disk 1 11 0 = 111 ∧
    exLogRegionBody.isOk = true ∧ exLogRegionBody.state.log.n = 2 ∧
    exLogRegionBody.state.log.block 0 = 12 ∧ exLogRegionBody.state.log.block 1 = 11 ∧
    exLogRegionCrash.panicOf = some .commit_type_1 ∧
    exLogRegionCrash.state.disk 1 11 0 = 112 ∧
    exLogRegionReboot.isOk = true ∧ exLogRegionReboot.state.disk 1 11 0 = 112 := by
  decide

set_option maxRecDepth 100000 in
/-- C17 (evaluation at the failing input). After boot, `x = bread_wr` of block 5 is
released at once and 29 other blocks are read: the copy `x` is recycled, and the only
resident copy of block 5 is the OLD-tagged snapshot in slot 2, VALID with reference
count 1. The second `bread_wr` of block 5 returns that slot (reference count 2); the
caller stores 9 in it, calls `log_write` (`n = 1`, `block[0] = 5`) and `brelse`. `end_op`
with no fault set returns, but the block it writes between the two header writes is
block 0 of device 0 (from 100 to 0), not home block 5, which keeps 105. Stopped at fault
point 3, after `install_trans`, the on-disk header has `n = 1`, block 0 of device 0 is
already overwritten and block 5 is not. -/
theorem install_writes_sentinel_block :
    exReleasedCopy.isOk = true ∧ copies exReleasedCopy.state 1 5 = [2] ∧
    (exReleasedCopy.state.bcache.buf 2).old = true ∧
    (exReleasedCopy.state.bcache.buf 2).refcnt = 1 ∧
    exOldHit.result = some (.slot 2) ∧ (exOldHit.state.bcache.buf 2).refcnt = 2 ∧
    exOldLogged.isOk = true ∧ exOldLogged.state.log.n = 1 ∧
    exOldLogged.state.log.block 0 = 5 ∧ (exOldLogged.state.bcache.buf 2).dirty = true ∧
    (exOldLogged.state.bcache.buf 2).data 0 = 9 ∧
    exOldLogged.state.disk 1 5 0 = 105 ∧ exOldLogged.state.disk 0 0 0 = 100 ∧
    (exOldCommit fault3).panicOf = some .commit_type_3 ∧
    hdr_n ((exOldCommit fault3).state.disk 1 10) = 1 ∧
    (exOldCommit fault3).state.disk 0 0 0 = 0 ∧ (exOldCommit fault3).state.disk 1 5 0 = 105 ∧
    (exOldCommit noFault).isOk = true ∧ hdr_n ((exOldCommit noFault).state.disk 1 10) = 0 ∧
    (exOldCommit noFault).state.disk 0 0 0 = 0 ∧
    (exOldCommit noFault).state.disk 1 5 0 = 105 := by
  decide

set_option maxRecDepth 100000 in
/-- C19 (counterexample). The header of `exDiskAlias` holds `n = 3 <= LOGSIZE` and the home
blocks 12, 20, 11, all outside the one-block log region `[10, 11)`. Recovery run once
leaves 111 in block 12; recovery run a second time leaves 113 there. -/
theorem recovery_twice_differs :
    hdr_n (exDiskAlias 1 10) = 3 ∧ hdr_n (exDiskAlias 1 10) ≤ LOGSIZE ∧
    hdr_block (exDiskAlias 1 10) 0 = 12 ∧ hdr_block (exDiskAlias 1 10) 1 = 20 ∧
    hdr_block (exDiskAlias 1 10) 2 = 11 ∧
    (boot exDiskAlias 1 exTinySb).isOk = true ∧ exRecoverTwice.isOk = true ∧
    (boot exDiskAlias 1 exTinySb).state.disk 1 12 0 = 111 ∧
    exRecoverTwice.state.disk 1 12 0 = 113 := by
  decide

set_option maxRecDepth 100000 in
/-- C20 (evaluation at the failing input). In the state left by the first transaction
every slot has reference count 0 and DIRTY unset, and `n = 0`. The transaction storing 8 in
block 5 then completes with no fault, and afterwards slot 2 has reference count
`2^32 - 1` and slot 4 has reference count 1: neither is recyclable. -/
theorem transaction_leaves_buffers_pinned :
    exAfterTx1.isOk = true ∧ allReleased exAfterTx1.state = true ∧
    exAfterTx1.state.log.n = 0 ∧
    exAfterTx2.isOk = true ∧ allReleased exAfterTx2.state = false ∧
    (exAfterTx2.state.bcache.buf 2).refcnt = 4294967295 ∧
    (exAfterTx2.state.bcache.buf 4).refcnt = 1 ∧
    recyclable exAfterTx2.state.bcache 2 = false ∧
    recyclable exAfterTx2.state.bcache 4 = false := by
  decide

/-! ## Acquire on a miss, release, and the empty commit -/

/-- The buffer met first by a scan from the end of the list: nothing after it passes the
test. -/
theorem reverse_find?_some {p : Nat → Bool} {l : List Nat} {i : Nat}
    (h : l.reverse.find? p = some i) :
    p i = true ∧ ∃ pre post, l = pre ++ i :: post ∧ ∀ j ∈ post, p j = false := by
  obtain ⟨hp, as, bs, hl, hn⟩ := List.find?_eq_some.1 h
  refine ⟨hp, bs.reverse, as.reverse, ?_, ?_⟩
  · have := congrArg List.reverse hl
    rw [List.reverse_reverse] at this
    rw [this, List.reverse_append, List.reverse_cons, List.append_assoc]
    rfl
  · intro j hj
    have := hn j (List.mem_reverse.1 hj)
    cases hpj : p j
    · rfl
    · rw [hpj] at this
      exact absurd this (by decide)

/-- C11. Acquire on a miss. When no buffer on the list has the requested device and block
number: `bget` aborts with "bget: no buffers" exactly when no buffer on the list has
reference count 0 and DIRTY unset; otherwise it returns, and the buffer it returns is the
one nearest the least-recently-used end with reference count 0 and DIRTY unset (no buffer
after it on the list qualifies), now with the requested device and block number, all three
flags clear and reference count 1; every other buffer, the list order, the disk and the log
are unchanged. -/
theorem bget_miss (s : State) (dev blockno : Nat)
    (hmiss : ∀ i ∈ s.bcache.order, matches_ s.bcache dev blockno i = false) :
    (bget s dev blockno = .panic .bget_no_buffers s ↔
      ∀ i ∈ s.bcache.order, recyclable s.bcache i = false) ∧
    ((∃ i ∈ s.bcache.order, recyclable s.bcache i = true) →
      ∃ p s', bget s dev blockno = .ok p s') ∧
    ∀ p s', bget s dev blockno = .ok p s' →
      ∃ i pre post, p = .slot i ∧ s.bcache.order = pre ++ i :: post ∧
        ((s.bcache.buf i).refcnt = 0 ∧ (s.bcache.buf i).dirty = false) ∧
        (∀ j ∈ post, ¬ ((s.bcache.buf j).refcnt = 0 ∧ (s.bcache.buf j).dirty = false)) ∧
        (s'.bcache.buf i).dev = dev ∧ (s'.bcache.buf i).blockno = blockno ∧
        (s'.bcache.buf i).valid = false ∧ (s'.bcache.buf i).dirty = false ∧
        (s'.bcache.buf i).old = false ∧ (s'.bcache.buf i).refcnt = 1 ∧
        (∀ q, q ≠ .slot i → s'.getBuf q = s.getBuf q) ∧
        s'.bcache.order = s.bcache.order ∧ s'.disk = s.disk ∧ s'.log = s.log := by
  have hnone : s.bcache.order.find? (matches_ s.bcache dev blockno) = none := by
    rw [List.find?_eq_none]
    intro x hx hc
    rw [hmiss x hx] at hc
    exact Bool.noConfusion hc
  rcases bget_cases s dev blockno with ⟨i, hf, _, _, _⟩ | ⟨_, i, hr, hi, hri, he⟩ | ⟨_, hr, he⟩
  · rw [hnone] at hf
    exact Option.noConfusion hf
  · refine ⟨⟨fun h => ?_, fun h => ?_⟩, fun _ => ⟨_, _, he⟩, ?_⟩
    · rw [he] at h
      exact Res.noConfusion h
    · rw [h i hi] at hri
      exact Bool.noConfusion hri
    · intro p s' h
      rw [he] at h
      injection h with hp hs
      subst hp; subst hs
      obtain ⟨_, pre, post, hl, hpost⟩ := reverse_find?_some hr
      have hri2 := hri
      simp only [recyclable, Bool.and_eq_true, beq_iff_eq, Bool.not_eq_true'] at hri2
      refine ⟨i, pre, post, rfl, hl, hri2, ?_, ?_, ?_, ?_, ?_, ?_, ?_, ?_, ?_, rfl, rfl⟩
      · intro j hj hc
        have := hpost j hj
        simp only [recyclable, hc.1, hc.2] at this
        exact absurd this (by decide)
      · rw [setBuf_slot_buf, if_pos rfl]; rfl
      · rw [setBuf_slot_buf, if_pos rfl]; rfl
      · rw [setBuf_slot_buf, if_pos rfl]; rfl
      · rw [setBuf_slot_buf, if_pos rfl]; rfl
      · rw [setBuf_slot_buf, if_pos rfl]; rfl
      · rw [setBuf_slot_buf, if_pos rfl]; rfl
      · intro q hq
        exact getBuf_setBuf_ne _ _ hq
      · exact setBuf_order _ _ _
  · refine ⟨⟨fun _ => ?_, fun _ => he⟩, ?_, ?_⟩
    · intro i hi
      rw [List.find?_eq_none] at hr
      have := hr i (List.mem_reverse.2 hi)
      cases hc : recyclable s.bcache i
      · rfl
      · exact absurd hc this
    · rintro ⟨i, hi, hri⟩
      rw [List.find?_eq_none] at hr
      exact absurd hri (hr i (List.mem_reverse.2 hi))
    · intro p s' h
      rw [he] at h
      exact Res.noConfusion h

set_option maxRecDepth 100000 in
/-- C11 at a concrete pool: after `exLoggedOnce` no buffer holds block 77 of device 1; `bget`
returns slot 4, and slots 1, 2 and 3, which follow it on the list, do not qualify. -/
theorem bget_miss_witness :
    (bget exLoggedOnce.state 1 77).result = some (.slot 4) ∧
    ∃ i pre post, BufPtr.slot 4 = .slot i ∧
      exLoggedOnce.state.bcache.order = pre ++ i :: post ∧
      ((exLoggedOnce.state.bcache.buf i).refcnt = 0 ∧
        (exLoggedOnce.state.bcache.buf i).dirty = false) ∧
      (∀ j ∈ post, ¬ ((exLoggedOnce.state.bcache.buf j).refcnt = 0 ∧
        (exLoggedOnce.state.bcache.buf j).dirty = false)) ∧
      ((bget exLoggedOnce.state 1 77).state.bcache.buf i).dev = 1 ∧
      ((bget exLoggedOnce.state 1 77).state.bcache.buf i).blockno = 77 ∧
      ((bget exLoggedOnce.state 1 77).state.bcache.buf i).valid = false ∧
      ((bget exLoggedOnce.state 1 77).state.bcache.buf i).dirty = false ∧
      ((bget exLoggedOnce.state 1 77).state.bcache.buf i).old = false ∧
      ((bget exLoggedOnce.state 1 77).state.bcache.buf i).refcnt = 1 ∧
      (∀ q, q ≠ .slot i →
        (bget exLoggedOnce.state 1 77).state.getBuf q = exLoggedOnce.state.getBuf q) ∧
      (bget exLoggedOnce.state 1 77).state.bcache.order = exLoggedOnce.state.bcache.order ∧
      (bget exLoggedOnce.state 1 77).state.disk = exLoggedOnce.state.disk ∧
      (bget exLoggedOnce.state 1 77).state.log = exLoggedOnce.state.log :=
  ⟨by decide,
   (bget_miss exLoggedOnce.state 1 77 (by decide)).2.2 (.slot 4)
     (bget exLoggedOnce.state 1 77).state (by rfl)⟩

/-- `refcnt--` on a count between 1 and `2^32 - 1` subtracts one. -/
theorem refDec_pos {r : Nat} (h1 : 1 ≤ r) (hu : r < 4294967296) : refDec r + 1 = r := by
  unfold refDec
  omega

/-- Moving a buffer to the front keeps the relative order of the others. -/
theorem filter_relink {l : List Nat} (i : Nat) (hnd : l.Nodup) :
    (i :: l.erase i).filter (fun j => j != i) = l.filter (fun j => j != i) := by
  rw [List.filter_cons_of_neg (by simp), hnd.erase_eq_filter, List.filter_filter]
  congr 1
  funext j
  exact Bool.and_self _

/-- C12. Release. For a buffer on the list (which holds each buffer once) with reference
count at least 1, `brelse` lowers the count by exactly 1; when the result is 0 the buffer
becomes the first element of the list, otherwise the list is unchanged; in both cases the
other buffers keep their relative order, the list is a permutation of the former list and
still holds each buffer once, no buffer's device, block number, flags or payload changes,
no other buffer changes at all, and the disk and the log are unchanged. -/
theorem brelse_spec (s : State) (i : Nat) (hi : i ∈ s.bcache.order)
    (hnd : s.bcache.order.Nodup)
    (h1 : 1 ≤ (s.bcache.buf i).refcnt) (hu : (s.bcache.buf i).refcnt < 4294967296) :
    ((brelse s (.slot i)).bcache.buf i).refcnt + 1 = (s.bcache.buf i).refcnt ∧
    (((brelse s (.slot i)).bcache.buf i).refcnt = 0 →
      (brelse s (.slot i)).bcache.order = i :: s.bcache.order.erase i) ∧
    (((brelse s (.slot i)).bcache.buf i).refcnt ≠ 0 →
      (brelse s (.slot i)).bcache.order = s.bcache.order) ∧
    (brelse s (.slot i)).bcache.order.filter (fun j => j != i) =
      s.bcache.order.filter (fun j => j != i) ∧
    (brelse s (.slot i)).bcache.order.Perm s.bcache.order ∧
    (brelse s (.slot i)).bcache.order.Nodup ∧
    (∀ q, ((brelse s (.slot i)).getBuf q).dev = (s.getBuf q).dev ∧
      ((brelse s (.slot i)).getBuf q).blockno = (s.getBuf q).blockno ∧
      ((brelse s (.slot i)).getBuf q).valid = (s.getBuf q).valid ∧
      ((brelse s (.slot i)).getBuf q).dirty = (s.getBuf q).dirty ∧
      ((brelse s (.slot i)).getBuf q).old = (s.getBuf q).old ∧
      ((brelse s (.slot i)).getBuf q).data = (s.getBuf q).data) ∧
    (∀ q, q ≠ .slot i → (brelse s (.slot i)).getBuf q = s.getBuf q) ∧
    (brelse s (.slot i)).disk = s.disk ∧ (brelse s (.slot i)).log = s.log := by
  have hdec := refDec_pos h1 hu
  have hbuf : (brelse s (.slot i)).bcache.buf i =
      (s.bcache.buf i).setRefcnt (refDec (s.bcache.buf i).refcnt) := by
    have := brelse_getBuf s (.slot i) (.slot i)
    rw [if_pos rfl, getBuf_slot, getBuf_slot] at this
    exact this
  have hord : (brelse s (.slot i)).bcache.order =
      if refDec (s.bcache.buf i).refcnt = 0 then i :: s.bcache.order.erase i
      else s.bcache.order := by
    unfold brelse
    by_cases hz : refDec (s.getBuf (.slot i)).refcnt = 0
    · rw [if_pos hz, relink_slot_order, modBuf_order]
      rw [getBuf_slot] at hz
      rw [if_pos hz]
    · rw [if_neg hz, modBuf_order]
      rw [getBuf_slot] at hz
      rw [if_neg hz]
  have hfilter := filter_relink i hnd
  refine ⟨by rw [hbuf, setRefcnt_refcnt]; exact hdec, ?_, ?_, ?_, ?_, ?_, ?_, ?_, brelse_disk _ _,
    brelse_log _ _⟩
  · intro h0
    rw [hbuf, setRefcnt_refcnt] at h0
    rw [hord, if_pos h0]
  · intro h0
    rw [hbuf, setRefcnt_refcnt] at h0
    rw [hord, if_neg h0]
  · rw [hord]
    split
    · exact hfilter
    · rfl
  · rw [hord]
    split
    · exact (List.perm_cons_erase hi).symm
    · exact List.Perm.refl _
  · rw [hord]
    split
    · exact nodup_relink hnd
    · exact hnd
  · intro q
    rw [brelse_getBuf]
    by_cases hq : q = .slot i
    · subst hq
      rw [if_pos rfl]
      exact ⟨setRefcnt_dev _ _, setRefcnt_blockno _ _, setRefcnt_valid _ _,
        setRefcnt_dirty _ _, setRefcnt_old _ _, setRefcnt_data _ _⟩
    · rw [if_neg hq]
      exact ⟨rfl, rfl, rfl, rfl, rfl, rfl⟩
  · intro q hq
    rw [brelse_getBuf, if_neg hq]

set_option maxRecDepth 100000 in
/-- C12 at a concrete state: after `exLoggedOnce` the caller still holds slot 1 with
reference count 1; releasing it makes it the first buffer of the list. -/
theorem brelse_spec_witness :
    ((brelse exLoggedOnce.state (.slot 1)).bcache.buf 1).refcnt + 1 =
      (exLoggedOnce.state.bcache.buf 1).refcnt ∧
    (brelse exLoggedOnce.state (.slot 1)).bcache.order =
      1 :: exLoggedOnce.state.bcache.order.erase 1 :=
  ⟨(brelse_spec exLoggedOnce.state 1 (by decide) (by decide) (by decide) (by decide)).1,
   (brelse_spec exLoggedOnce.state 1 (by decide) (by decide) (by decide) (by decide)).2.1
     (by decide)⟩

/-- C13. Commit only if `n > 0`. With the in-memory count `n = 0`, `end_op` returns in the
state it was called in, whatever the fault flags: disk, buffers, recency list and log
header are unchanged and no fault point fires. -/
theorem end_op_empty (f : FaultFlags) (s : State) (hn : s.log.n = 0) :
    end_op f s = .ok () s := by
  unfold end_op commit
  rw [if_neg (by rw [hn]; exact Nat.lt_irrefl 0)]

/-- C13 at a concrete state: the fresh cache with an empty log, every fault flag set. -/
theorem end_op_empty_witness :
    end_op { PANIC_1 := true, PANIC_2 := true, PANIC_3 := true, PANIC_4 := true,
             LOG_FLAG := 5 } exFresh = .ok () exFresh :=
  end_op_empty _ exFresh (by rfl)

/-! ## Log bounds -/

theorem bread_log {s s' : State} {dev blockno : Nat} {p : BufPtr}
    (h : bread s dev blockno = .ok p s') : s'.log = s.log := by
  unfold bread at h
  obtain ⟨b, s1, h1, h2⟩ := bind_eq_ok h
  obtain ⟨_, hl, _⟩ := bget_frame h1
  split at h2
  · injection h2 with _ hs
    subst hs
    exact hl
  · injection h2 with _ hs
    subst hs
    rw [iderw_log, hl]

theorem setData_log (s : State) (p : BufPtr) (d : Data) : (setData s p d).log = s.log := rfl

theorem log_write_copy_log {s s' : State} {i : Nat} {b : BufPtr}
    (h : log_write_copy s i b = .ok () s') : s'.log = s.log := by
  unfold log_write_copy at h
  obtain ⟨tobuf, s1, h1, h2⟩ := bind_eq_ok h
  simp only at h2
  injection h2 with _ hs
  subst hs
  rw [modBuf_log, brelse_log, brelse_log, modBuf_log, bwrite_log, setData_log,
    bread_log h1]

theorem write_head_log {s s' : State} (h : write_head s = .ok () s') : s'.log = s.log := by
  unfold write_head at h
  obtain ⟨buf, s1, h1, h2⟩ := bind_eq_ok h
  have hs := (Res.ok.inj h2).2
  subst hs
  rw [brelse_log, bwrite_log, setData_log, bread_log h1]

theorem install_trans_loop_log (f : FaultFlags) (fuel : Nat) {tail : Nat} {s s' : State}
    (h : install_trans_loop f fuel tail s = .ok () s') : s'.log = s.log := by
  induction fuel generalizing tail s with
  | zero =>
    unfold install_trans_loop at h
    injection h with _ hs
    subst hs
    rfl
  | succ k ih =>
    unfold install_trans_loop at h
    split_ifs at h
    rw [ih h, bwrite_log]

/-- `commit`, when it returns: with `n = 0` the state is unchanged, with `n > 0` the
in-memory header differs from the former one in `n = 0` only. -/
theorem commit_log {f : FaultFlags} {s s' : State} (h : commit f s = .ok () s') :
    s'.log.n = 0 ∧ s'.log.start = s.log.start ∧ s'.log.size = s.log.size ∧
    s'.log.dev = s.log.dev ∧ s'.log.block = s.log.block := by
  unfold commit at h
  by_cases hn : s.log.n > 0
  · rw [if_pos hn] at h
    by_cases p1 : f.PANIC_1 = true
    · rw [if_pos p1] at h
      exact Res.noConfusion h
    rw [if_neg p1] at h
    obtain ⟨_, s1, e1, h⟩ := bind_eq_ok h
    by_cases p2 : f.PANIC_2 = true
    · rw [if_pos p2] at h
      exact Res.noConfusion h
    rw [if_neg p2] at h
    obtain ⟨_, s2, e2, h⟩ := bind_eq_ok h
    by_cases p3 : f.PANIC_3 = true
    · rw [if_pos p3] at h
      exact Res.noConfusion h
    rw [if_neg p3] at h
    obtain ⟨_, s3, e3, h⟩ := bind_eq_ok h
    by_cases p4 : f.PANIC_4 = true
    · rw [if_pos p4] at h
      exact Res.noConfusion h
    rw [if_neg p4] at h
    injection h with _ hs
    subst hs
    have l1 := write_head_log e1
    have l2 : s2.log = s1.log := install_trans_loop_log f _ e2
    have l3 := write_head_log e3
    rw [l3]
    refine ⟨rfl, ?_, ?_, ?_, ?_⟩
    · show s2.log.start = _
      rw [l2, l1]
    · show s2.log.size = _
      rw [l2, l1]
    · show s2.log.dev = _
      rw [l2, l1]
    · show s2.log.block = _
      rw [l2, l1]
  · rw [if_neg hn] at h
    injection h with _ hs
    subst hs
    exact ⟨by omega, rfl, rfl, rfl, rfl⟩

/-- The absorption search returns the least index in range that holds `blockno`, or the
end of the range when there is none. -/
theorem absorb_index_spec (block : Nat → Nat) (blockno : Nat) (fuel k : Nat) :
    (k ≤ absorb_index block blockno fuel k ∧ absorb_index block blockno fuel k < k + fuel ∧
      block (absorb_index block blockno fuel k) = blockno) ∨
    (absorb_index block blockno fuel k = k + fuel ∧
      ∀ j, k ≤ j → j < k + fuel → block j ≠ blockno) := by
  induction fuel generalizing k with
  | zero =>
    right
    exact ⟨rfl, fun j h1 h2 => by omega⟩
  | succ m ih =>
    unfold absorb_index
    by_cases hb : block k = blockno
    · rw [if_pos hb]
      left
      exact ⟨le_refl _, by omega, hb⟩
    · rw [if_neg hb]
      rcases ih (k + 1) with ⟨h1, h2, h3⟩ | ⟨h1, h2⟩
      · left
        exact ⟨by omega, by omega, h3⟩
      · right
        refine ⟨by omega, fun j hj1 hj2 => ?_⟩
        by_cases hjk : j = k
        · rw [hjk]
          exact hb
        · exact h2 j (by omega) (by omega)

/-- C18. Log bounds. The bounds `n <= LOGSIZE` and (`n <= size - 1` or `n = 0`) and the
pairwise distinctness of `block[0..n)` hold in every log with `n = 0`, and they are
preserved by every `log_write` and every `end_op` that returns. A `log_write` that returns
used an index `i < LOGSIZE` for `block[i]`, stored the block number of its buffer there and
left the other entries alone, and the log data block `start + 1 + i` lies in
`start + 1 .. start + size - 1`; when DIRTY implies VALID in the cache and the buffer is
VALID, that block is the only one it wrote. -/
theorem log_bounds_invariant :
    (∀ lg : Log, lg.n = 0 → LogBounds lg ∧ LogDistinct lg) ∧
    (∀ (s s' : State) (b : BufPtr), LogBounds s.log → LogDistinct s.log →
      log_write s b = .ok () s' →
      LogBounds s'.log ∧ LogDistinct s'.log ∧
      absorb_index s.log.block (s.getBuf b).blockno s.log.n 0 < LOGSIZE ∧
      s'.log.block (absorb_index s.log.block (s.getBuf b).blockno s.log.n 0) =
        (s.getBuf b).blockno ∧
      (∀ j, j ≠ absorb_index s.log.block (s.getBuf b).blockno s.log.n 0 →
        s'.log.block j = s.log.block j) ∧
      s.log.start + 1 ≤
        s.log.start + 1 + absorb_index s.log.block (s.getBuf b).blockno s.log.n 0 ∧
      s.log.start + 1 + absorb_index s.log.block (s.getBuf b).blockno s.log.n 0 ≤
        s.log.start + s.log.size - 1 ∧
      (Jinv s → (s.getBuf b).valid = true → ∃ D, s'.disk = writeDisk s.disk s.log.dev
        (s.log.start + 1 + absorb_index s.log.block (s.getBuf b).blockno s.log.n 0) D)) ∧
    (∀ (f : FaultFlags) (s s' : State), LogBounds s.log → LogDistinct s.log →
      end_op f s = .ok () s' → LogBounds s'.log ∧ LogDistinct s'.log) := by
  have hL : LOGSIZE = 30 := by decide
  refine ⟨fun lg hn => ⟨⟨by rw [hn]; exact Nat.zero_le _, Or.inl hn⟩,
    fun i hi => by omega⟩, ?_, ?_⟩
  · intro s s' b _ hD h
    by_cases hg : s.log.n ≥ LOGSIZE ∨ (s.log.n : Int) ≥ (s.log.size : Int) - 1
    · unfold log_write at h
      rw [if_pos hg] at h
      exact Res.noConfusion h
    generalize hi : absorb_index s.log.block (s.getBuf b).blockno s.log.n 0 = i
    rw [log_write_eq s b i hg hi] at h
    have hlog := log_write_copy_log h
    have hle := absorb_index_le s.log.block (s.getBuf b).blockno s.log.n 0
    rw [hi] at hle
    have hspec := absorb_index_spec s.log.block (s.getBuf b).blockno s.log.n 0
    rw [hi] at hspec
    have hn' : s'.log.n = if i = s.log.n then s.log.n + 1 else s.log.n := by
      rw [hlog]
      rfl
    have hb' : ∀ j, s'.log.block j = if j = i then (s.getBuf b).blockno else s.log.block j := by
      intro j
      rw [hlog]
      rfl
    have hst : s'.log.size = s.log.size := by
      rw [hlog]
      rfl
    refine ⟨⟨?_, ?_⟩, ?_, by omega, ?_, ?_, by omega, by omega, ?_⟩
    · rw [hn']
      split <;> omega
    · right
      rw [hn', hst]
      split <;> omega
    · intro x hx y hy hxy
      rw [hb' x, hb' y] at hxy
      rw [hn'] at hx hy
      rcases hspec with ⟨_, h2, h3⟩ | ⟨h1, h2⟩
      · rw [if_neg (by omega)] at hx hy
        have hx' : (if x = i then (s.getBuf b).blockno else s.log.block x) = s.log.block x := by
          split
          · next hxi => rw [hxi, h3]
          · rfl
        have hy' : (if y = i then (s.getBuf b).blockno else s.log.block y) = s.log.block y := by
          split
          · next hyi => rw [hyi, h3]
          · rfl
        rw [hx', hy'] at hxy
        exact hD x hx y hy hxy
      · rw [if_pos (by omega)] at hx hy
        by_cases hxi : x = i
        · by_cases hyi : y = i
          · rw [hxi, hyi]
          · rw [if_pos hxi, if_neg hyi] at hxy
            exact absurd hxy.symm (h2 y (Nat.zero_le _) (by omega))
        · by_cases hyi : y = i
          · rw [if_neg hxi, if_pos hyi] at hxy
            exact absurd hxy (h2 x (Nat.zero_le _) (by omega))
          · rw [if_neg hxi, if_neg hyi] at hxy
            exact hD x (by omega) y (by omega) hxy
    · rw [hb' i, if_pos rfl]
    · intro j hj
      rw [hb' j, if_neg hj]
    · intro hJ hv
      obtain ⟨_, _, D, hd⟩ := log_write_copy_frame h hJ hv
      refine ⟨D, ?_⟩
      rw [hd, show s.log.start + 1 + i = s.log.start + i + 1 by omega]
      rfl
  · intro f s s' _ _ h
    obtain ⟨h0, _, _, _, _⟩ := commit_log h
    exact ⟨⟨by rw [h0]; exact Nat.zero_le _, Or.inl h0⟩, fun i hi => by omega⟩

set_option maxRecDepth 100000 in
/-- C18 at a concrete call: the first `log_write` after boot, on the buffer of block 5. -/
theorem log_bounds_invariant_witness :
    LogBounds exLoggedOnce.state.log ∧ LogDistinct exLoggedOnce.state.log ∧
    exLoggedOnce.state.log.n = 1 :=
  ⟨(log_bounds_invariant.2.1 (setData exFirstDup.state (.slot 1) (pay 7))
      exLoggedOnce.state (.slot 1)
      (log_bounds_invariant.1 _ (by rfl)).1 (log_bounds_invariant.1 _ (by rfl)).2
      (by rfl)).1,
   (log_bounds_invariant.2.1 (setData exFirstDup.state (.slot 1) (pay 7))
      exLoggedOnce.state (.slot 1)
      (log_bounds_invariant.1 _ (by rfl)).1 (log_bounds_invariant.1 _ (by rfl)).2
      (by rfl)).2.1,
   by decide⟩

/-! ## Recovery run twice -/

/-- The undo loop writes home blocks of its entries only. -/
theorem undo_disk_other (lg : Log) (fuel tail : Nat) (disk : Disk) (d k : Nat)
    (h : ¬ (d = lg.dev ∧ ∃ i, tail ≤ i ∧ i < tail + fuel ∧ k = lg.block i)) :
    undo_disk lg fuel tail disk d k = disk d k := by
  induction fuel generalizing tail disk with
  | zero => rfl
  | succ m ih =>
    unfold undo_disk
    rw [ih (tail + 1), writeDisk_other]
    · rintro ⟨hd, hk⟩
      exact h ⟨hd, tail, le_refl _, by omega, hk⟩
    · rintro ⟨hd, i, h1, h2, h3⟩
      exact h ⟨hd, i, by omega, by omega, h3⟩

/-- The undo loop reads the log through `dev`, `start` and the entries in range only. -/
theorem undo_disk_log_congr (lg lg' : Log) (fuel tail : Nat) (disk : Disk)
    (hdev : lg'.dev = lg.dev) (hstart : lg'.start = lg.start)
    (hb : ∀ i, tail ≤ i → i < tail + fuel → lg'.block i = lg.block i) :
    undo_disk lg' fuel tail disk = undo_disk lg fuel tail disk := by
  induction fuel generalizing tail disk with
  | zero => rfl
  | succ m ih =>
    unfold undo_disk
    rw [hdev, hstart, hb tail (le_refl _) (by omega)]
    exact ih (tail + 1) _ (fun i h1 h2 => hb i (by omega) (by omega))

/-- Two disks that differ at most in home blocks of the entries in range come out equal,
provided no log data block in range is such a home block. -/
theorem undo_disk_congr (lg : Log) (fuel tail : Nat) (e1 e2 : Disk)
    (hlog : ∀ i, tail ≤ i → i < tail + fuel → ∀ j, tail ≤ j → j < tail + fuel →
      lg.block i ≠ lg.start + j + 1)
    (h : ∀ d k, ¬ (d = lg.dev ∧ ∃ i, tail ≤ i ∧ i < tail + fuel ∧ k = lg.block i) →
      e1 d k = e2 d k) :
    undo_disk lg fuel tail e1 = undo_disk lg fuel tail e2 := by
  induction fuel generalizing tail e1 e2 with
  | zero =>
    funext d k
    exact h d k (fun ⟨_, i, h1, h2, _⟩ => by omega)
  | succ m ih =>
    unfold undo_disk
    apply ih (tail + 1)
    · exact fun i h1 h2 j h3 h4 => hlog i (by omega) (by omega) j (by omega) (by omega)
    · intro d k hk
      have hsrc : e1 lg.dev (lg.start + tail + 1) = e2 lg.dev (lg.start + tail + 1) :=
        h _ _ (fun ⟨_, i, h1, h2, h3⟩ =>
          hlog i h1 h2 tail (le_refl _) (by omega) h3.symm)
      by_cases hc : d = lg.dev ∧ k = lg.block tail
      · obtain ⟨hd, hk'⟩ := hc
        subst hd; subst hk'
        rw [writeDisk_same, writeDisk_same, hsrc]
      · rw [writeDisk_other _ _ _ _ _ _ hc, writeDisk_other _ _ _ _ _ _ hc]
        apply h
        rintro ⟨hd, i, h1, h2, h3⟩
        by_cases hi : i = tail
        · exact hc ⟨hd, by rw [h3, hi]⟩
        · exact hk ⟨hd, i, by omega, by omega, h3⟩

/-- The undo loop run a second time on its own result changes nothing, provided no log
data block in range is a home block of an entry in range. -/
theorem undo_disk_idem (lg : Log) (fuel tail : Nat) (disk : Disk)
    (hlog : ∀ i, tail ≤ i → i < tail + fuel → ∀ j, tail ≤ j → j < tail + fuel →
      lg.block i ≠ lg.start + j + 1) :
    undo_disk lg fuel tail (undo_disk lg fuel tail disk) = undo_disk lg fuel tail disk := by
  induction fuel generalizing tail disk with
  | zero => rfl
  | succ m ih =>
    have hlog' : ∀ i, tail + 1 ≤ i → i < tail + 1 + m → ∀ j, tail + 1 ≤ j →
        j < tail + 1 + m → lg.block i ≠ lg.start + j + 1 :=
      fun i h1 h2 j h3 h4 => hlog i (by omega) (by omega) j (by omega) (by omega)
    have hstep : undo_disk lg (m + 1) tail disk = undo_disk lg m (tail + 1)
        (writeDisk disk lg.dev (lg.block tail) (disk lg.dev (lg.start + tail + 1))) := rfl
    rw [hstep]
    generalize hF : undo_disk lg m (tail + 1)
        (writeDisk disk lg.dev (lg.block tail) (disk lg.dev (lg.start + tail + 1))) = F
    have hFsrc : F lg.dev (lg.start + tail + 1) = disk lg.dev (lg.start + tail + 1) := by
      rw [← hF, undo_disk_other, writeDisk_other]
      · rintro ⟨_, hk⟩
        exact hlog tail (le_refl _) (by omega) tail (le_refl _) (by omega) hk.symm
      · rintro ⟨_, i, h1, h2, h3⟩
        exact hlog i (by omega) (by omega) tail (le_refl _) (by omega) h3.symm
    have hidem : undo_disk lg m (tail + 1) F = F := by
      rw [← hF]
      exact ih (tail + 1) _ hlog'
    show undo_disk lg m (tail + 1)
      (writeDisk F lg.dev (lg.block tail) (F lg.dev (lg.start + tail + 1))) = F
    rw [undo_disk_congr lg m (tail + 1) _ F hlog', hidem]
    intro d k hk
    by_cases hc : d = lg.dev ∧ k = lg.block tail
    · obtain ⟨hd, hk'⟩ := hc
      subst hd; subst hk'
      rw [writeDisk_same, hFsrc, ← hF, undo_disk_other _ _ _ _ _ _ hk, writeDisk_same]
    · rw [writeDisk_other _ _ _ _ _ _ hc]

/-- C19 (amended). Recovery is idempotent. For every disk whose header has `n = k` with
`k <= LOGSIZE` and `k <= size - 1`, and whose logged home blocks lie outside the log region:
recovery (fresh `binit`, then `initlog`) returns, recovery on the resulting disk returns,
and the second run leaves the disk as the first run left it. -/
theorem recovery_idempotent (disk : Disk) (dev : Nat) (sb : Superblock)
    (_hk : hdr_n (disk dev sb.logstart) ≤ LOGSIZE)
    (hsize : hdr_n (disk dev sb.logstart) + 1 ≤ sb.nlog)
    (hout : ∀ i, i < hdr_n (disk dev sb.logstart) →
      ¬ (sb.logstart ≤ hdr_block (disk dev sb.logstart) i ∧
        hdr_block (disk dev sb.logstart) i < sb.logstart + sb.nlog)) :
    ∃ s1 s2, boot disk dev sb = .ok () s1 ∧ boot s1.disk dev sb = .ok () s2 ∧
      s2.disk = s1.disk := by
  obtain ⟨s1, e1, hs1, hd1, hn1, hb1, hdisk1⟩ := boot_spec disk dev sb
    (fun i hi hc => hout i hi ⟨by omega, by omega⟩)
  have hhdr : s1.disk dev sb.logstart = disk dev sb.logstart := by
    rw [hdisk1, undo_disk_other]
    rintro ⟨_, i, _, hi, hk⟩
    rw [Nat.zero_add, hn1] at hi
    apply hout i hi
    rw [← hb1 i (by rw [hn1]; exact hi), ← hk]
    exact ⟨le_refl _, by omega⟩
  obtain ⟨s2, e2, hs2, hd2, hn2, hb2, hdisk2⟩ := boot_spec s1.disk dev sb
    (fun i hi hc => by
      rw [hhdr] at hi hc
      exact hout i hi ⟨by omega, by omega⟩)
  rw [hhdr] at hn2 hb2
  refine ⟨s1, s2, e1, e2, ?_⟩
  have hlogeq : undo_disk s2.log s2.log.n 0 s1.disk = undo_disk s1.log s2.log.n 0 s1.disk :=
    undo_disk_log_congr s1.log s2.log _ 0 _ (by rw [hd2, hd1]) (by rw [hs2, hs1])
      (fun i _ hi => by
        rw [Nat.zero_add] at hi
        rw [hb2 i hi, hb1 i (by rw [hn1, ← hn2]; exact hi)])
  rw [hdisk2, hlogeq, hn2, ← hn1, hdisk1]
  apply undo_disk_idem
  intro i _ hi j _ hj hc
  rw [Nat.zero_add, hn1] at hi hj
  apply hout i hi
  rw [← hb1 i (by rw [hn1]; exact hi), hc, hs1]
  exact ⟨by omega, by omega⟩

set_option maxRecDepth 100000 in
/-- C19 at a concrete disk: the header of `exDiskUndo` records the home blocks 5 and 7 and
the log region is `10 .. 49`. -/
theorem recovery_idempotent_witness :
    ∃ s1 s2, boot exDiskUndo 1 exSb = .ok () s1 ∧ boot s1.disk 1 exSb = .ok () s2 ∧
      s2.disk = s1.disk :=
  recovery_idempotent exDiskUndo 1 exSb (by decide) (by decide) (by decide)

/-! ## One working copy per block: the invariant `Coh` -/

/-- Two VALID buffers not tagged OLD of the same device and block are the same buffer. -/
theorem Coh_unique {c : Bcache} (hc : Coh c) {i j : Nat} (hi : i ∈ c.order)
    (hj : j ∈ c.order) (hvi : (c.buf i).valid = true) (hoi : (c.buf i).old = false)
    (hvj : (c.buf j).valid = true) (hoj : (c.buf j).old = false)
    (hd : (c.buf i).dev = (c.buf j).dev) (hb : (c.buf i).blockno = (c.buf j).blockno) :
    i = j := by
  have h1 := hc i hi hvi hoi
  have h2 := hc j hj hvj hoj
  rw [hd, hb, h2] at h1
  exact (Option.some.inj h1).symm

/-- The first buffer of a block on the list, when it is not tagged OLD, is the first buffer
of the block not tagged OLD. -/
theorem first_new_of_first {c : Bcache} {d k a : Nat}
    (h : c.order.find? (matches_ c d k) = some a) (ho : (c.buf a).old = false) :
    c.order.find? (matchesNew c d k) = some a := by
  have hm := (matches_iff c d k a).1 (List.find?_some h)
  apply find?_mono h ((matchesNew_iff c d k a).2 ⟨hm.1, hm.2, ho⟩)
  intro x _ hx
  have := (matchesNew_iff c d k x).1 hx
  exact (matches_iff c d k x).2 ⟨this.1, this.2.1⟩

/-- No buffer of a block on the list: no buffer of the block not tagged OLD either. -/
theorem no_new_of_none {c : Bcache} {d k : Nat}
    (h : c.order.find? (matches_ c d k) = none) :
    c.order.find? (matchesNew c d k) = none := by
  rw [List.find?_eq_none] at h ⊢
  intro x hx hc
  have := (matchesNew_iff c d k x).1 hc
  exact h x hx ((matches_iff c d k x).2 ⟨this.1, this.2.1⟩)

/-- A quiet step keeps `Coh`. -/
theorem Coh_quiet {s s' : State} (q : Quiet s s') (hc : Coh s.bcache) : Coh s'.bcache := by
  intro i hi hv ho
  rw [q.order] at hi ⊢
  rw [q.valid] at hv
  rw [q.old] at ho
  rw [q.dev, q.blockno,
    @matchesNew_congr s.bcache s'.bcache (fun j => ⟨q.dev j, q.blockno j, q.old j⟩)]
  exact hc i hi hv ho

/-- An acquisition keeps `Coh`. The list is unchanged; the slots in `Z` end tagged OLD;
slot `a`, when not in `Z`, ends with the requested device and block and, when it ends not
tagged OLD, was the first buffer not tagged OLD of that block or there was none; every
other slot is unchanged. -/
theorem Coh_acquire {c c' : Bcache} (dev blk a : Nat) (Z : Nat → Prop)
    (ho : c'.order = c.order) (ha : a ∈ c.order)
    (hZ : ∀ x, Z x → (c'.buf x).old = true)
    (hsame : ∀ x, x ≠ a → ¬ Z x → c'.buf x = c.buf x)
    (hident : ¬ Z a → (c'.buf a).dev = dev ∧ (c'.buf a).blockno = blk)
    (hfirst : ¬ Z a → (c'.buf a).old = false →
      c.order.find? (matchesNew c dev blk) = some a ∨
      c.order.find? (matchesNew c dev blk) = none)
    (hc : Coh c) : Coh c' := by
  have hnotZ : ∀ d k x, matchesNew c' d k x = true → ¬ Z x := fun d k x hx hz => by
    have := hZ x hz
    rw [((matchesNew_iff _ _ _ _).1 hx).2.2] at this
    exact Bool.noConfusion this
  intro i hi hv hold
  rw [ho] at hi ⊢
  have hiZ : ¬ Z i := fun hz => by
    rw [hZ i hz] at hold
    exact Bool.noConfusion hold
  by_cases hia : i = a
  · subst hia
    obtain ⟨hd, hb⟩ := hident hiZ
    rw [hd, hb]
    have hpa : matchesNew c' dev blk i = true := (matchesNew_iff _ _ _ _).2 ⟨hd, hb, hold⟩
    rcases hfirst hiZ hold with hf | hf
    · apply find?_mono hf hpa
      intro x _ hx
      by_cases hxi : x = i
      · rw [hxi]
        exact List.find?_some hf
      · have hxZ : ¬ Z x := hnotZ _ _ x hx
        have hb' := hsame x hxi hxZ
        rw [matchesNew_iff, hb'] at hx
        exact (matchesNew_iff _ _ _ _).2 hx
    · apply find?_unique ha hpa
      intro x hxm hx
      by_contra hxi
      have hxZ : ¬ Z x := hnotZ _ _ x hx
      have hb' := hsame x hxi hxZ
      rw [matchesNew_iff, hb'] at hx
      rw [List.find?_eq_none] at hf
      exact hf x hxm ((matchesNew_iff _ _ _ _).2 hx)
  · have hbi := hsame i hia hiZ
    rw [hbi] at hv hold ⊢
    have hci := hc i hi hv hold
    apply find?_mono hci
    · rw [matchesNew_iff, hbi]
      exact ⟨rfl, rfl, hold⟩
    · intro x _ hx
      have hxZ : ¬ Z x := hnotZ _ _ x hx
      by_cases hxa : x = a
      · exfalso
        rw [hxa] at hx hxZ
        obtain ⟨hd, hb⟩ := hident hxZ
        obtain ⟨h1, h2, h3⟩ := (matchesNew_iff _ _ _ _).1 hx
        rw [hd] at h1
        rw [hb] at h2
        rw [← h1, ← h2] at hci
        rcases hfirst hxZ h3 with hf | hf
        · rw [hf] at hci
          exact hia (Option.some.inj hci).symm
        · rw [hf] at hci
          exact Option.noConfusion hci
      · have hb' := hsame x hxa hxZ
        rw [matchesNew_iff, hb'] at hx
        exact (matchesNew_iff _ _ _ _).2 hx

/-- Moving to the front a buffer that is VALID or tagged OLD keeps `Coh`. -/
theorem Coh_relink {c : Bcache} {j : Nat} (hj : j ∈ c.order)
    (hvo : (c.buf j).valid = true ∨ (c.buf j).old = true) (hc : Coh c) :
    Coh (relink c (.slot j)) := by
  intro i hi hv hold
  change i ∈ j :: c.order.erase j at hi
  change (c.buf i).valid = true at hv
  change (c.buf i).old = false at hold
  change (j :: c.order.erase j).find? (matchesNew (relink c (.slot j)) (c.buf i).dev
    (c.buf i).blockno) = some i
  have hcong : matchesNew (relink c (.slot j)) (c.buf i).dev (c.buf i).blockno =
      matchesNew c (c.buf i).dev (c.buf i).blockno :=
    matchesNew_congr (fun _ => ⟨rfl, rfl, rfl⟩) _ _
  rw [hcong]
  have hi' : i ∈ c.order := (mem_relink hj).1 hi
  by_cases hij : i = j
  · subst hij
    exact find?_relink_self _ ((matchesNew_iff _ _ _ _).2 ⟨rfl, rfl, hold⟩)
  · apply find?_relink_ne (hc i hi' hv hold) hij
    by_contra hm
    have hm' : matchesNew c (c.buf i).dev (c.buf i).blockno j = true := by
      cases h : matchesNew c (c.buf i).dev (c.buf i).blockno j
      · exact absurd h hm
      · rfl
    obtain ⟨h1, h2, h3⟩ := (matchesNew_iff _ _ _ _).1 hm'
    have hvj : (c.buf j).valid = true := by
      rcases hvo with h | h
      · exact h
      · rw [h3] at h
        exact Bool.noConfusion h
    exact hij (Coh_unique hc hi' hj hv hold hvj h3 h1.symm h2.symm)

/-- A Nodup list whose members are all equal has at most one member. -/
theorem length_le_one_of_all_eq {l : List Nat} (hn : l.Nodup)
    (h : ∀ a ∈ l, ∀ b ∈ l, a = b) : l.length ≤ 1 := by
  match l, hn, h with
  | [], _, _ => exact Nat.zero_le _
  | [_], _, _ => exact le_refl _
  | a :: b :: t, hn, h =>
    have hab : a = b := h a (List.mem_cons_self _ _) b
      (List.mem_cons_of_mem _ (List.mem_cons_self _ _))
    rw [List.nodup_cons] at hn
    exact absurd (hab ▸ List.mem_cons_self _ _) hn.1

theorem Quiet_refl (s : State) : Quiet s s :=
  ⟨rfl, fun _ => rfl, fun _ => rfl, fun _ => rfl, fun _ => rfl, rfl⟩

theorem Quiet_trans {s s1 s2 : State} (h1 : Quiet s s1) (h2 : Quiet s1 s2) : Quiet s s2 :=
  ⟨by rw [h2.order, h1.order], fun i => by rw [h2.dev, h1.dev],
    fun i => by rw [h2.blockno, h1.blockno], fun i => by rw [h2.old, h1.old],
    fun i => by rw [h2.valid, h1.valid], by rw [h2.head, h1.head]⟩

theorem Quiet_good {s s' : State} (q : Quiet s s') : Good s s' :=
  ⟨Coh_quiet q, fun h => by rw [q.order]; exact h, fun i => by rw [q.order],
    fun i h => by rw [q.valid]; exact h, q.head⟩

theorem Good_refl (s : State) : Good s s := Quiet_good (Quiet_refl s)

theorem Good_trans {s s1 s2 : State} (h1 : Good s s1) (h2 : Good s1 s2) : Good s s2 :=
  ⟨fun h => h2.coh (h1.coh h), fun h => h2.nodup (h1.nodup h),
    fun i => by rw [h2.mem, h1.mem], fun i h => h2.valid i (h1.valid i h),
    by rw [h2.head, h1.head]⟩

/-! ## One working copy per block: the steps of the cache -/

theorem slot_ne {x a : Nat} (h : x ≠ a) : BufPtr.slot x ≠ BufPtr.slot a :=
  fun hc => h (BufPtr.slot.inj hc)

/-- A change of one buffer that keeps its device, block number, OLD and VALID, and the
reference count of the sentinel, is quiet. -/
theorem Quiet_modBuf (s : State) (p : BufPtr) (f : Buf → Buf)
    (hd : ∀ b, (f b).dev = b.dev) (hb : ∀ b, (f b).blockno = b.blockno)
    (ho : ∀ b, (f b).old = b.old) (hv : ∀ b, (f b).valid = b.valid)
    (hr : p = .head → ∀ b, (f b).refcnt = b.refcnt) : Quiet s (s.modBuf p f) := by
  cases p with
  | slot i =>
    have hbuf : ∀ j, (s.modBuf (.slot i) f).bcache.buf j =
        if j = i then f (s.bcache.buf i) else s.bcache.buf j := fun j => rfl
    refine ⟨modBuf_order _ _ _, fun j => ?_, fun j => ?_, fun j => ?_, fun j => ?_, rfl⟩
    · rw [hbuf]
      split
      · next h => rw [hd, h]
      · rfl
    · rw [hbuf]
      split
      · next h => rw [hb, h]
      · rfl
    · rw [hbuf]
      split
      · next h => rw [ho, h]
      · rfl
    · rw [hbuf]
      split
      · next h => rw [hv, h]
      · rfl
  | head =>
    exact ⟨modBuf_order _ _ _, fun _ => rfl, fun _ => rfl, fun _ => rfl, fun _ => rfl,
      hr rfl _⟩

theorem Quiet_setData (s : State) (p : BufPtr) (d : Data) : Quiet s (setData s p d) :=
  Quiet_modBuf s p _ (fun _ => rfl) (fun _ => rfl) (fun _ => rfl) (fun _ => rfl)
    (fun _ _ => rfl)

theorem Quiet_setDirty (s : State) (p : BufPtr) (v : Bool) :
    Quiet s (s.modBuf p (fun b => b.setDirty v)) :=
  Quiet_modBuf s p _ (fun _ => rfl) (fun _ => rfl) (fun _ => rfl) (fun _ => rfl)
    (fun _ _ => rfl)

theorem Quiet_setLog (s : State) (lg : Log) : Quiet s (s.setLog lg) :=
  ⟨rfl, fun _ => rfl, fun _ => rfl, fun _ => rfl, fun _ => rfl, rfl⟩

/-- A change of the reference count of a slot is quiet. -/
theorem Quiet_setRefcnt (s : State) (i : Nat) (g : Nat → Nat) :
    Quiet s (s.modBuf (.slot i) (fun b => b.setRefcnt (g b.refcnt))) :=
  Quiet_modBuf s (.slot i) _ (fun _ => rfl) (fun _ => rfl) (fun _ => rfl) (fun _ => rfl)
    (fun h => BufPtr.noConfusion h)

/-- `iderw` on the sentinel, or on a slot that is VALID, is quiet. -/
theorem Quiet_iderw (s : State) (p : BufPtr)
    (hp : ∀ j, p = .slot j → (s.bcache.buf j).valid = true) : Quiet s (iderw s p) := by
  have hid := iderw_ident s p
  refine ⟨iderw_order s p, fun i => (hid (.slot i)).1, fun i => (hid (.slot i)).2.1,
    fun i => (hid (.slot i)).2.2.1, fun i => ?_, (hid .head).2.2.2⟩
  by_cases hi : p = .slot i
  · have hv := hp i hi
    have := iderw_valid_mono s p (.slot i) hv
    rw [getBuf_slot] at this
    rw [this, hv]
  · have := iderw_getBuf_ne s (p := p) (q := .slot i) (fun h => hi h.symm)
    rw [getBuf_slot, getBuf_slot] at this
    rw [this]

/-- `bwrite` on the sentinel, or on a slot that is VALID, is quiet. -/
theorem Quiet_bwrite (s : State) (p : BufPtr)
    (hp : ∀ j, p = .slot j → (s.bcache.buf j).valid = true) : Quiet s (bwrite s p) := by
  unfold bwrite
  apply Quiet_trans (Quiet_setDirty s p true)
  apply Quiet_iderw
  intro j hj
  rw [(Quiet_setDirty s p true).valid]
  exact hp j hj

/-- `bwrite` on a slot of the list that is tagged OLD, or VALID, or the first buffer not
tagged OLD of its block, keeps `Coh`. -/
theorem Good_bwrite (s : State) (j : Nat) (hj : j ∈ s.bcache.order)
    (hp : (s.bcache.buf j).old = false → (s.bcache.buf j).valid = true ∨
      s.bcache.order.find? (matchesNew s.bcache (s.bcache.buf j).dev (s.bcache.buf j).blockno) =
        some j) : Good s (bwrite s (.slot j)) := by
  have hsame : ∀ x, x ≠ j → (bwrite s (.slot j)).bcache.buf x = s.bcache.buf x := by
    intro x hx
    have := bwrite_getBuf_ne s (p := .slot j) (q := .slot x) (slot_ne hx)
    rw [getBuf_slot, getBuf_slot] at this
    exact this
  have hself : (bwrite s (.slot j)).bcache.buf j =
      ((s.bcache.buf j).setValid true).setDirty false := by
    have := bwrite_getBuf_same s (.slot j)
    rw [getBuf_slot, getBuf_slot] at this
    exact this
  have hhead : (bwrite s (.slot j)).bcache.head = s.bcache.head := by
    have := bwrite_getBuf_ne s (p := .slot j) (q := .head) (fun h => BufPtr.noConfusion h)
    rw [getBuf_head, getBuf_head] at this
    exact this
  refine ⟨fun hc => ?_, fun h => by rw [bwrite_order]; exact h,
    fun i => by rw [bwrite_order], fun i hv => ?_, by rw [hhead]⟩
  · apply Coh_acquire (s.bcache.buf j).dev (s.bcache.buf j).blockno j (fun _ => False) (bwrite_order s _) hj (fun _ h => h.elim)
      (fun x hx _ => hsame x hx) (fun _ => by rw [hself]; exact ⟨rfl, rfl⟩) ?_ hc
    intro _ hold
    rw [hself] at hold
    rcases hp hold with hv | hf
    · exact Or.inl (hc j hj hv hold)
    · exact Or.inl hf
  · by_cases hi : i = j
    · rw [hi, hself]
      rfl
    · rw [hsame i hi]
      exact hv

theorem relink_slot_head (s : State) (i : Nat) :
    (s.relink (.slot i)).bcache.head = s.bcache.head := rfl

/-- `brelse` of a slot of the list that is VALID or tagged OLD keeps `Coh`. -/
theorem Good_brelse (s : State) (j : Nat) (hj : j ∈ s.bcache.order)
    (hvo : (s.bcache.buf j).valid = true ∨ (s.bcache.buf j).old = true) :
    Good s (brelse s (.slot j)) := by
  have q := Quiet_setRefcnt s j refDec
  unfold brelse
  by_cases hz : refDec (s.getBuf (.slot j)).refcnt = 0
  · rw [if_pos hz]
    apply Good_trans (Quiet_good q)
    generalize s.modBuf (.slot j) (fun b => b.setRefcnt (refDec b.refcnt)) = sm at q
    have hjm : j ∈ sm.bcache.order := by rw [q.order]; exact hj
    refine ⟨fun hc => ?_, fun h => nodup_relink h, fun i => mem_relink hjm,
      fun i hv => hv, rfl⟩
    apply Coh_relink hjm _ hc
    rw [q.valid, q.old]
    exact hvo
  · rw [if_neg hz]
    exact Quiet_good q

/-- `brelse` leaves the list alone when the count does not reach zero. -/
theorem brelse_order_of_ne (s : State) (p : BufPtr)
    (hz : ¬ refDec (s.getBuf p).refcnt = 0) :
    (brelse s p).bcache.order = s.bcache.order := by
  unfold brelse
  rw [if_neg hz, modBuf_order]

/-- `brelse` of the sentinel while its reference count is not 1 changes that count
only. -/
theorem brelse_head (s : State) (h1 : s.bcache.head.refcnt ≠ 1)
    (hb : s.bcache.head.refcnt < 4294967296) :
    (brelse s .head).bcache.order = s.bcache.order ∧
    (∀ i, (brelse s .head).bcache.buf i = s.bcache.buf i) ∧
    (brelse s .head).bcache.head.refcnt = refDec s.bcache.head.refcnt := by
  have hz : ¬ refDec (s.getBuf .head).refcnt = 0 := by
    rw [getBuf_head]
    unfold refDec
    omega
  refine ⟨brelse_order_of_ne s .head hz, fun i => ?_, ?_⟩
  · have := brelse_getBuf s .head (.slot i)
    rw [if_neg (fun h => BufPtr.noConfusion h), getBuf_slot, getBuf_slot] at this
    exact this
  · have := brelse_getBuf s .head .head
    rw [if_pos rfl, getBuf_head, getBuf_head] at this
    rw [this, setRefcnt_refcnt]

/-- What a returning `bget` leaves: the buffer returned is a slot of the list with the
requested device and block; when it is not tagged OLD it was the first buffer of the block
not tagged OLD, or the block had no buffer; nothing else has changed. -/
theorem bget_shape {s s' : State} {dev blockno : Nat} {p : BufPtr}
    (h : bget s dev blockno = .ok p s') :
    ∃ a, p = .slot a ∧ a ∈ s.bcache.order ∧ s'.bcache.order = s.bcache.order ∧
      (∀ q, q ≠ .slot a → s'.getBuf q = s.getBuf q) ∧
      (s'.bcache.buf a).dev = dev ∧ (s'.bcache.buf a).blockno = blockno ∧
      ((s'.bcache.buf a).old = false →
        s.bcache.order.find? (matchesNew s.bcache dev blockno) = some a ∨
        s.bcache.order.find? (matchesNew s.bcache dev blockno) = none) := by
  rcases bget_cases s dev blockno with ⟨a, hf, ha, hm, he⟩ | ⟨hn, a, _, ha, _, he⟩ | ⟨_, _, he⟩
  · rw [he] at h
    injection h with hp hs
    subst hp; subst hs
    obtain ⟨hd, hb⟩ := (matches_iff _ _ _ _).1 hm
    refine ⟨a, rfl, ha, setBuf_order _ _ _, fun q hq => getBuf_setBuf_ne _ _ hq, ?_, ?_,
      ?_⟩
    · rw [setBuf_slot_buf, if_pos rfl, setRefcnt_dev]
      exact hd
    · rw [setBuf_slot_buf, if_pos rfl, setRefcnt_blockno]
      exact hb
    · intro ho
      rw [setBuf_slot_buf, if_pos rfl, setRefcnt_old] at ho
      exact Or.inl (first_new_of_first hf ho)
  · rw [he] at h
    injection h with hp hs
    subst hp; subst hs
    refine ⟨a, rfl, ha, setBuf_order _ _ _, fun q hq => getBuf_setBuf_ne _ _ hq, ?_, ?_,
      fun _ => Or.inr (no_new_of_none hn)⟩
    · rw [setBuf_slot_buf, if_pos rfl]
      rfl
    · rw [setBuf_slot_buf, if_pos rfl]
      rfl
  · rw [he] at h
    exact Res.noConfusion h

/-! ## One working copy per block: `bread` and `bread_wr` -/

/-- `bread`, when it returns, is a good step, and the buffer it returns is a VALID slot of
the list. -/
theorem bread_good {s s' : State} {dev blockno : Nat} {p : BufPtr}
    (h : bread s dev blockno = .ok p s') :
    Good s s' ∧ ∃ a, p = .slot a ∧ a ∈ s.bcache.order ∧ (s'.bcache.buf a).valid = true := by
  unfold bread at h
  obtain ⟨b, s1, h1, h2⟩ := bind_eq_ok h
  obtain ⟨a, hp, ha, ho, hne, hd, hb, hfirst⟩ := bget_shape h1
  subst hp
  have key : s'.bcache.order = s.bcache.order ∧
      (∀ q, q ≠ .slot a → s'.getBuf q = s.getBuf q) ∧
      (s'.bcache.buf a).dev = dev ∧ (s'.bcache.buf a).blockno = blockno ∧
      (s'.bcache.buf a).old = (s1.bcache.buf a).old ∧ (s'.bcache.buf a).valid = true ∧
      p = .slot a := by
    split at h2
    · next hv =>
      have hs := (Res.ok.inj h2).2
      have hp := (Res.ok.inj h2).1
      subst hs
      exact ⟨ho, hne, hd, hb, rfl, hv, hp.symm⟩
    · have hs := (Res.ok.inj h2).2
      have hp := (Res.ok.inj h2).1
      subst hs
      have hid := iderw_ident s1 (.slot a) (.slot a)
      rw [getBuf_slot, getBuf_slot] at hid
      refine ⟨by rw [iderw_order, ho],
        fun q hq => by rw [iderw_getBuf_ne s1 hq, hne q hq],
        by rw [hid.1, hd], by rw [hid.2.1, hb], hid.2.2.1, ?_, hp.symm⟩
      have := iderw_valid s1 (.slot a)
      rw [getBuf_slot] at this
      exact this
  obtain ⟨ho', hne', hd', hb', hold', hv', hp'⟩ := key
  have hsame : ∀ x, x ≠ a → s'.bcache.buf x = s.bcache.buf x := by
    intro x hx
    have := hne' (.slot x) (slot_ne hx)
    rw [getBuf_slot, getBuf_slot] at this
    exact this
  have hhead : s'.bcache.head = s.bcache.head := by
    have := hne' .head (fun h => BufPtr.noConfusion h)
    rw [getBuf_head, getBuf_head] at this
    exact this
  refine ⟨⟨fun hc => ?_, fun hn => by rw [ho']; exact hn, fun i => by rw [ho'],
    fun i hv => ?_, by rw [hhead]⟩, a, hp', ha, hv'⟩
  · exact Coh_acquire dev blockno a (fun _ => False) ho' ha
      (fun _ h => h.elim) (fun x hx _ => hsame x hx) (fun _ => ⟨hd', hb'⟩)
      (fun _ hold => hfirst (by rw [← hold']; exact hold)) hc
  · by_cases hi : i = a
    · rw [hi]
      exact hv'
    · rw [hsame i hi]
      exact hv

/-- What `bread_wr_fill` leaves: the list and every buffer other than the two are
unchanged; the copy is tagged OLD and VALID; the working copy, when it is another buffer,
keeps its device, block number and OLD and is VALID. -/
theorem bread_wr_fill_shape (s : State) (bnew bold : BufPtr) :
    (bread_wr_fill s bnew bold).bcache.order = s.bcache.order ∧
    (∀ q, q ≠ bnew → q ≠ bold → (bread_wr_fill s bnew bold).getBuf q = s.getBuf q) ∧
    ((bread_wr_fill s bnew bold).getBuf bold).old = true ∧
    ((bread_wr_fill s bnew bold).getBuf bold).valid = true ∧
    (bnew ≠ bold →
      ((bread_wr_fill s bnew bold).getBuf bnew).dev = (s.getBuf bnew).dev ∧
      ((bread_wr_fill s bnew bold).getBuf bnew).blockno = (s.getBuf bnew).blockno ∧
      ((bread_wr_fill s bnew bold).getBuf bnew).old = (s.getBuf bnew).old ∧
      ((bread_wr_fill s bnew bold).getBuf bnew).valid = true) := by
  unfold bread_wr_fill
  simp only
  generalize hs3 : s.modBuf bold (fun b => b.setData (s.getBuf bnew).data) = s3
  have o3 : s3.bcache.order = s.bcache.order := by rw [← hs3, modBuf_order]
  have n3 : ∀ q, q ≠ bold → s3.getBuf q = s.getBuf q := fun q hq => by
    rw [← hs3, getBuf_modBuf_ne _ _ hq]
  generalize hs4 : s3.modBuf bold (fun b => b.copyFlags (s3.getBuf bnew)) = s4
  have o4 : s4.bcache.order = s.bcache.order := by rw [← hs4, modBuf_order, o3]
  have n4 : ∀ q, q ≠ bold → s4.getBuf q = s.getBuf q := fun q hq => by
    rw [← hs4, getBuf_modBuf_ne _ _ hq, n3 q hq]
  have v4 : (s4.getBuf bold).valid = (s3.getBuf bnew).valid := by
    rw [← hs4, getBuf_modBuf_same, copyFlags_valid]
  by_cases hv : (s4.getBuf bnew).valid = true
  · rw [if_pos hv]
    refine ⟨by rw [modBuf_order, o4],
      fun q _ hq => by rw [getBuf_modBuf_ne _ _ hq, n4 q hq],
      by rw [getBuf_modBuf_same, setOld_old], ?_, fun hne => ?_⟩
    · rw [getBuf_modBuf_same, setOld_valid]
      by_cases hbb : bnew = bold
      · rw [← hbb]
        exact hv
      · rw [v4, ← hv, ← hs4, getBuf_modBuf_ne _ _ hbb]
    · rw [getBuf_modBuf_ne _ _ hne, n4 bnew hne]
      refine ⟨rfl, rfl, rfl, ?_⟩
      rw [← n4 bnew hne]
      exact hv
  · rw [if_neg hv]
    refine ⟨by rw [modBuf_order, iderw_order, iderw_order, o4],
      fun q hq1 hq2 => by
        rw [getBuf_modBuf_ne _ _ hq2, iderw_getBuf_ne _ hq2, iderw_getBuf_ne _ hq1, n4 q hq2],
      by rw [getBuf_modBuf_same, setOld_old], ?_, fun hne => ?_⟩
    · rw [getBuf_modBuf_same, setOld_valid]
      exact iderw_valid _ _
    · rw [getBuf_modBuf_ne _ _ hne, iderw_getBuf_ne _ hne]
      have hid := iderw_ident s4 bnew bnew
      rw [n4 bnew hne] at hid
      exact ⟨hid.1, hid.2.1, hid.2.2.1, iderw_valid _ _⟩

/-- `bread_wr`, when it returns, is a good step, and the buffer it returns is a VALID slot
of the list. -/
theorem bread_wr_good {s s' : State} {dev blockno : Nat} {p : BufPtr}
    (h : bread_wr s dev blockno = .ok p s') :
    Good s s' ∧ ∃ a, p = .slot a ∧ a ∈ s.bcache.order ∧ (s'.bcache.buf a).valid = true := by
  unfold bread_wr at h
  obtain ⟨bnew, s1, h1, h2⟩ := bind_eq_ok h
  obtain ⟨bold, s2, h3, h4⟩ := bind_eq_ok h2
  obtain ⟨a, hp, ha, ho, hne, hd, hb, hfirst⟩ := bget_shape h1
  subst hp
  have hs := (Res.ok.inj h4).2
  have hp := (Res.ok.inj h4).1
  subst hs
  rcases bget_again_cases s1 dev blockno with ⟨z, _, hz, _, he⟩ | ⟨_, he⟩
  swap
  · rw [he] at h3
    exact Res.noConfusion h3
  rw [he] at h3
  have hbold := (Res.ok.inj h3).1
  have hs2 := (Res.ok.inj h3).2
  subst hbold
  rw [ho] at hz
  obtain ⟨fo, fne, fold, fvalid, fnew⟩ := bread_wr_fill_shape s2 (.slot a) (.slot z)
  generalize bread_wr_fill s2 (.slot a) (.slot z) = sf at fo fne fold fvalid fnew
  have o2 : s2.bcache.order = s.bcache.order := by rw [← hs2, setBuf_order, ho]
  have n2 : ∀ q, q ≠ .slot z → s2.getBuf q = s1.getBuf q := fun q hq => by
    rw [← hs2, getBuf_setBuf_ne _ _ hq]
  have hsame : ∀ x, x ≠ a → x ≠ z → sf.bcache.buf x = s.bcache.buf x := by
    intro x hxa hxz
    have := fne (.slot x) (slot_ne hxa) (slot_ne hxz)
    rw [n2 _ (slot_ne hxz), hne _ (slot_ne hxa), getBuf_slot, getBuf_slot] at this
    exact this
  have hhead : sf.bcache.head = s.bcache.head := by
    have := fne .head (fun h => BufPtr.noConfusion h) (fun h => BufPtr.noConfusion h)
    rw [n2 _ (fun h => BufPtr.noConfusion h), hne _ (fun h => BufPtr.noConfusion h),
      getBuf_head, getBuf_head] at this
    exact this
  rw [getBuf_slot] at fold fvalid
  have hva : (sf.bcache.buf a).valid = true := by
    by_cases haz : a = z
    · rw [haz]
      exact fvalid
    · exact (fnew (slot_ne haz)).2.2.2
  refine ⟨⟨fun hc => ?_, fun hn => by rw [fo, o2]; exact hn, fun i => by rw [fo, o2],
    fun i hv => ?_, by rw [hhead]⟩, a, hp.symm, ha, hva⟩
  · apply Coh_acquire dev blockno a (fun x => x = z)
      (by rw [fo, o2]) ha (fun x hx => by rw [hx]; exact fold)
      (fun x hxa hxz => hsame x hxa hxz) ?_ ?_ hc
    · intro haz
      obtain ⟨f1, f2, _, _⟩ := fnew (slot_ne haz)
      rw [n2 _ (slot_ne haz), getBuf_slot, getBuf_slot] at f1 f2
      exact ⟨by rw [f1, hd], by rw [f2, hb]⟩
    · intro haz hold
      obtain ⟨_, _, f3, _⟩ := fnew (slot_ne haz)
      rw [n2 _ (slot_ne haz), getBuf_slot, getBuf_slot] at f3
      exact hfirst (by rw [← f3]; exact hold)
  · by_cases hiz : i = z
    · rw [hiz]
      exact fvalid
    · by_cases hia : i = a
      · rw [hia]
        exact hva
      · rw [hsame i hia hiz]
        exact hv

/-! ## One working copy per block: the log operations -/

/-- `Coh` reads the list and the slots only. -/
theorem Coh_congr_bufs {c c' : Bcache} (ho : c'.order = c.order)
    (hb : ∀ i, c'.buf i = c.buf i) (hc : Coh c) : Coh c' := by
  intro i hi hv hold
  rw [ho] at hi ⊢
  rw [hb] at hv hold ⊢
  rw [@matchesNew_congr c c' (fun j => by rw [hb j]; exact ⟨rfl, rfl, rfl⟩)]
  exact hc i hi hv hold

/-- `write_head`, when it returns, is a good step. -/
theorem write_head_good {s s' : State} (h : write_head s = .ok () s') : Good s s' := by
  unfold write_head at h
  obtain ⟨buf, s1, h1, h2⟩ := bind_eq_ok h
  have hs := (Res.ok.inj h2).2
  subst hs
  obtain ⟨G1, t, ht, htm, hv⟩ := bread_good h1
  subst ht
  generalize write_head_data s1.log (s1.getBuf (.slot t)).data = D
  have qA := Quiet_setData s1 (.slot t) D
  have qB := Quiet_bwrite (setData s1 (.slot t) D) (.slot t) (fun j hj => by
    rw [qA.valid, ← BufPtr.slot.inj hj]
    exact hv)
  have q := Quiet_trans qA qB
  apply Good_trans G1 (Good_trans (Quiet_good q) _)
  apply Good_brelse
  · rw [q.order]
    exact (G1.mem t).2 htm
  · left
    rw [q.valid]
    exact hv

/-- The loop of `install_trans`, when it returns, is a good step. -/
theorem install_trans_loop_good (f : FaultFlags) (fuel : Nat) {tail : Nat} {s s' : State}
    (h : install_trans_loop f fuel tail s = .ok () s') : Good s s' := by
  induction fuel generalizing tail s with
  | zero =>
    unfold install_trans_loop at h
    have hs := (Res.ok.inj h).2
    subst hs
    exact Good_refl _
  | succ k ih =>
    unfold install_trans_loop at h
    split_ifs at h
    refine Good_trans ?_ (ih h)
    unfold bread_wr_new bget_new
    cases hf : s.bcache.order.find? (matchesNew s.bcache s.log.dev (s.log.block tail)) with
    | none => exact Quiet_good (Quiet_bwrite s .head (fun j hj => BufPtr.noConfusion hj))
    | some j =>
      apply Good_bwrite s j (List.mem_of_find?_eq_some hf)
      intro _
      right
      obtain ⟨hd, hb, _⟩ := (matchesNew_iff _ _ _ _).1 (List.find?_some hf)
      rw [hd, hb]
      exact hf

/-- `commit`, when it returns, is a good step. -/
theorem commit_good {f : FaultFlags} {s s' : State} (h : commit f s = .ok () s') :
    Good s s' := by
  unfold commit at h
  by_cases hn : s.log.n > 0
  · rw [if_pos hn] at h
    by_cases p1 : f.PANIC_1 = true
    · rw [if_pos p1] at h
      exact Res.noConfusion h
    rw [if_neg p1] at h
    obtain ⟨_, s1, e1, h⟩ := bind_eq_ok h
    by_cases p2 : f.PANIC_2 = true
    · rw [if_pos p2] at h
      exact Res.noConfusion h
    rw [if_neg p2] at h
    obtain ⟨_, s2, e2, h⟩ := bind_eq_ok h
    by_cases p3 : f.PANIC_3 = true
    · rw [if_pos p3] at h
      exact Res.noConfusion h
    rw [if_neg p3] at h
    obtain ⟨_, s3, e3, h⟩ := bind_eq_ok h
    by_cases p4 : f.PANIC_4 = true
    · rw [if_pos p4] at h
      exact Res.noConfusion h
    rw [if_neg p4] at h
    have hs := (Res.ok.inj h).2
    subst hs
    exact Good_trans (write_head_good e1) (Good_trans (install_trans_loop_good f _ e2)
      (Good_trans (Quiet_good (Quiet_setLog s2 _)) (write_head_good e3)))
  · rw [if_neg hn] at h
    have hs := (Res.ok.inj h).2
    subst hs
    exact Good_refl _

/-- The second half of `log_write`, when it returns while the reference count of the
sentinel is not 1: it keeps `Coh`, the members of the list and the VALID flags that are
set, and it lowers the reference count of the sentinel at most once. -/
theorem log_write_copy_step {s s' : State} {i : Nat} {b : BufPtr}
    (h : log_write_copy s i b = .ok () s') (h1 : s.bcache.head.refcnt ≠ 1)
    (h2 : s.bcache.head.refcnt < 4294967296) :
    (Coh s.bcache → Coh s'.bcache) ∧ (s.bcache.order.Nodup → s'.bcache.order.Nodup) ∧
    (∀ x, x ∈ s'.bcache.order ↔ x ∈ s.bcache.order) ∧
    (∀ x, (s.bcache.buf x).valid = true → (s'.bcache.buf x).valid = true) ∧
    (s'.bcache.head.refcnt = s.bcache.head.refcnt ∨
      s'.bcache.head.refcnt = refDec s.bcache.head.refcnt) := by
  unfold log_write_copy at h
  obtain ⟨tobuf, s1, e1, e2⟩ := bind_eq_ok h
  simp only at e2
  have hs := (Res.ok.inj e2).2
  subst hs
  obtain ⟨G1, t, ht, htm, hv⟩ := bread_good e1
  subst ht
  have hfrm : (∃ j, bread_wr_old s1 s1.log.dev (s1.log.block i) = .slot j ∧
      j ∈ s1.bcache.order ∧ (s1.bcache.buf j).old = true) ∨
      bread_wr_old s1 s1.log.dev (s1.log.block i) = .head := by
    unfold bread_wr_old bget_old
    cases hf : s1.bcache.order.find? (matchesOld s1.bcache s1.log.dev (s1.log.block i)) with
    | none => exact Or.inr rfl
    | some j =>
      exact Or.inl ⟨j, rfl, List.mem_of_find?_eq_some hf,
        ((matchesOld_iff _ _ _ _).1 (List.find?_some hf)).2.2⟩
  generalize bread_wr_old s1 s1.log.dev (s1.log.block i) = frm at hfrm
  generalize (s1.getBuf frm).data = D
  have qA := Quiet_setData s1 (.slot t) D
  have qB := Quiet_bwrite (setData s1 (.slot t) D) (.slot t) (fun j hj => by
    rw [qA.valid, ← BufPtr.slot.inj hj]
    exact hv)
  have qC := Quiet_setDirty (bwrite (setData s1 (.slot t) D) (.slot t)) frm false
  have Q := Quiet_trans (Quiet_trans qA qB) qC
  generalize (bwrite (setData s1 (.slot t) D) (.slot t)).modBuf frm
    (fun x => x.setDirty false) = sC at Q
  have htC : t ∈ sC.bcache.order := by
    rw [Q.order]
    exact (G1.mem t).2 htm
  have hvC : (sC.bcache.buf t).valid = true := by
    rw [Q.valid]
    exact hv
  have qF := Quiet_setDirty (brelse (brelse sC frm) (.slot t)) b true
  rcases hfrm with ⟨j, hj, hjm, hjo⟩ | hh
  · subst hj
    have GD : Good sC (brelse sC (.slot j)) :=
      Good_brelse sC j (by rw [Q.order]; exact hjm) (Or.inr (by rw [Q.old]; exact hjo))
    have GE : Good (brelse sC (.slot j)) (brelse (brelse sC (.slot j)) (.slot t)) :=
      Good_brelse _ t ((GD.mem t).2 htC) (Or.inl (GD.valid t hvC))
    have G := Good_trans G1 (Good_trans (Quiet_good Q) (Good_trans GD
      (Good_trans GE (Quiet_good qF))))
    exact ⟨G.coh, G.nodup, G.mem, G.valid, Or.inl G.head⟩
  · subst hh
    have hC1 : sC.bcache.head.refcnt = s.bcache.head.refcnt := by rw [Q.head, G1.head]
    obtain ⟨ho, hb, hr⟩ := brelse_head sC (by rw [hC1]; exact h1) (by rw [hC1]; exact h2)
    have GE : Good (brelse sC .head) (brelse (brelse sC .head) (.slot t)) :=
      Good_brelse _ t (by rw [ho]; exact htC) (Or.inl (by rw [hb]; exact hvC))
    have G0 := Good_trans G1 (Quiet_good Q)
    have G2 := Good_trans GE (Quiet_good qF)
    refine ⟨fun hc => G2.coh (Coh_congr_bufs ho hb (G0.coh hc)),
      fun hn => G2.nodup (by rw [ho]; exact G0.nodup hn),
      fun x => by rw [G2.mem, ho, G0.mem],
      fun x hx => G2.valid x (by rw [hb]; exact G0.valid x hx), Or.inr ?_⟩
    rw [G2.head, hr, hC1]

/-- `log_write`, when it returns while the reference count of the sentinel is not 1. -/
theorem log_write_step {s s' : State} {b : BufPtr} (h : log_write s b = .ok () s')
    (h1 : s.bcache.head.refcnt ≠ 1) (h2 : s.bcache.head.refcnt < 4294967296) :
    (Coh s.bcache → Coh s'.bcache) ∧ (s.bcache.order.Nodup → s'.bcache.order.Nodup) ∧
    (∀ x, x ∈ s'.bcache.order ↔ x ∈ s.bcache.order) ∧
    (∀ x, (s.bcache.buf x).valid = true → (s'.bcache.buf x).valid = true) ∧
    (s'.bcache.head.refcnt = s.bcache.head.refcnt ∨
      s'.bcache.head.refcnt = refDec s.bcache.head.refcnt) := by
  by_cases hg : s.log.n ≥ LOGSIZE ∨ (s.log.n : Int) ≥ (s.log.size : Int) - 1
  · unfold log_write at h
    rw [if_pos hg] at h
    exact Res.noConfusion h
  · rw [log_write_eq s b _ hg rfl] at h
    exact log_write_copy_step (s := s.setLog (s.log.record
      (absorb_index s.log.block (s.getBuf b).blockno s.log.n 0) (s.getBuf b).blockno)) h h1 h2

/-! ## One working copy per block: every reachable state -/

theorem CInv_fresh (lg : Log) (disk : Disk) : CInv 0 (State.mk (binit zeroBcache) lg disk) [] :=
  ⟨binit_order_nodup, fun i _ hv _ => Bool.noConfusion hv,
    fun p hp => absurd hp (List.not_mem_nil p),
    by show 0 < 4294967296; omega, Or.inl rfl⟩

/-- A good step keeps the invariant, with the pointers handed out so far. -/
theorem CInv_good {n : Nat} {s s' : State} {ps : List BufPtr} (G : Good s s')
    (hI : CInv n s ps) : CInv n s' ps :=
  ⟨G.nodup hI.nodup, G.coh hI.coh,
    fun p hp => by
      obtain ⟨i, h1, h2, h3⟩ := hI.ptrs p hp
      exact ⟨i, h1, (G.mem i).2 h2, G.valid i h3⟩,
    by rw [G.head]; exact hI.hbound, by rw [G.head]; exact hI.sentinel⟩

/-- A good step that hands out a VALID slot of the list keeps the invariant. -/
theorem CInv_acquire {n : Nat} {s s' : State} {ps : List BufPtr} {p : BufPtr}
    (G : Good s s')
    (hp : ∃ a, p = .slot a ∧ a ∈ s.bcache.order ∧ (s'.bcache.buf a).valid = true)
    (hI : CInv n s ps) : CInv n s' (p :: ps) := by
  have hI' := CInv_good G hI
  refine ⟨hI'.nodup, hI'.coh, fun q hq => ?_, hI'.hbound, hI'.sentinel⟩
  rcases List.mem_cons.1 hq with h | h
  · obtain ⟨a, h1, h2, h3⟩ := hp
    exact ⟨a, by rw [h, h1], (G.mem a).2 h2, h3⟩
  · exact hI'.ptrs q h

/-- The invariant holds in every state reached with fewer than `2^32 - 1` calls of
`log_write`. -/
theorem Reach_CInv {n : Nat} {s : State} {ps : List BufPtr} (h : Reach n s ps)
    (hn : n < 4294967295) : CInv n s ps := by
  induction h with
  | init lg disk => exact CInv_fresh lg disk
  | read dev blockno _ hb ih =>
    obtain ⟨G, hp⟩ := bread_good hb
    exact CInv_acquire G hp (ih hn)
  | readWr dev blockno _ hb ih =>
    obtain ⟨G, hp⟩ := bread_wr_good hb
    exact CInv_acquire G hp (ih hn)
  | store p d _ hp ih =>
    exact CInv_good (Quiet_good (Quiet_setData _ p d)) (ih hn)
  | write p _ hp ih =>
    have hI := ih hn
    obtain ⟨j, h1, h2, h3⟩ := hI.ptrs p hp
    subst h1
    exact CInv_good (Quiet_good (Quiet_bwrite _ _ (fun k hk => by
      rw [← BufPtr.slot.inj hk]
      exact h3))) hI
  | logWrite p _ hp hl ih =>
    have hI := ih (by omega)
    have hb := hI.hbound
    have hs := hI.sentinel
    obtain ⟨c1, c2, c3, c4, c5⟩ := log_write_step hl (by omega) hb
    refine ⟨c2 hI.nodup, c1 hI.coh, fun q hq => ?_, ?_, ?_⟩
    · obtain ⟨i, h1, h2, h3⟩ := hI.ptrs q hq
      exact ⟨i, h1, (c3 i).2 h2, c4 i h3⟩
    · rcases c5 with h | h
      · rw [h]
        exact hb
      · rw [h]
        unfold refDec
        omega
    · rcases c5 with h | h
      · rw [h]
        omega
      · rw [h]
        unfold refDec
        omega
  | endOp f _ he ih =>
    exact CInv_good (commit_good he) (ih hn)
  | release p _ hp ih =>
    have hI := ih hn
    obtain ⟨j, h1, h2, h3⟩ := hI.ptrs p hp
    subst h1
    exact CInv_good (Good_brelse _ j h2 (Or.inl h3)) hI

/-- One working copy per block. In every cache state reached from `binit`
through calls of `bread`, `bread_wr`, `bwrite`, `log_write`, `end_op` and `brelse` that
return and through stores into buffers, where every pointer passed to a call was returned
by an earlier `bread` or `bread_wr` and fewer than `2^32 - 1` calls of `log_write` were
made: for every device and block there is at most one resident buffer with that device and
block number that is not tagged OLD. -/
theorem one_working_copy {n : Nat} {s : State} {ps : List BufPtr} (h : Reach n s ps)
    (hn : n < 4294967295) (dev blockno : Nat) :
    (newCopies s dev blockno).length ≤ 1 := by
  have hI := Reach_CInv h hn
  apply length_le_one_of_all_eq
  · exact (hI.nodup.filter _).filter _
  · intro a ha b hb
    unfold newCopies copies at ha hb
    simp only [List.mem_filter, Bool.and_eq_true, Bool.not_eq_true'] at ha hb
    obtain ⟨⟨ha1, ha2, ha3⟩, ha4⟩ := ha
    obtain ⟨⟨hb1, hb2, hb3⟩, hb4⟩ := hb
    obtain ⟨ad, ab⟩ := (matches_iff _ _ _ _).1 ha2
    obtain ⟨bd, bb⟩ := (matches_iff _ _ _ _).1 hb2
    exact Coh_unique hI.coh ha1 hb1 ha3 ha4 hb3 hb4 (by rw [ad, bd]) (by rw [ab, bb])

/-- The state `exThreeCopies` is reached by a client: `bread_wr`, a store, `log_write`,
`brelse`, `end_op`, `bread_wr`. -/
theorem exThreeCopies_reach :
    Reach 1 exThreeCopies.state [.slot 0, .slot 0] :=
  Reach.readWr 1 5
    (Reach.endOp noFault
      (Reach.release (.slot 0)
        (Reach.logWrite (.slot 0)
          (Reach.store (.slot 0) (pay 7)
            (Reach.readWr 1 5 (Reach.init exFresh.log exDisk)
              (show bread_wr exFresh 1 5 = .ok (.slot 0) (bread_wr exFresh 1 5).state from rfl))
            (List.mem_cons_self _ _))
          (List.mem_cons_self _ _)
          (show log_write (setData (bread_wr exFresh 1 5).state (.slot 0) (pay 7)) (.slot 0) =
            .ok () (log_write (setData (bread_wr exFresh 1 5).state (.slot 0) (pay 7))
              (.slot 0)).state from rfl))
        (List.mem_cons_self _ _))
      (show end_op noFault (brelse (log_write (setData (bread_wr exFresh 1 5).state (.slot 0)
          (pay 7)) (.slot 0)).state (.slot 0)) = .ok () exTwoCopies.state from rfl))
    (show bread_wr exTwoCopies.state 1 5 = .ok (.slot 0) exThreeCopies.state from rfl)

set_option maxRecDepth 100000 in
/-- C15 (evaluation at the failing input). From the fresh cache, one whole transaction on
block 5 leaves two resident copies of block 5 although `end_op` has completed (`n = 0`):
the OLD-tagged snapshot is not retired. The `bread_wr` that opens the next transaction on
block 5 then makes three resident copies, two of them tagged OLD. That state is reached by
a client run. -/
theorem three_copies_after_second_transaction :
    Reach 1 exThreeCopies.state [.slot 0, .slot 0] ∧
    exTwoCopies.isOk = true ∧ exTwoCopies.state.log.n = 0 ∧
    (copies exTwoCopies.state 1 5).length = 2 ∧
    exThreeCopies.isOk = true ∧
    (copies exThreeCopies.state 1 5).length = 3 ∧
    (oldCopies exThreeCopies.state 1 5).length = 2 :=
  ⟨exThreeCopies_reach, by decide⟩

set_option maxRecDepth 100000 in
/-- In `exThreeCopies`, where block 5 has three resident copies, exactly one of them is not
tagged OLD. -/
theorem one_working_copy_witness :
    (newCopies exThreeCopies.state 1 5).length ≤ 1 ∧
    (newCopies exThreeCopies.state 1 5).length = 1 :=
  ⟨one_working_copy exThreeCopies_reach (by decide) 1 5, by decide⟩

end UndoLog
